import Mathlib

/-!
Verification of the QScript quantum-scripting engine
(quantumplayground.net source: `qmath.js`, `compiler.js`, and the
simulator engine).  Machine numbers of the JavaScript source are
modelled as `Nat` / `ℤ` (the classical values flowing through the
engine are numeric and the claims depend only on integral values, so
JavaScript doubles are modelled as integers).  GPU shader kernels are
external to the repository source; where a simulator method only hands
work to a shader we record the invocation as an opaque operation label.
-/

set_option maxHeartbeats 1000000

namespace QPlay

/-! ## Numeric utilities (`qmath.js`) -/

/-- Loop of `QMath.expModN`: right-to-left binary exponentiation.
Mirrors `while (exp > 0) { if (exp & 1) result = (result*base)%N;
base = (base*base)%N; exp >>= 1; }`.  Structural recursion on a fuel
counter; `expModN` passes enough fuel for the loop to run to its
`exp = 0` exit, so the fuel never alters the computed value. -/
def expModNGo (N base result exp fuel : Nat) : Nat :=
  match fuel with
  | 0 => result
  | fuel + 1 =>
    if exp = 0 then result
    else
      expModNGo N ((base * base) % N)
        (if exp % 2 = 1 then (result * base) % N else result) (exp / 2) fuel

/-- `QMath.expModN(x, k, N)`: starts from `base = x % N`, `result = 1`. -/
def expModN (x k N : Nat) : Nat :=
  expModNGo N (x % N) 1 k (k + 1)

/-- The binary-exponentiation loop computes `result * base^exp mod N`,
provided the accumulator is already reduced and the fuel dominates the
bit length of the exponent. -/
theorem expModNGo_eq (N : Nat) :
    ∀ fuel exp base result : Nat, exp < 2 ^ fuel → result < N →
      expModNGo N base result exp fuel = (result * base ^ exp) % N := by
  intro fuel
  induction fuel with
  | zero =>
    intro exp base result hexp hr
    have h0 : exp = 0 := by
      simp only [pow_zero] at hexp
      omega
    subst h0
    simp [expModNGo, Nat.mod_eq_of_lt hr]
  | succ fuel ih =>
    intro exp base result hexp hr
    have hN : 0 < N := by omega
    rw [expModNGo]
    split
    · rename_i h0
      subst h0
      simp [Nat.mod_eq_of_lt hr]
    · rename_i hne
      have hdiv : exp / 2 < 2 ^ fuel := by
        have hp : (2 : Nat) ^ (fuel + 1) = 2 * 2 ^ fuel := by
          rw [pow_succ]
          ring
        omega
      have hr' : (if exp % 2 = 1 then (result * base) % N else result) < N := by
        split
        · exact Nat.mod_lt _ hN
        · exact hr
      rw [ih _ _ _ hdiv hr']
      have hb : ((base * base) % N : Nat) ≡ base * base [MOD N] := Nat.mod_modEq _ N
      rcases Nat.mod_two_eq_zero_or_one exp with hpar | hpar
      · rw [if_neg (by omega : ¬ exp % 2 = 1)]
        have h1 : result * ((base * base) % N) ^ (exp / 2) ≡
            result * (base * base) ^ (exp / 2) [MOD N] :=
          (Nat.ModEq.refl result).mul (hb.pow (exp / 2))
        rw [h1]
        have h2 : (base * base) ^ (exp / 2) = base ^ exp := by
          rw [← pow_two, ← pow_mul]
          have h3 : 2 * (exp / 2) = exp := by omega
          rw [h3]
        rw [h2]
      · rw [if_pos hpar]
        have h1 : (result * base) % N * ((base * base) % N) ^ (exp / 2) ≡
            (result * base) * (base * base) ^ (exp / 2) [MOD N] :=
          (Nat.mod_modEq (result * base) N).mul (hb.pow (exp / 2))
        rw [h1]
        have h2 : result * base * (base * base) ^ (exp / 2) = result * base ^ exp := by
          rw [mul_assoc, ← pow_two, ← pow_mul]
          rw [← pow_succ']
          have h3 : 2 * (exp / 2) + 1 = exp := by omega
          rw [h3]
        rw [h2]

/-- For a modulus of at least 2, `QMath.expModN` computes `x^k mod N`.
(For `N = 1` and `k = 0` the code returns `1`, not `0 = x^0 mod 1`.) -/
theorem expModN_eq (x k N : Nat) (hN : 2 ≤ N) :
    expModN x k N = x ^ k % N := by
  have hk : k < 2 ^ (k + 1) := lt_of_lt_of_le (Nat.lt_two_pow k) (Nat.pow_le_pow_right (by norm_num) (Nat.le_succ k))
  rw [expModN, expModNGo_eq N (k + 1) k (x % N) 1 hk (by omega)]
  rw [one_mul, ← Nat.pow_mod]

/-- Witness: `expModN 7 4 15 = 7^4 mod 15 = 1`. -/
theorem expModN_eq_witness : expModN 7 4 15 = 7 ^ 4 % 15 :=
  expModN_eq 7 4 15 (by decide)

/-- Loop of `QMath.getWidth`: `for (i = 1; 1 << i < n; i++) {}`. -/
def getWidthGo (n i : Nat) : Nat :=
  if 2 ^ i < n then getWidthGo n (i + 1) else i
termination_by n - 2 ^ i
decreasing_by
  rename_i h
  have h2 : 2 ^ i < 2 ^ (i + 1) := Nat.pow_lt_pow_succ (by norm_num)
  omega

/-- `QMath.getWidth(n)`: the loop starts at `i = 1`. -/
def getWidth (n : Nat) : Nat :=
  getWidthGo n 1

/-- The `getWidth` loop returns the least `j ≥ i` with `2^j ≥ n`. -/
theorem getWidthGo_spec :
    ∀ fuel n i, n - 2 ^ i ≤ fuel →
      i ≤ getWidthGo n i ∧ n ≤ 2 ^ getWidthGo n i ∧
        ∀ j, i ≤ j → n ≤ 2 ^ j → getWidthGo n i ≤ j := by
  intro fuel
  induction fuel with
  | zero =>
    intro n i hf
    have hle : n ≤ 2 ^ i := by omega
    rw [getWidthGo, if_neg (by omega)]
    exact ⟨le_refl i, hle, fun j hj _ => hj⟩
  | succ fuel ih =>
    intro n i hf
    rw [getWidthGo]
    split
    · rename_i hlt
      have h2 : 2 ^ i < 2 ^ (i + 1) := Nat.pow_lt_pow_succ (by norm_num)
      have hrec := ih n (i + 1) (by omega)
      refine ⟨le_trans (Nat.le_succ i) hrec.1, hrec.2.1, ?_⟩
      intro j hj hnj
      have hij : i + 1 ≤ j := by
        rcases Nat.eq_or_lt_of_le hj with h | h
        · subst h
          omega
        · omega
      exact hrec.2.2 j hij hnj
    · rename_i hge
      exact ⟨le_refl i, by omega, fun j hj _ => hj⟩

/-- C9 counterexample: the claim says `getWidth n` is the smallest `i`
with `2^i ≥ n`; at `n = 1` that smallest `i` is `0` (since `2^0 ≥ 1`),
but the code returns `1` because its loop starts at `i = 1`. -/
theorem getWidth_one_not_least : getWidth 1 = 1 ∧ 1 ≤ 2 ^ 0 ∧ (0 : Nat) ≠ 1 := by
  refine ⟨?_, by decide, by decide⟩
  rw [getWidth, getWidthGo]
  norm_num

/-- C9 amended: `getWidth n` is the smallest `i ≥ 1` with `2^i ≥ n`. -/
theorem getWidth_least : ∀ n : Nat,
    1 ≤ getWidth n ∧ n ≤ 2 ^ getWidth n ∧
      ∀ j, 1 ≤ j → n ≤ 2 ^ j → getWidth n ≤ j := by
  intro n
  exact getWidthGo_spec (n - 2 ^ 1) n 1 (le_refl _)

/-- Witness for the amended C9 theorem at `n = 5`: the result is `3`. -/
theorem getWidth_least_witness :
    1 ≤ getWidth 5 ∧ 5 ≤ 2 ^ getWidth 5 ∧ getWidth 5 ≤ 3 :=
  ⟨(getWidth_least 5).1, (getWidth_least 5).2.1,
    (getWidth_least 5).2.2 3 (by decide) (by decide)⟩

/-! ## Simulator texture operations (`quantum.Simulator`)

The texture `texArray` stores one basis state per 4-float RGBA slot as
`[re, im, 0, 0]`; we model it as a list of `(re, im)` pairs.
Out-of-range writes into a JavaScript typed array are dropped, which is
exactly the behaviour of `List.set`; out-of-range reads are modelled as
`(0, 0)` (the theorems below only ever read in range). -/

/-- `Simulator.generateZeroTexture`: zero every slot, then `a[0] = 1.0`
(only the real component of slot 0). -/
def generateZeroTexture (len : Nat) : List (ℤ × ℤ) :=
  (List.replicate len ((0 : ℤ), (0 : ℤ))).set 0 (1, 0)

/-- Write only the real component of slot `i` (a single-float store such
as `this.texArray[0] = 0`). -/
def setRe (a : List (ℤ × ℤ)) (i : Nat) (v : ℤ) : List (ℤ × ℤ) :=
  a.set i (v, (a.getD i (0, 0)).2)

/-- `Simulator.applyExpModN(x, N, width)`: read the current state, zero
the texture (including resetting the `1.0` that `generateZeroTexture`
wrote into slot 0), then for `i = 0 .. 2^width − 1` copy amplitude `i`
into slot `(expModN(x,i,N) << width) + i`. -/
def applyExpModN (x N width : Nat) (state : List (ℤ × ℤ)) : List (ℤ × ℤ) :=
  (List.range (2 ^ width)).foldl
    (fun a i => a.set (expModN x i N * 2 ^ width + i) (state.getD i (0, 0)))
    (setRe (generateZeroTexture state.length) 0 0)

/-- `Simulator.applyRevExpModN(x, N, width)`: same shape with the base
and exponent of the modular power exchanged. -/
def applyRevExpModN (x N width : Nat) (state : List (ℤ × ℤ)) : List (ℤ × ℤ) :=
  (List.range (2 ^ width)).foldl
    (fun a i => a.set (expModN i x N * 2 ^ width + i) (state.getD i (0, 0)))
    (setRe (generateZeroTexture state.length) 0 0)

/-- The zeroed texture reads `(0,0)` at every slot. -/
theorem zeroTexture_getD (len j : Nat) :
    (setRe (generateZeroTexture len) 0 0).getD j (0, 0) = (0, 0) := by
  rcases Nat.eq_zero_or_pos len with h0 | hpos
  · subst h0
    simp [setRe, generateZeroTexture]
  · have hz : generateZeroTexture len =
        (1, 0) :: List.replicate (len - 1) ((0 : ℤ), (0 : ℤ)) := by
      rw [generateZeroTexture]
      rcases Nat.exists_eq_add_of_lt hpos with ⟨m, hm⟩
      subst hm
      simp [List.replicate_succ]
    rw [setRe, hz]
    simp only [List.getD, List.set]
    cases j with
    | zero => simp
    | succ j =>
      simp only [List.get?, List.getD]
      rcases Nat.lt_or_ge j (len - 1) with hj | hj
      · simp [List.get?_eq_get, List.get_replicate, hj]
      · have : (List.replicate (len - 1) ((0 : ℤ), (0 : ℤ))).get? j = none := by
          rw [List.get?_eq_none]
          simpa using hj
        simp [this]

/-- Generic fact: a run of writes none of which targets `j` leaves the
value read at `j` unchanged. -/
theorem foldl_set_getD_of_ne {α : Type} (t : Nat → Nat) (v : Nat → α) :
    ∀ (is : List Nat) (a : List α) (j : Nat) (d : α), (∀ i ∈ is, t i ≠ j) →
      (is.foldl (fun acc i => acc.set (t i) (v i)) a).getD j d = a.getD j d := by
  intro is
  induction is with
  | nil => intro a j d _; rfl
  | cons i rest ih =>
    intro a j d hne
    simp only [List.foldl_cons]
    rw [ih _ _ _ (fun k hk => hne k (List.mem_cons_of_mem i hk))]
    simp only [List.getD]
    rw [List.get?_set_ne _ _ (hne i (List.mem_cons_self i rest))]

/-- Length is preserved by a run of writes. -/
theorem foldl_set_length {α : Type} (t : Nat → Nat) (v : Nat → α) :
    ∀ (is : List Nat) (a : List α),
      (is.foldl (fun acc i => acc.set (t i) (v i)) a).length = a.length := by
  intro is
  induction is with
  | nil => intro a; rfl
  | cons i rest ih =>
    intro a
    simp only [List.foldl_cons]
    rw [ih, List.length_set]

/-- Generic fact: with pairwise distinct targets, the write for `i0`
survives to the end of the run (its target being in range). -/
theorem foldl_set_getD_target {α : Type} (t : Nat → Nat) (v : Nat → α) :
    ∀ (is : List Nat) (a : List α) (i0 : Nat) (d : α), is.Nodup → i0 ∈ is →
      (∀ i ∈ is, i ≠ i0 → t i ≠ t i0) → t i0 < a.length →
      (is.foldl (fun acc i => acc.set (t i) (v i)) a).getD (t i0) d = v i0 := by
  intro is
  induction is with
  | nil => intro a i0 d _ h; cases h
  | cons i rest ih =>
    intro a i0 d hnd hmem hinj hlt
    simp only [List.foldl_cons]
    rcases List.mem_cons.mp hmem with heq | hmem'
    · subst heq
      have hnotin : i0 ∉ rest := (List.nodup_cons.mp hnd).1
      rw [foldl_set_getD_of_ne]
      · simp only [List.getD]
        rw [List.get?_set_eq_of_lt _ hlt]
        rfl
      · intro k hk
        exact hinj k (List.mem_cons_of_mem i0 hk) (fun he => hnotin (he ▸ hk))
    · rw [ih _ _ _ (List.nodup_cons.mp hnd).2 hmem'
        (fun k hk hne => hinj k (List.mem_cons_of_mem i hk) hne)]
      rw [List.length_set]
      exact hlt

/-- The zeroed texture has the same length as the state it replaces. -/
theorem zeroTexture_length (len : Nat) :
    (setRe (generateZeroTexture len) 0 0).length = len := by
  simp [setRe, generateZeroTexture]

/-- C2, amended: for a modulus `N ≥ 2` whose image register fits in the
vector (`N·2^w ≤ 2^n`, `w ≤ n`), `applyExpModN` places the old
amplitude `V[i]` at index `(x^i mod N)·2^w + i` for every `i < 2^w` and
leaves `(0,0)` at every other index.  (For `N = 1` the code files the
`i = 0` amplitude under `expModN(x,0,1) = 1`, not under
`x^0 mod 1 = 0`; indices out of vector range would be dropped.) -/
theorem applyExpModN_spec (x N w n : Nat) (state : List (ℤ × ℤ))
    (hN : 2 ≤ N) (hlen : state.length = 2 ^ n) (_hw : w ≤ n)
    (hrange : N * 2 ^ w ≤ 2 ^ n) :
    (applyExpModN x N w state).length = state.length ∧
    (∀ i, i < 2 ^ w →
      (applyExpModN x N w state).getD (x ^ i % N * 2 ^ w + i) (0, 0) =
        state.getD i (0, 0)) ∧
    (∀ j, j < 2 ^ n → (∀ i, i < 2 ^ w → j ≠ x ^ i % N * 2 ^ w + i) →
      (applyExpModN x N w state).getD j (0, 0) = (0, 0)) := by
  have hNpos : 0 < N := by omega
  have hres : ∀ i, expModN x i N = x ^ i % N := fun i => expModN_eq x i N hN
  have htlt : ∀ i, i < 2 ^ w → x ^ i % N * 2 ^ w + i < 2 ^ n := by
    intro i hi
    have hm : x ^ i % N < N := Nat.mod_lt _ hNpos
    have h1 : x ^ i % N * 2 ^ w + i < N * 2 ^ w := by
      have h2 : x ^ i % N * 2 ^ w + 2 ^ w ≤ N * 2 ^ w := by
        have h3 : x ^ i % N + 1 ≤ N := hm
        calc x ^ i % N * 2 ^ w + 2 ^ w = (x ^ i % N + 1) * 2 ^ w := by ring
          _ ≤ N * 2 ^ w := Nat.mul_le_mul_right _ h3
      omega
    omega
  have hinj : ∀ i, i < 2 ^ w → ∀ i', i' < 2 ^ w →
      x ^ i % N * 2 ^ w + i = x ^ i' % N * 2 ^ w + i' → i = i' := by
    intro i hi i' hi' heq
    have h1 : (x ^ i % N * 2 ^ w + i) % 2 ^ w = i := by
      rw [Nat.add_mod, Nat.mul_mod_left]
      simp [Nat.mod_eq_of_lt hi]
    have h2 : (x ^ i' % N * 2 ^ w + i') % 2 ^ w = i' := by
      rw [Nat.add_mod, Nat.mul_mod_left]
      simp [Nat.mod_eq_of_lt hi']
    rw [← h1, ← h2, heq]
  have hfun : applyExpModN x N w state =
      (List.range (2 ^ w)).foldl
        (fun a i => a.set (x ^ i % N * 2 ^ w + i) (state.getD i (0, 0)))
        (setRe (generateZeroTexture state.length) 0 0) := by
    rw [applyExpModN]
    congr 1
    funext a i
    rw [hres]
  refine ⟨?_, ?_, ?_⟩
  · rw [hfun, foldl_set_length (fun i => x ^ i % N * 2 ^ w + i)
      (fun i => state.getD i (0, 0)), zeroTexture_length]
  · intro i hi
    rw [hfun]
    exact foldl_set_getD_target (fun i => x ^ i % N * 2 ^ w + i)
      (fun i => state.getD i (0, 0)) (List.range (2 ^ w)) _ i (0, 0)
      (List.nodup_range _) (List.mem_range.mpr hi)
      (fun k hk hne => fun he =>
        hne (hinj k (List.mem_range.mp hk) i hi he))
      (by rw [zeroTexture_length, hlen]; exact htlt i hi)
  · intro j hj hnot
    rw [hfun]
    rw [foldl_set_getD_of_ne (fun i => x ^ i % N * 2 ^ w + i)
      (fun i => state.getD i (0, 0)) (List.range (2 ^ w)) _ j (0, 0)
      (fun k hk he => hnot k (List.mem_range.mp hk) he.symm)]
    exact zeroTexture_getD _ _

/-- Witness for the amended C2 theorem: `x = 3`, `N = 3`, `w = 1` on a
4-state vector. -/
theorem applyExpModN_spec_witness :
    (applyExpModN 3 2 1 [(1, 0), (0, 0), (0, 0), (0, 0)]).length =
      ([(1, 0), (0, 0), (0, 0), (0, 0)] : List (ℤ × ℤ)).length ∧
    (∀ i, i < 2 ^ 1 →
      (applyExpModN 3 2 1 [(1, 0), (0, 0), (0, 0), (0, 0)]).getD
          (3 ^ i % 2 * 2 ^ 1 + i) (0, 0) =
        ([(1, 0), (0, 0), (0, 0), (0, 0)] : List (ℤ × ℤ)).getD i (0, 0)) ∧
    (∀ j, j < 2 ^ 2 → (∀ i, i < 2 ^ 1 → j ≠ 3 ^ i % 2 * 2 ^ 1 + i) →
      (applyExpModN 3 2 1 [(1, 0), (0, 0), (0, 0), (0, 0)]).getD j (0, 0) =
        (0, 0)) :=
  applyExpModN_spec 3 2 1 2 [(1, 0), (0, 0), (0, 0), (0, 0)]
    (by decide) (by decide) (by decide) (by decide)

/-- C2 counterexample: at `N = 1` the claim requires the old `V[0]` to
appear at index `(x^0 mod 1)·2^w + 0 = 0`, but `applyExpModN 2 1 1` on
`V = (1,0,0,0)` leaves index 0 zero (the amplitude goes to index 2,
because `expModN(2,0,1) = 1 ≠ 0`). -/
theorem applyExpModN_modOne_counterexample :
    (applyExpModN 2 1 1 [(1, 0), (0, 0), (0, 0), (0, 0)]).getD
        (2 ^ 0 % 1 * 2 ^ 1 + 0) (0, 0) = (0, 0) ∧
    ([(1, 0), (0, 0), (0, 0), (0, 0)] : List (ℤ × ℤ)).getD 0 (0, 0) = (1, 0) ∧
    ((0 : ℤ), (0 : ℤ)) ≠ (1, 0) := by
  refine ⟨by decide, by decide, by decide⟩

/-- Scan loop of `Simulator.applyMeasure`: subtract each probability
from the scaled random draw and return the first index at which the
draw is exhausted (`if (0 >= r) return i / 2`). -/
def applyMeasureGo (r : ℤ) (state : List (ℤ × ℤ)) (idx : Nat) : Int :=
  match state with
  | [] => (idx : Int) - 1
  | p :: rest =>
    let r2 := r - (p.1 * p.1 + p.2 * p.2)
    if 0 ≥ r2 then (idx : Int) else applyMeasureGo r2 rest (idx + 1)

/-- `Simulator.applyMeasure()`: draw `r`, rescale by the (possibly
un-normalized) total probability, scan; the fallthrough returns the
last basis index `(i-2)/2`. -/
def applyMeasure (r0 : ℤ) (state : List (ℤ × ℤ)) : Int :=
  applyMeasureGo
    (r0 * state.foldl (fun acc p => acc + (p.1 * p.1 + p.2 * p.2)) 0) state 0

/-- The scan returns an index below `idx + length` and at least `idx`
when the list is non-empty. -/
theorem applyMeasureGo_range :
    ∀ (state : List (ℤ × ℤ)) (r : ℤ) (idx : Nat), state ≠ [] →
      (idx : Int) ≤ applyMeasureGo r state idx ∧
        applyMeasureGo r state idx < (idx : Int) + state.length := by
  intro state
  induction state with
  | nil => intro r idx h; exact absurd rfl h
  | cons p rest ih =>
    intro r idx _
    rw [applyMeasureGo]
    split
    · constructor
      · exact le_refl _
      · have : (0 : Int) < 1 + rest.length := by positivity
        simp only [List.length_cons]
        push_cast
        omega
    · cases rest with
      | nil =>
        rw [applyMeasureGo]
        simp only [List.length_cons, List.length_nil]
        constructor
        · push_cast
          omega
        · push_cast
          omega
      | cons p2 rest2 =>
        have h2 := ih (r - (p.1 * p.1 + p.2 * p.2)) (idx + 1) (by simp)
        simp only [List.length_cons] at h2 ⊢
        constructor
        · have h3 := h2.1
          push_cast at h3 ⊢
          omega
        · have h3 := h2.2
          push_cast at h3 ⊢
          omega

/-- `applyMeasure` returns a basis index in `[0, 2^n)` whenever the
state vector is non-empty of length `2^n`. -/
theorem applyMeasure_range (r0 : ℤ) (state : List (ℤ × ℤ)) (n : Nat)
    (hlen : state.length = 2 ^ n) :
    0 ≤ applyMeasure r0 state ∧ applyMeasure r0 state < (2 : Int) ^ n := by
  have hne : state ≠ [] := by
    intro h
    rw [h] at hlen
    have := Nat.pos_pow_of_pos n (by norm_num : 0 < 2)
    simp at hlen
    omega
  have h := applyMeasureGo_range state
    (r0 * state.foldl (fun acc p => acc + (p.1 * p.1 + p.2 * p.2)) 0) 0 hne
  rw [applyMeasure]
  constructor
  · exact_mod_cast h.1
  · have h2 := h.2
    rw [hlen] at h2
    push_cast at h2 ⊢
    omega

/-! ## Execution engine (`compiler.js` state, `qmath.js` engine)

The classical values handled by the engine are modelled as `ℤ`.  The
expression evaluator of the source is the host JavaScript `eval`
applied to the translated expression string; it is external to the
repository, so expressions are modelled from the spec (§4.D) as a small
numeric AST whose identifiers are rewritten through `translateId`
exactly as `executeExpression` rewrites ID tokens. -/

/-- `quantum.QScript.MEASURED_VALUE`. -/
def MEASURED_VALUE : String := "measured_value"

/-- `quantum.QScript.VARS_PREFIX` (the object holding script cells). -/
def varsPfx : String := "window."

/-- Modelled from the spec: the classical expressions fed to the host
evaluator (spec §4.D), restricted to the numeric core: literals,
identifier reads, unary minus, `+`, `-`, `*`, and assignment (whose
value is the assigned value).  The host `eval` itself is not part of
the repository source. -/
inductive Expr where
  | lit (v : ℤ)
  | ident (x : String)
  | neg (e : Expr)
  | add (a b : Expr)
  | sub (a b : Expr)
  | mul (a b : Expr)
  | assign (x : String) (e : Expr)
deriving DecidableEq

/-- A translated expression: identifiers replaced by scoped cell names
(or by the substituted `measured_value` literal), as built by the token
loop of `executeExpression`. -/
inductive TExpr where
  | tlit (v : ℤ)
  | tcell (c : String)
  | tneg (e : TExpr)
  | tadd (a b : TExpr)
  | tsub (a b : TExpr)
  | tmul (a b : TExpr)
  | tassign (c : String) (e : TExpr)
deriving DecidableEq

/-- `quantum.QScript.CommandCode`. -/
inductive CtrlCode where
  | forInit | forLoop | forEnd | exprCode | ifCode | elseCode
  | endifCode | returnCode | breakCode
deriving DecidableEq

/-- An opcode command: a control code string, a builtin `Func` (those
have an `execute`), or a user proc (`execute == null`), referenced by
its index in the program fuction table. -/
inductive Cmd where
  | ctrl (c : CtrlCode)
  | builtin (name : String)
  | user (f : Nat)
deriving DecidableEq

/-- `quantum.QScript.Opcode` (runtime form: argument expressions). -/
structure Op where
  command : Cmd
  args : List Expr
  line : Nat
  target : Int
deriving DecidableEq

/-- Static data of one script function (`quantum.QScript.Func`): name,
parent link of the lexical chain, parameter names, compiled body. -/
structure FuncDecl where
  fname : String
  parentIdx : Option Nat
  params : List String
  code : List Op
deriving DecidableEq

/-- A compiled program: the function tree flattened into a table; the
`parentIdx` links realise the `Func.parent` pointers. -/
structure Prog where
  funcs : List FuncDecl
deriving DecidableEq

def defaultFunc : FuncDecl := ⟨"", none, [], []⟩

def defaultOp : Op := ⟨.ctrl .exprCode, [], 0, -1⟩

/-- One external render invocation of the GPU pipeline.  The shader
kernels live outside the repository source, so a gate application is
recorded as the simulator method called with its arguments (irrational
scalar factors such as `1/√2` or `π/2^(c−t)` stay inside the label). -/
inductive SimOp where
  | unitary (b : ℤ) (re im : List ℤ)
  | hadamard (b : ℤ)
  | rx (b θ : ℤ) | ry (b θ : ℤ) | rz (b θ : ℤ)
  | decoherence (s : ℤ)
  | swapg (a b : ℤ)
  | toffoli (a b c : ℤ)
  | cphase (c t φ : ℤ)
  | phaseShift (c t inv : ℤ)
  | sigmaX (b : ℤ) | sigmaY (b : ℤ) | sigmaZ (b : ℤ)
  | shiftLeft (n : ℤ) | shiftRight (n : ℤ)
  | bitMeasure (b res : ℤ)
  | setVec
deriving DecidableEq

/-- `quantum.Simulator` as seen by the engine: the amplitude vector
last written from JavaScript (`texArray`, written by `init` and by the
`ExpModN`/`RevExpModN` CPU paths) plus the trace of external shader
invocations. -/
structure Sim where
  vector : List (ℤ × ℤ)
  ops : List SimOp
deriving DecidableEq

/-- `quantum.QScript.StepData`. -/
structure StepData where
  symbols : List String
  values : List ℤ
  func : Nat
  step : Nat
deriving DecidableEq

/-- The engine state (`quantum.QScript` object): the `window.*` cells
as a total map (a missing cell reads as 0), the per-function local
declarations, and the fields of the constructor.  `rng` feeds the
`Math.random()` draws explicitly. -/
structure QState where
  store : String → ℤ
  locals : Nat → List String
  measuredValue : ℤ
  currentFunc : Nat
  currentStep : Nat
  callStack : List (Nat × Nat × String)
  savedVars : List String
  savedValues : List ℤ
  history : List StepData
  errors : List String
  callbacks : List (String × List ℤ)
  sim : Sim
  vectorSize : ℤ
  rng : List ℤ

/-- `saveValue_(id)`: dedup, then record the pre-step value (the
`measured_value` pseudo-cell reads `this.measuredValue`). -/
def saveValue (q : QState) (id : String) : QState :=
  if id ∈ q.savedVars then q
  else if id = MEASURED_VALUE then
    { q with savedVars := q.savedVars ++ [id],
             savedValues := q.savedValues ++ [q.measuredValue] }
  else
    { q with savedVars := q.savedVars ++ [id],
             savedValues := q.savedValues ++ [q.store id] }

/-- Loop of `restoreValues_`: assign each saved value back to its cell
(`measured_value` to the field, anything else via the evaluator). -/
def restoreValuesGo (q : QState) : List (String × ℤ) → QState
  | [] => q
  | (sym, v) :: rest =>
    if sym = MEASURED_VALUE then
      restoreValuesGo { q with measuredValue := v } rest
    else
      restoreValuesGo
        { q with store := fun c => if c = sym then v else q.store c } rest

/-- `restoreValues_(step)`. -/
def restoreValues (q : QState) (rec : StepData) : QState :=
  restoreValuesGo q (rec.symbols.zip rec.values)

/-- The `while (f != null && !f.locals.hasOwnProperty(id)) f = f.parent`
walk of `translateId`.  The fuel dominates the chain length (parents of
a compiled program have smaller indices, so `i + 1` is enough). -/
def lookupChain (p : Prog) (locals : Nat → List String) (id : String) :
    Nat → Nat → Option Nat
  | 0, _ => none
  | fuel + 1, i =>
    if id ∈ locals i then some i
    else
      match (p.funcs.getD i defaultFunc).parentIdx with
      | none => none
      | some j => lookupChain p locals id fuel j

/-- Result of translating one identifier: a scoped cell name, or the
literal text substituted for `measured_value`. -/
inductive TransRes where
  | cell (c : String)
  | res (v : ℤ)
deriving DecidableEq

def strHasDot (s : String) : Bool := s.toList.contains '.'

def startsUnderscore (s : String) : Bool :=
  match s.toList with
  | c :: _ => c = '_'
  | [] => false

/-- The scoped runtime cell of identifier `id` owned by function `j`. -/
def cellNameOf (p : Prog) (j : Nat) (id : String) : String :=
  varsPfx ++ (p.funcs.getD j defaultFunc).fname ++ "_" ++ id

/-- `translateId(fn, id)`: dotted names pass through untranslated,
`measured_value` is substituted as a literal, `_`-prefixed names map to
the shared global cell, anything else resolves up the scope chain and
is created as a fresh local of `fn` when unresolved.  Every resolved
cell is recorded by `saveValue_`. -/
def translateId (p : Prog) (q : QState) (fn : Nat) (id : String) :
    QState × TransRes :=
  if strHasDot id then (q, .cell id)
  else if id = MEASURED_VALUE then
    (saveValue q MEASURED_VALUE, .res q.measuredValue)
  else if startsUnderscore id then
    (saveValue q (varsPfx ++ "_" ++ id), .cell (varsPfx ++ "_" ++ id))
  else
    match lookupChain p q.locals id (fn + 1) fn with
    | some j => (saveValue q (cellNameOf p j id), .cell (cellNameOf p j id))
    | none =>
      let q1 := { q with locals := fun k =>
        if k = fn then q.locals fn ++ [id] else q.locals k }
      (saveValue q1 (cellNameOf p fn id), .cell (cellNameOf p fn id))

/-- The identifier-rewriting pass of `executeExpression`: walk the
expression left to right replacing every identifier via `translateId`
(recording saves as it goes).  `none` marks a translated string that
the host evaluator would reject (an assignment whose target was
substituted as a literal); its side effects are limited to the saves
already performed, matching an eval-time `SyntaxError`. -/
def translateExpr (p : Prog) (fn : Nat) : QState → Expr → QState × Option TExpr
  | q, .lit v => (q, some (.tlit v))
  | q, .ident x =>
    match translateId p q fn x with
    | (q1, .cell c) => (q1, some (.tcell c))
    | (q1, .res v) => (q1, some (.tlit v))
  | q, .neg e =>
    let r := translateExpr p fn q e
    (r.1, r.2.map .tneg)
  | q, .add a b =>
    let ra := translateExpr p fn q a
    let rb := translateExpr p fn ra.1 b
    (rb.1, match ra.2, rb.2 with
           | some ta, some tb => some (.tadd ta tb)
           | _, _ => none)
  | q, .sub a b =>
    let ra := translateExpr p fn q a
    let rb := translateExpr p fn ra.1 b
    (rb.1, match ra.2, rb.2 with
           | some ta, some tb => some (.tsub ta tb)
           | _, _ => none)
  | q, .mul a b =>
    let ra := translateExpr p fn q a
    let rb := translateExpr p fn ra.1 b
    (rb.1, match ra.2, rb.2 with
           | some ta, some tb => some (.tmul ta tb)
           | _, _ => none)
  | q, .assign x e =>
    match translateId p q fn x with
    | (q1, .cell c) =>
      let re := translateExpr p fn q1 e
      (re.1, re.2.map (.tassign c))
    | (q1, .res _) =>
      let re := translateExpr p fn q1 e
      (re.1, none)

/-- Evaluation of a translated expression by the host evaluator
(modelled from the spec §4.D): reads and writes go to the flat cell
store; an assignment evaluates its right side first and returns the
assigned value. -/
def teval : QState → TExpr → QState × ℤ
  | q, .tlit v => (q, v)
  | q, .tcell c => (q, q.store c)
  | q, .tneg e =>
    let r := teval q e
    (r.1, -r.2)
  | q, .tadd a b =>
    let ra := teval q a
    let rb := teval ra.1 b
    (rb.1, ra.2 + rb.2)
  | q, .tsub a b =>
    let ra := teval q a
    let rb := teval ra.1 b
    (rb.1, ra.2 - rb.2)
  | q, .tmul a b =>
    let ra := teval q a
    let rb := teval ra.1 b
    (rb.1, ra.2 * rb.2)
  | q, .tassign c e =>
    let r := teval q e
    ({ r.1 with store := fun k => if k = c then r.2 else r.1.store k }, r.2)

/-- The new-local detection at the head of `executeExpression`: a
leading `<id> =` declares `id` as a local of the current function when
no local of that name exists there yet (ancestor declarations are not
consulted). -/
def detectLocal (q : QState) (e : Expr) : QState :=
  match e with
  | .assign x _ =>
    if x ∈ q.locals q.currentFunc then q
    else { q with locals := fun k =>
      if k = q.currentFunc then q.locals q.currentFunc ++ [x]
      else q.locals k }
  | _ => q

/-- `executeExpression(ex, opt_prefix)`: detect a new local created by
a leading `<id> =`, translate, optionally prepend the `<cell> = `
prefix used for proc-parameter binding, then evaluate.  A rejected
translation appends a `JavaScript exception` message and yields 0. -/
def executeExpression (p : Prog) (q : QState) (e : Expr)
    (pfx : Option TransRes) : QState × ℤ :=
  let q0 := detectLocal q e
  match translateExpr p q0.currentFunc q0 e with
  | (q1, none) =>
    ({ q1 with errors := q1.errors ++ ["JavaScript exception: invalid assignment"] }, 0)
  | (q1, some te) =>
    match pfx with
    | none => teval q1 te
    | some (.cell c) => teval q1 (.tassign c te)
    | some (.res _) =>
      ({ q1 with errors := q1.errors ++ ["JavaScript exception: invalid assignment"] }, 0)

/-- JavaScript truthiness of the numeric values we model. -/
def truthy (v : ℤ) : Bool := v ≠ 0

/-- A builtin table entry (`quantum.QScript.Func` with an `execute`). -/
structure BI where
  bname : String
  bparams : List String
  run : QState → List ℤ → QState

def defaultBI : BI := ⟨"", [], fun q _ => q⟩

/-- Truncation of a JavaScript number used as a shift count / integer. -/
def ratToNat (x : ℤ) : Nat := x.toNat

/-- `checkBound(qbit)`: `qbit < 0 || qbit >= this.vectorSize` appends
the bounds error and reports failure. -/
def checkBound (q : QState) (qbit : ℤ) : QState × Bool :=
  if qbit < 0 ∨ q.vectorSize ≤ qbit then
    ({ q with errors :=
        q.errors ++ ["Qubit number out of range: " ++ toString qbit] }, false)
  else (q, true)

def simPush (s : Sim) (o : SimOp) : Sim := { s with ops := s.ops ++ [o] }

/-- `Simulator.applyCPhaseShift(control, target, angle)` (shader). -/
def applyCPhaseShift (s : Sim) (c t φ : ℤ) : Sim := simPush s (.cphase c t φ)

/-- `Simulator.applyPhaseShift(control, target, inv)`: computes the
angle `inv·π/2^(c−t)` (irrational, kept symbolic in the label). -/
def applyPhaseShift (s : Sim) (c t inv : ℤ) : Sim := simPush s (.phaseShift c t inv)

/-- `Simulator.applyToffoli` (shader). -/
def applyToffoli (s : Sim) (a b c : ℤ) : Sim := simPush s (.toffoli a b c)

/-- `Simulator.applyCNot(bitc, bitn) = applyToffoli(bitc, bitc, bitn)`. -/
def applyCNot (s : Sim) (c t : ℤ) : Sim := applyToffoli s c c t

/-- `Simulator.applyHadamard` (unitary shader with the `1/√2` matrix). -/
def applyHadamard (s : Sim) (b : ℤ) : Sim := simPush s (.hadamard b)

/-- Loop body of `Simulator.applyQFT`. -/
def applyQFTRow (o : ℤ) (w : Nat) (s : Sim) (i : Nat) : Sim :=
  (List.range (w - (i + 1))).foldl
    (fun s2 j => applyPhaseShift s2 ((i + 1 + j : Nat) + o) ((i : Nat) + o) (-1))
    (applyHadamard s ((i : Nat) + o))

/-- `Simulator.applyQFT(offset, width)`: Hadamard plus phase-shift
cascade per qubit of the window. -/
def applyQFT (s : Sim) (o w : ℤ) : Sim :=
  (List.range (ratToNat w)).foldl (applyQFTRow o (ratToNat w)) s

/-- Loop body of `Simulator.applyInvQFT`. -/
def applyInvQFTRow (o : ℤ) (w : Nat) (s : Sim) (i : Nat) : Sim :=
  applyHadamard
    ((List.range (w - (i + 1))).foldl
      (fun s2 j => applyPhaseShift s2 ((w - 1 - j : Nat) + o) ((i : Nat) + o) 1) s)
    ((i : Nat) + o)

/-- `Simulator.applyInvQFT(offset, width)`: the reversed cascade. -/
def applyInvQFT (s : Sim) (o w : ℤ) : Sim :=
  ((List.range (ratToNat w)).reverse).foldl (applyInvQFTRow o (ratToNat w)) s

/-- Modelled from the spec (§4.G): the `p0` sum that the source obtains
from the GPU reduction shaders (external) before a bit measurement. -/
def bitProb (v : List (ℤ × ℤ)) (bn : Nat) : ℤ :=
  ((List.range v.length).filter (fun i => (i / 2 ^ bn) % 2 = 0)).foldl
    (fun acc i => acc + ((v.getD i (0, 0)).1 * (v.getD i (0, 0)).1 +
      (v.getD i (0, 0)).2 * (v.getD i (0, 0)).2)) 0

/-- `Simulator.applyBitMeasure(bitn)`: decide the outcome from the
reduced probability and the random draw (`r > sum` gives 1), then run
the collapse shader (external, recorded as a label). -/
def applyBitMeasure (s : Sim) (b r : ℤ) : Sim × ℤ :=
  let res : ℤ := if bitProb s.vector (ratToNat b) < r then 1 else 0
  (simPush s (.bitMeasure b res), res)

def runVectorSize (q : QState) (argv : List ℤ) : QState :=
  let vs := argv.getD 0 0
  if vs < 6 ∨ 22 < vs ∨ vs % 2 ≠ 0 then
    { q with errors := q.errors ++
      ["State vector size outside of supported range 6..22 or not even: " ++
        toString vs] }
  else
    { q with vectorSize := vs,
             sim := ⟨generateZeroTexture (2 ^ ratToNat vs), []⟩ }

def runDecoherence (q : QState) (argv : List ℤ) : QState :=
  { q with sim := simPush q.sim (.decoherence (argv.getD 0 0)) }

def runHadamard (q : QState) (argv : List ℤ) : QState :=
  let r := checkBound q (argv.getD 0 0)
  if r.2 then { r.1 with sim := applyHadamard r.1.sim (argv.getD 0 0) } else r.1

def runSigmaX (q : QState) (argv : List ℤ) : QState :=
  let r := checkBound q (argv.getD 0 0)
  if r.2 then { r.1 with sim := simPush r.1.sim (.sigmaX (argv.getD 0 0)) } else r.1

def runSigmaY (q : QState) (argv : List ℤ) : QState :=
  let r := checkBound q (argv.getD 0 0)
  if r.2 then { r.1 with sim := simPush r.1.sim (.sigmaY (argv.getD 0 0)) } else r.1

def runSigmaZ (q : QState) (argv : List ℤ) : QState :=
  let r := checkBound q (argv.getD 0 0)
  if r.2 then { r.1 with sim := simPush r.1.sim (.sigmaZ (argv.getD 0 0)) } else r.1

def runUnitary (q : QState) (argv : List ℤ) : QState :=
  let r := checkBound q (argv.getD 0 0)
  if r.2 then
    { r.1 with sim := simPush r.1.sim (.unitary (argv.getD 0 0)
        [argv.getD 1 0, argv.getD 3 0, argv.getD 5 0, argv.getD 7 0]
        [argv.getD 2 0, argv.getD 4 0, argv.getD 6 0, argv.getD 8 0]) }
  else r.1

def runRx (q : QState) (argv : List ℤ) : QState :=
  let r := checkBound q (argv.getD 0 0)
  if r.2 then { r.1 with sim := simPush r.1.sim (.rx (argv.getD 0 0) (argv.getD 1 0)) }
  else r.1

def runRy (q : QState) (argv : List ℤ) : QState :=
  let r := checkBound q (argv.getD 0 0)
  if r.2 then { r.1 with sim := simPush r.1.sim (.ry (argv.getD 0 0) (argv.getD 1 0)) }
  else r.1

def runRz (q : QState) (argv : List ℤ) : QState :=
  let r := checkBound q (argv.getD 0 0)
  if r.2 then { r.1 with sim := simPush r.1.sim (.rz (argv.getD 0 0) (argv.getD 1 0)) }
  else r.1

def runCNot (q : QState) (argv : List ℤ) : QState :=
  let r0 := checkBound q (argv.getD 0 0)
  if ¬ r0.2 then r0.1
  else
    let r1 := checkBound r0.1 (argv.getD 1 0)
    if ¬ r1.2 then r1.1
    else { r1.1 with sim := applyCNot r1.1.sim (argv.getD 0 0) (argv.getD 1 0) }

def runSwap (q : QState) (argv : List ℤ) : QState :=
  let r0 := checkBound q (argv.getD 0 0)
  if ¬ r0.2 then r0.1
  else
    let r1 := checkBound r0.1 (argv.getD 1 0)
    if ¬ r1.2 then r1.1
    else { r1.1 with sim := simPush r1.1.sim (.swapg (argv.getD 0 0) (argv.getD 1 0)) }

def runToffoli (q : QState) (argv : List ℤ) : QState :=
  let r0 := checkBound q (argv.getD 0 0)
  if ¬ r0.2 then r0.1
  else
    let r1 := checkBound r0.1 (argv.getD 1 0)
    if ¬ r1.2 then r1.1
    else
      let r2 := checkBound r1.1 (argv.getD 2 0)
      if ¬ r2.2 then r2.1
      else
        { r2.1 with
          sim := applyToffoli r2.1.sim (argv.getD 0 0) (argv.getD 1 0) (argv.getD 2 0) }

def runPhase (q : QState) (argv : List ℤ) : QState :=
  let r := checkBound q (argv.getD 0 0)
  if r.2 then
    { r.1 with sim :=
      applyCPhaseShift r.1.sim (argv.getD 0 0) (argv.getD 0 0) (argv.getD 1 0) }
  else r.1

def runCPhase (q : QState) (argv : List ℤ) : QState :=
  let r0 := checkBound q (argv.getD 0 0)
  if ¬ r0.2 then r0.1
  else
    let r1 := checkBound r0.1 (argv.getD 1 0)
    if ¬ r1.2 then r1.1
    else { r1.1 with sim :=
      applyCPhaseShift r1.1.sim (argv.getD 0 0) (argv.getD 1 0) (argv.getD 2 0) }

def runQFTCPhase (q : QState) (argv : List ℤ) : QState :=
  let r0 := checkBound q (argv.getD 0 0)
  if ¬ r0.2 then r0.1
  else
    let r1 := checkBound r0.1 (argv.getD 1 0)
    if ¬ r1.2 then r1.1
    else if argv.getD 0 0 ≤ argv.getD 1 0 then
      { r1.1 with errors := r1.1.errors ++
        ["Error: For QFTCPhase control qbit must be above the target qbit."] }
    else { r1.1 with sim :=
      applyPhaseShift r1.1.sim (argv.getD 0 0) (argv.getD 1 0) 1 }

def runInvQFTCPhase (q : QState) (argv : List ℤ) : QState :=
  let r0 := checkBound q (argv.getD 0 0)
  if ¬ r0.2 then r0.1
  else
    let r1 := checkBound r0.1 (argv.getD 1 0)
    if ¬ r1.2 then r1.1
    else if argv.getD 0 0 ≤ argv.getD 1 0 then
      { r1.1 with errors := r1.1.errors ++
        ["Error: For InvQFTCPhase control qbit must be above the target qbit."] }
    else { r1.1 with sim :=
      applyPhaseShift r1.1.sim (argv.getD 0 0) (argv.getD 1 0) (-1) }

def runQFT (q : QState) (argv : List ℤ) : QState :=
  let r := checkBound q (argv.getD 0 0)
  if r.2 then { r.1 with sim := applyQFT r.1.sim (argv.getD 0 0) (argv.getD 1 0) }
  else r.1

def runInvQFT (q : QState) (argv : List ℤ) : QState :=
  let r := checkBound q (argv.getD 0 0)
  if r.2 then { r.1 with sim := applyInvQFT r.1.sim (argv.getD 0 0) (argv.getD 1 0) }
  else r.1

def runExpModN (q : QState) (argv : List ℤ) : QState :=
  let r := checkBound q (argv.getD 2 0)
  if r.2 then
    { r.1 with sim := ⟨applyExpModN (ratToNat (argv.getD 0 0))
        (ratToNat (argv.getD 1 0)) (ratToNat (argv.getD 2 0)) r.1.sim.vector,
      r.1.sim.ops ++ [.setVec]⟩ }
  else r.1

def runRevExpModN (q : QState) (argv : List ℤ) : QState :=
  let r := checkBound q (argv.getD 2 0)
  if r.2 then
    { r.1 with sim := ⟨applyRevExpModN (ratToNat (argv.getD 0 0))
        (ratToNat (argv.getD 1 0)) (ratToNat (argv.getD 2 0)) r.1.sim.vector,
      r.1.sim.ops ++ [.setVec]⟩ }
  else r.1

def runShiftLeft (q : QState) (argv : List ℤ) : QState :=
  let r := checkBound q (argv.getD 0 0)
  if r.2 then { r.1 with sim := simPush r.1.sim (.shiftLeft (argv.getD 0 0)) }
  else r.1

def runShiftRight (q : QState) (argv : List ℤ) : QState :=
  let r := checkBound q (argv.getD 0 0)
  if r.2 then { r.1 with sim := simPush r.1.sim (.shiftRight (argv.getD 0 0)) }
  else r.1

def runMeasureBit (q : QState) (argv : List ℤ) : QState :=
  let r := checkBound q (argv.getD 0 0)
  if r.2 then
    let m := applyBitMeasure r.1.sim (argv.getD 0 0) (r.1.rng.getD 0 0)
    { r.1 with sim := m.1, measuredValue := m.2, rng := r.1.rng.drop 1 }
  else r.1

/-- The `Measure` builtin:
`q.measuredValue = q.simulator.applyMeasure()`. -/
def runMeasure (q : QState) (_argv : List ℤ) : QState :=
  { q with measuredValue := applyMeasure (q.rng.getD 0 0) q.sim.vector,
           rng := q.rng.drop 1 }

def runPrint (q : QState) (argv : List ℤ) : QState :=
  { q with callbacks := q.callbacks ++ [("Print", argv)] }

def runBreakpoint (q : QState) (argv : List ℤ) : QState :=
  { q with callbacks := q.callbacks ++ [("Breakpoint", argv)] }

def runDelay (q : QState) (argv : List ℤ) : QState :=
  { q with callbacks := q.callbacks ++ [("Delay", argv)] }

def runDisplay (q : QState) (argv : List ℤ) : QState :=
  { q with callbacks := q.callbacks ++ [("Display", argv)] }

def runSetViewAngle (q : QState) (argv : List ℤ) : QState :=
  { q with callbacks := q.callbacks ++ [("SetViewAngle", argv)] }

def runSetViewMode (q : QState) (argv : List ℤ) : QState :=
  { q with callbacks := q.callbacks ++ [("SetViewMode", argv)] }

/-- `quantum.QScript.getBuiltins()`. -/
def getBuiltins : List BI := [
  ⟨"VectorSize", ["vectorbits"], runVectorSize⟩,
  ⟨"Decoherence", ["strength"], runDecoherence⟩,
  ⟨"Hadamard", ["bitn"], runHadamard⟩,
  ⟨"SigmaX", ["bitn"], runSigmaX⟩,
  ⟨"SigmaY", ["bitn"], runSigmaY⟩,
  ⟨"SigmaZ", ["bitn"], runSigmaZ⟩,
  ⟨"Unitary", ["bitn", "r00", "i00", "r01", "i01", "r10", "i10", "r11", "i11"],
    runUnitary⟩,
  ⟨"Rx", ["bitn", "theta"], runRx⟩,
  ⟨"Ry", ["bitn", "theta"], runRy⟩,
  ⟨"Rz", ["bitn", "alpha"], runRz⟩,
  ⟨"CNot", ["bitc", "bitn"], runCNot⟩,
  ⟨"Swap", ["bit1", "bit2"], runSwap⟩,
  ⟨"Toffoli", ["bitc1", "bitc2", "bitn"], runToffoli⟩,
  ⟨"Phase", ["bitn", "angle"], runPhase⟩,
  ⟨"CPhase", ["bitc", "bitn", "angle"], runCPhase⟩,
  ⟨"QFTCPhase", ["bitc", "bitn"], runQFTCPhase⟩,
  ⟨"InvQFTCPhase", ["bitc", "bitn"], runInvQFTCPhase⟩,
  ⟨"QFT", ["offset", "width"], runQFT⟩,
  ⟨"InvQFT", ["offset", "width"], runInvQFT⟩,
  ⟨"ExpModN", ["x", "N", "width"], runExpModN⟩,
  ⟨"RevExpModN", ["x", "N", "width"], runRevExpModN⟩,
  ⟨"ShiftLeft", ["bits"], runShiftLeft⟩,
  ⟨"ShiftRight", ["bits"], runShiftRight⟩,
  ⟨"MeasureBit", ["bitn"], runMeasureBit⟩,
  ⟨"Measure", [], runMeasure⟩,
  ⟨"Print", ["msg"], runPrint⟩,
  ⟨"Breakpoint", [], runBreakpoint⟩,
  ⟨"Delay", ["time_ms"], runDelay⟩,
  ⟨"Display", ["msg"], runDisplay⟩,
  ⟨"SetViewAngle", ["angle"], runSetViewAngle⟩,
  ⟨"SetViewMode", ["mode"], runSetViewMode⟩]

/-- `goog.array.find(this.builtins_, fn.name == name)`. -/
def findBuiltin (name : String) : BI :=
  ((getBuiltins.filter (fun b => b.bname = name)).headD defaultBI)

/-- The opcode sitting at position `(f, s)` of the program. -/
def opAt (p : Prog) (f s : Nat) : Op :=
  (p.funcs.getD f defaultFunc).code.getD s defaultOp

/-- Evaluate the argument expressions of an opcode in order. -/
def execArgs (p : Prog) (q : QState) (args : List Expr) : QState × List ℤ :=
  args.foldl
    (fun acc e =>
      let r := executeExpression p acc.1 e none
      (r.1, acc.2 ++ [r.2]))
    (q, [])

/-- Argument loop of a user-proc call: bind each parameter by
evaluating the argument with the `<param cell> = ` prefix, then
evaluate the argument a second time for the display string. -/
def userCallArgs (p : Prog) (f : Nat) :
    QState → String → Nat → List Expr → QState × String
  | q, argvS, _, [] => (q, argvS)
  | q, argvS, i, e :: rest =>
    let callee := p.funcs.getD f defaultFunc
    let tr := translateId p q f (callee.params.getD i "")
    let r1 := executeExpression p tr.1 e (some tr.2)
    let sep := if 0 < i then argvS ++ ", " else argvS
    let r2 := executeExpression p r1.1 e none
    userCallArgs p f r2.1 (sep ++ toString r2.2) (i + 1) rest

/-- The opcode dispatch of `runStep` (the body between the error/save
reset and the history push). -/
def execOp (p : Prog) (q : QState) (op : Op) : QState :=
  match op.command with
  | .ctrl .forInit =>
    let r0 := executeExpression p q (op.args.getD 0 (.lit 0)) none
    let r1 := executeExpression p r0.1 (op.args.getD 1 (.lit 0)) none
    if truthy r1.2 then
      if op.args.length = 2 then
        { r1.1 with currentStep := r1.1.currentStep + 2 }
      else
        let r2 := executeExpression p r1.1 (op.args.getD 2 (.lit 0)) none
        { r2.1 with currentStep := r2.1.currentStep + 1 }
    else
      if op.args.length = 2 then
        { r1.1 with currentStep := (op.target + 1).toNat }
      else { r1.1 with currentStep := r1.1.currentStep + 2 }
  | .ctrl .forLoop =>
    let r0 := executeExpression p q (op.args.getD 1 (.lit 0)) none
    let r1 := executeExpression p r0.1 (op.args.getD 0 (.lit 0)) none
    if truthy r1.2 then
      if op.args.length = 2 then
        { r1.1 with currentStep := r1.1.currentStep + 1 }
      else (executeExpression p r1.1 (op.args.getD 2 (.lit 0)) none).1
    else
      if op.args.length = 2 then
        { r1.1 with currentStep := (op.target + 1).toNat }
      else { r1.1 with currentStep := r1.1.currentStep + 1 }
  | .ctrl .forEnd => { q with currentStep := op.target.toNat }
  | .ctrl .exprCode =>
    let r := executeExpression p q (op.args.getD 0 (.lit 0)) none
    { r.1 with currentStep := r.1.currentStep + 1 }
  | .ctrl .ifCode =>
    let r := executeExpression p q (op.args.getD 0 (.lit 0)) none
    if truthy r.2 then
      let q1 := { r.1 with currentStep := r.1.currentStep + 1 }
      if op.args.length = 2 then
        (executeExpression p q1 (op.args.getD 1 (.lit 0)) none).1
      else q1
    else { r.1 with currentStep := (op.target + 1).toNat }
  | .ctrl .elseCode => { q with currentStep := (op.target + 1).toNat }
  | .ctrl .endifCode => { q with currentStep := q.currentStep + 1 }
  | .ctrl .returnCode =>
    { q with currentStep := (p.funcs.getD q.currentFunc defaultFunc).code.length }
  | .ctrl .breakCode =>
    { q with currentStep :=
      (((p.funcs.getD q.currentFunc defaultFunc).code.getD op.target.toNat
          defaultOp).target + 1).toNat }
  | .user f =>
    let r := userCallArgs p f q "" 0 op.args
    { r.1 with
      callStack := (q.currentFunc, q.currentStep + 1, r.2) :: r.1.callStack,
      currentFunc := f,
      currentStep := 0 }
  | .builtin name =>
    let r := execArgs p q op.args
    let q1 := (findBuiltin name).run r.1 r.2
    { q1 with currentStep := q1.currentStep + 1 }

/-- The end-of-function frame pop at the bottom of `runStep` (and, in
the same form, at its top). -/
def framePopIfEnded (p : Prog) (q2 : QState) : QState :=
  if (p.funcs.getD q2.currentFunc defaultFunc).code.length ≤ q2.currentStep then
    match q2.callStack with
    | [] => q2
    | fr :: rest =>
      { q2 with callStack := rest, currentFunc := fr.1, currentStep := fr.2.1 }
  else q2

/-- `this.history_.push(new StepData(savedVars, savedValues, f, s))`. -/
def pushHistory (f s : Nat) (q1 : QState) : QState :=
  { q1 with history := (⟨q1.savedVars, q1.savedValues, f, s⟩ : StepData) :: q1.history }

/-- `runStep()`: early frame pop when past the end (no history record),
otherwise clear the per-step error/save state, execute the opcode, push
the undo record, and pop a call frame if the function just ended. -/
def runStep (p : Prog) (q : QState) : QState :=
  if (p.funcs.getD q.currentFunc defaultFunc).code.length ≤ q.currentStep then
    match q.callStack with
    | [] => q
    | fr :: rest =>
      { q with callStack := rest, currentFunc := fr.1, currentStep := fr.2.1 }
  else
    framePopIfEnded p (pushHistory q.currentFunc q.currentStep
      (execOp p { q with errors := [], savedVars := [], savedValues := [] }
        (opAt p q.currentFunc q.currentStep)))

/-- The reverse-name/argument switch of `stepBack` (its pure part; the
`Measure` warning is pushed by `stepBack` itself). -/
def reverseNameArgs (name : String) (argv : List ℤ) : String × List ℤ :=
  if name = "VectorSize" then ("", argv)
  else if name = "Phase" then (name, argv.set 1 (-(argv.getD 1 0)))
  else if name = "CPhase" then (name, argv.set 2 (-(argv.getD 2 0)))
  else if name = "QFTCPhase" then ("InvQFTCPhase", argv)
  else if name = "InvQFTCPhase" then ("QFTCPhase", argv)
  else if name = "QFT" then ("InvQFT", argv)
  else if name = "InvQFT" then ("QFT", argv)
  else if name = "ShiftLeft" then ("ShiftRight", argv)
  else if name = "ShiftRight" then ("ShiftLeft", argv)
  else if name = "MeasureBit" then ("", argv)
  else if name = "ExpModN" then ("", argv)
  else if name = "RevExpModN" then ("", argv)
  else if name = "Rx" ∨ name = "Ry" ∨ name = "Rz" then
    (name, argv.set 1 (-(argv.getD 1 0)))
  else (name, argv)

/-- Builtin branch of `stepBack`: re-evaluate the arguments of the
restored opcode, emit the `Measure` warning when applicable, then
either warn that no reverse exists or execute the reverse builtin
(which for `Measure` is `Measure` itself). -/
def stepBackBuiltin (p : Prog) (q2 : QState) (args : List Expr)
    (name : String) : QState :=
  let r := execArgs p q2 args
  let q3 := if name = "Measure" then
      { r.1 with errors := r.1.errors ++
        ["Warning: measurement is normally not reversible!"] }
    else r.1
  let rev := reverseNameArgs name r.2
  if rev.1 = "" then
    { q3 with errors := q3.errors ++
      ["Warning: this step has no reverse operation!"] }
  else (findBuiltin rev.1).run q3 rev.2

/-- Body of `stepBack` once a record has been popped: clear errors,
restore saved cells, restore position, then reverse a builtin gate. -/
def stepBackCore (p : Prog) (q : QState) (rec : StepData)
    (rest : List StepData) : QState :=
  let q2 := { restoreValues { q with history := rest, errors := [] } rec with
    currentFunc := rec.func, currentStep := rec.step }
  match (opAt p rec.func rec.step).command with
  | .builtin name => stepBackBuiltin p q2 (opAt p rec.func rec.step).args name
  | _ => q2

/-- `stepBack()`: pop the undo record, clear errors, restore the saved
cells, restore position; when the restored opcode is a builtin,
re-evaluate its arguments and apply the reverse operation (warning and
no operation when there is none; `Measure` warns and then re-executes
itself). -/
def stepBack (p : Prog) (q : QState) : QState :=
  match q.history with
  | [] => q
  | rec :: rest => stepBackCore p q rec rest

/-! ## Frame lemmas: what each operation leaves untouched -/

/-- Components never touched by expression evaluation, value
restoration, or builtin execution. -/
def coreFrame (q q' : QState) : Prop :=
  q'.callStack = q.callStack ∧ q'.history = q.history ∧
  q'.currentFunc = q.currentFunc ∧ q'.currentStep = q.currentStep

/-- Components untouched by the classical expression machinery. -/
def evalFrame (q q' : QState) : Prop :=
  coreFrame q q' ∧ q'.sim = q.sim ∧ q'.measuredValue = q.measuredValue ∧
  q'.vectorSize = q.vectorSize ∧ q'.rng = q.rng ∧ q'.callbacks = q.callbacks

theorem coreFrame_refl (q : QState) : coreFrame q q := ⟨rfl, rfl, rfl, rfl⟩

theorem coreFrame_trans {a b c : QState} (h1 : coreFrame a b)
    (h2 : coreFrame b c) : coreFrame a c := by
  obtain ⟨x1, x2, x3, x4⟩ := h1
  obtain ⟨y1, y2, y3, y4⟩ := h2
  exact ⟨y1.trans x1, y2.trans x2, y3.trans x3, y4.trans x4⟩

theorem evalFrame_refl (q : QState) : evalFrame q q :=
  ⟨coreFrame_refl q, rfl, rfl, rfl, rfl, rfl⟩

theorem evalFrame_trans {a b c : QState} (h1 : evalFrame a b)
    (h2 : evalFrame b c) : evalFrame a c := by
  obtain ⟨x0, x1, x2, x3, x4, x5⟩ := h1
  obtain ⟨y0, y1, y2, y3, y4, y5⟩ := h2
  exact ⟨coreFrame_trans x0 y0, y1.trans x1, y2.trans x2, y3.trans x3,
    y4.trans x4, y5.trans x5⟩

theorem saveValue_evalFrame (q : QState) (id : String) :
    evalFrame q (saveValue q id) := by
  unfold saveValue
  split
  · exact evalFrame_refl q
  · split <;> exact ⟨⟨rfl, rfl, rfl, rfl⟩, rfl, rfl, rfl, rfl, rfl⟩

theorem saveValue_store (q : QState) (id : String) :
    (saveValue q id).store = q.store := by
  unfold saveValue
  split
  · rfl
  · split <;> rfl

theorem saveValue_errors (q : QState) (id : String) :
    (saveValue q id).errors = q.errors := by
  unfold saveValue
  split
  · rfl
  · split <;> rfl

theorem saveValue_locals (q : QState) (id : String) :
    (saveValue q id).locals = q.locals := by
  unfold saveValue
  split
  · rfl
  · split <;> rfl

theorem translateId_evalFrame (p : Prog) (q : QState) (fn : Nat) (id : String) :
    evalFrame q (translateId p q fn id).1 := by
  unfold translateId
  split
  · exact evalFrame_refl q
  · split
    · exact saveValue_evalFrame q _
    · split
      · exact saveValue_evalFrame q _
      · split
        · exact saveValue_evalFrame q _
        · exact evalFrame_trans
            (⟨⟨rfl, rfl, rfl, rfl⟩, rfl, rfl, rfl, rfl, rfl⟩ :
              evalFrame q { q with locals := fun k =>
                if k = fn then q.locals fn ++ [id] else q.locals k })
            (saveValue_evalFrame _ _)

theorem translateId_store (p : Prog) (q : QState) (fn : Nat) (id : String) :
    (translateId p q fn id).1.store = q.store := by
  unfold translateId
  split
  · rfl
  · split
    · exact saveValue_store q _
    · split
      · exact saveValue_store q _
      · split
        · exact saveValue_store q _
        · exact saveValue_store _ _

theorem translateId_errors (p : Prog) (q : QState) (fn : Nat) (id : String) :
    (translateId p q fn id).1.errors = q.errors := by
  unfold translateId
  split
  · rfl
  · split
    · exact saveValue_errors q _
    · split
      · exact saveValue_errors q _
      · split
        · exact saveValue_errors q _
        · exact saveValue_errors _ _

theorem translateExpr_evalFrame (p : Prog) (fn : Nat) :
    ∀ (e : Expr) (q : QState), evalFrame q (translateExpr p fn q e).1 := by
  intro e
  induction e with
  | lit v => intro q; exact evalFrame_refl q
  | ident x =>
    intro q
    rw [translateExpr]
    have h := translateId_evalFrame p q fn x
    rcases hr : translateId p q fn x with ⟨q1, r⟩
    rw [hr] at h
    cases r <;> exact h
  | neg e ih =>
    intro q
    rw [translateExpr]
    exact ih q
  | add a b iha ihb =>
    intro q
    rw [translateExpr]
    exact evalFrame_trans (iha q) (ihb _)
  | sub a b iha ihb =>
    intro q
    rw [translateExpr]
    exact evalFrame_trans (iha q) (ihb _)
  | mul a b iha ihb =>
    intro q
    rw [translateExpr]
    exact evalFrame_trans (iha q) (ihb _)
  | assign x e ih =>
    intro q
    rw [translateExpr]
    have h := translateId_evalFrame p q fn x
    rcases hr : translateId p q fn x with ⟨q1, r⟩
    rw [hr] at h
    cases r <;> exact evalFrame_trans h (ih q1)

theorem translateExpr_store (p : Prog) (fn : Nat) :
    ∀ (e : Expr) (q : QState), (translateExpr p fn q e).1.store = q.store := by
  intro e
  induction e with
  | lit v => intro q; rfl
  | ident x =>
    intro q
    rw [translateExpr]
    have h := translateId_store p q fn x
    rcases hr : translateId p q fn x with ⟨q1, r⟩
    rw [hr] at h
    cases r <;> exact h
  | neg e ih =>
    intro q
    rw [translateExpr]
    exact ih q
  | add a b iha ihb =>
    intro q
    rw [translateExpr]
    exact (ihb _).trans (iha q)
  | sub a b iha ihb =>
    intro q
    rw [translateExpr]
    exact (ihb _).trans (iha q)
  | mul a b iha ihb =>
    intro q
    rw [translateExpr]
    exact (ihb _).trans (iha q)
  | assign x e ih =>
    intro q
    rw [translateExpr]
    have h := translateId_store p q fn x
    rcases hr : translateId p q fn x with ⟨q1, r⟩
    rw [hr] at h
    cases r <;> exact (ih q1).trans h

theorem teval_evalFrame : ∀ (te : TExpr) (q : QState),
    evalFrame q (teval q te).1 := by
  intro te
  induction te with
  | tlit v => intro q; exact evalFrame_refl q
  | tcell c => intro q; exact evalFrame_refl q
  | tneg e ih => intro q; rw [teval]; exact ih q
  | tadd a b iha ihb => intro q; rw [teval]; exact evalFrame_trans (iha q) (ihb _)
  | tsub a b iha ihb => intro q; rw [teval]; exact evalFrame_trans (iha q) (ihb _)
  | tmul a b iha ihb => intro q; rw [teval]; exact evalFrame_trans (iha q) (ihb _)
  | tassign c e ih =>
    intro q
    rw [teval]
    exact evalFrame_trans (ih q)
      ⟨⟨rfl, rfl, rfl, rfl⟩, rfl, rfl, rfl, rfl, rfl⟩

theorem teval_errors : ∀ (te : TExpr) (q : QState),
    (teval q te).1.errors = q.errors := by
  intro te
  induction te with
  | tlit v => intro q; rfl
  | tcell c => intro q; rfl
  | tneg e ih => intro q; rw [teval]; exact ih q
  | tadd a b iha ihb => intro q; rw [teval]; exact (ihb _).trans (iha q)
  | tsub a b iha ihb => intro q; rw [teval]; exact (ihb _).trans (iha q)
  | tmul a b iha ihb => intro q; rw [teval]; exact (ihb _).trans (iha q)
  | tassign c e ih =>
    intro q
    rw [teval]
    exact ih q

theorem executeExpression_evalFrame (p : Prog) (q : QState) (e : Expr)
    (pfx : Option TransRes) :
    evalFrame q (executeExpression p q e pfx).1 := by
  have hdet : ∀ q0 : QState, evalFrame q q0 →
      evalFrame q (match translateExpr p q0.currentFunc q0 e with
        | (q1, none) => ({ q1 with errors :=
            q1.errors ++ ["JavaScript exception: invalid assignment"] }, (0 : ℤ))
        | (q1, some te) =>
          match pfx with
          | none => teval q1 te
          | some (.cell c) => teval q1 (.tassign c te)
          | some (.res _) =>
            ({ q1 with errors :=
              q1.errors ++ ["JavaScript exception: invalid assignment"] }, 0)).1 := by
    intro q0 h0
    have ht := translateExpr_evalFrame p q0.currentFunc e q0
    rcases hr : translateExpr p q0.currentFunc q0 e with ⟨q1, te⟩
    rw [hr] at ht
    have h1 : evalFrame q q1 := evalFrame_trans h0 ht
    cases te with
    | none =>
      exact evalFrame_trans h1 ⟨⟨rfl, rfl, rfl, rfl⟩, rfl, rfl, rfl, rfl, rfl⟩
    | some te =>
      cases pfx with
      | none => exact evalFrame_trans h1 (teval_evalFrame te q1)
      | some tr =>
        cases tr with
        | cell c => exact evalFrame_trans h1 (teval_evalFrame _ q1)
        | res v =>
          exact evalFrame_trans h1 ⟨⟨rfl, rfl, rfl, rfl⟩, rfl, rfl, rfl, rfl, rfl⟩
  have h0 : evalFrame q (detectLocal q e) := by
    cases e <;> simp only [detectLocal]
    case assign x e2 =>
      split
      · exact evalFrame_refl q
      · exact ⟨⟨rfl, rfl, rfl, rfl⟩, rfl, rfl, rfl, rfl, rfl⟩
    all_goals exact evalFrame_refl q
  exact hdet (detectLocal q e) h0

theorem execArgs_foldl_evalFrame (p : Prog) :
    ∀ (args : List Expr) (init : QState × List ℤ),
      evalFrame init.1 (args.foldl
        (fun acc e =>
          let r := executeExpression p acc.1 e none
          (r.1, acc.2 ++ [r.2])) init).1 := by
  intro args
  induction args with
  | nil => intro init; exact evalFrame_refl _
  | cons e rest ih =>
    intro init
    rw [List.foldl_cons]
    exact evalFrame_trans (executeExpression_evalFrame p init.1 e none) (ih _)

theorem execArgs_evalFrame (p : Prog) (q : QState) (args : List Expr) :
    evalFrame q (execArgs p q args).1 :=
  execArgs_foldl_evalFrame p args (q, [])

/-! ## C3: the `Measure` builtin peeks without collapsing -/

/-- C3: the `Measure` builtin draws a basis state in `[0, 2^n)` from
the vector of length `2^n` and stores it in `measuredValue`, consuming
one random draw; every amplitude of the vector (indeed the whole
simulator) and every other engine component are left untouched. -/
theorem measure_no_collapse (q : QState) (argv : List ℤ) (n : Nat)
    (hlen : q.sim.vector.length = 2 ^ n) :
    0 ≤ applyMeasure (q.rng.getD 0 0) q.sim.vector ∧
    applyMeasure (q.rng.getD 0 0) q.sim.vector < (2 : Int) ^ n ∧
    (findBuiltin "Measure").run q argv = runMeasure q argv ∧
    runMeasure q argv = { q with
      measuredValue := applyMeasure (q.rng.getD 0 0) q.sim.vector,
      rng := q.rng.drop 1 } ∧
    (runMeasure q argv).sim = q.sim := by
  have h := applyMeasure_range (q.rng.getD 0 0) q.sim.vector n hlen
  exact ⟨h.1, h.2, rfl, rfl, rfl⟩

def baseState : QState :=
  ⟨fun _ => 0, fun _ => [], 7, 0, 0, [], [], [], [], [], [],
    ⟨generateZeroTexture 64, []⟩, 6, [0, 0]⟩

/-- Witness for C3 on a concrete 6-qubit state. -/
theorem measure_no_collapse_witness :
    0 ≤ applyMeasure (baseState.rng.getD 0 0) baseState.sim.vector ∧
    applyMeasure (baseState.rng.getD 0 0) baseState.sim.vector < (2 : Int) ^ 6 ∧
    (findBuiltin "Measure").run baseState [] = runMeasure baseState [] ∧
    runMeasure baseState [] = { baseState with
      measuredValue :=
        applyMeasure (baseState.rng.getD 0 0) baseState.sim.vector,
      rng := baseState.rng.drop 1 } ∧
    (runMeasure baseState []).sim = baseState.sim :=
  measure_no_collapse baseState [] 6 (by decide)

/-! ## C8: qubit-index range checks in the builtin table -/

/-- An argument failing `checkBound`. -/
def oor (q : QState) (b : ℤ) : Prop := b < 0 ∨ q.vectorSize ≤ b

/-- The state after a failed range check: only the non-fatal error is
appended; simulator, cells and control position are untouched. -/
def rangeErr (q : QState) (b : ℤ) : QState :=
  { q with errors := q.errors ++ ["Qubit number out of range: " ++ toString b] }

theorem runHadamard_oor (q : QState) (argv : List ℤ)
    (h : oor q (argv.getD 0 0)) :
    runHadamard q argv = rangeErr q (argv.getD 0 0) := by
  rw [oor] at h
  rw [runHadamard, checkBound, if_pos h]
  rfl

theorem runSigmaX_oor (q : QState) (argv : List ℤ)
    (h : oor q (argv.getD 0 0)) :
    runSigmaX q argv = rangeErr q (argv.getD 0 0) := by
  rw [oor] at h
  rw [runSigmaX, checkBound, if_pos h]
  rfl

theorem runSigmaY_oor (q : QState) (argv : List ℤ)
    (h : oor q (argv.getD 0 0)) :
    runSigmaY q argv = rangeErr q (argv.getD 0 0) := by
  rw [oor] at h
  rw [runSigmaY, checkBound, if_pos h]
  rfl

theorem runSigmaZ_oor (q : QState) (argv : List ℤ)
    (h : oor q (argv.getD 0 0)) :
    runSigmaZ q argv = rangeErr q (argv.getD 0 0) := by
  rw [oor] at h
  rw [runSigmaZ, checkBound, if_pos h]
  rfl

theorem runUnitary_oor (q : QState) (argv : List ℤ)
    (h : oor q (argv.getD 0 0)) :
    runUnitary q argv = rangeErr q (argv.getD 0 0) := by
  rw [oor] at h
  rw [runUnitary, checkBound, if_pos h]
  rfl

theorem runRx_oor (q : QState) (argv : List ℤ)
    (h : oor q (argv.getD 0 0)) :
    runRx q argv = rangeErr q (argv.getD 0 0) := by
  rw [oor] at h
  rw [runRx, checkBound, if_pos h]
  rfl

theorem runRy_oor (q : QState) (argv : List ℤ)
    (h : oor q (argv.getD 0 0)) :
    runRy q argv = rangeErr q (argv.getD 0 0) := by
  rw [oor] at h
  rw [runRy, checkBound, if_pos h]
  rfl

theorem runRz_oor (q : QState) (argv : List ℤ)
    (h : oor q (argv.getD 0 0)) :
    runRz q argv = rangeErr q (argv.getD 0 0) := by
  rw [oor] at h
  rw [runRz, checkBound, if_pos h]
  rfl

theorem runPhase_oor (q : QState) (argv : List ℤ)
    (h : oor q (argv.getD 0 0)) :
    runPhase q argv = rangeErr q (argv.getD 0 0) := by
  rw [oor] at h
  rw [runPhase, checkBound, if_pos h]
  rfl

theorem runQFT_oor (q : QState) (argv : List ℤ)
    (h : oor q (argv.getD 0 0)) :
    runQFT q argv = rangeErr q (argv.getD 0 0) := by
  rw [oor] at h
  rw [runQFT, checkBound, if_pos h]
  rfl

theorem runInvQFT_oor (q : QState) (argv : List ℤ)
    (h : oor q (argv.getD 0 0)) :
    runInvQFT q argv = rangeErr q (argv.getD 0 0) := by
  rw [oor] at h
  rw [runInvQFT, checkBound, if_pos h]
  rfl

theorem runShiftLeft_oor (q : QState) (argv : List ℤ)
    (h : oor q (argv.getD 0 0)) :
    runShiftLeft q argv = rangeErr q (argv.getD 0 0) := by
  rw [oor] at h
  rw [runShiftLeft, checkBound, if_pos h]
  rfl

theorem runShiftRight_oor (q : QState) (argv : List ℤ)
    (h : oor q (argv.getD 0 0)) :
    runShiftRight q argv = rangeErr q (argv.getD 0 0) := by
  rw [oor] at h
  rw [runShiftRight, checkBound, if_pos h]
  rfl

theorem runMeasureBit_oor (q : QState) (argv : List ℤ)
    (h : oor q (argv.getD 0 0)) :
    runMeasureBit q argv = rangeErr q (argv.getD 0 0) := by
  rw [oor] at h
  rw [runMeasureBit, checkBound, if_pos h]
  rfl

theorem runExpModN_oor (q : QState) (argv : List ℤ)
    (h : oor q (argv.getD 2 0)) :
    runExpModN q argv = rangeErr q (argv.getD 2 0) := by
  rw [oor] at h
  rw [runExpModN, checkBound, if_pos h]
  rfl

theorem runRevExpModN_oor (q : QState) (argv : List ℤ)
    (h : oor q (argv.getD 2 0)) :
    runRevExpModN q argv = rangeErr q (argv.getD 2 0) := by
  rw [oor] at h
  rw [runRevExpModN, checkBound, if_pos h]
  rfl

theorem runCNot_oor_fst (q : QState) (argv : List ℤ)
    (h : oor q (argv.getD 0 0)) :
    runCNot q argv = rangeErr q (argv.getD 0 0) := by
  rw [oor] at h
  rw [runCNot, checkBound, if_pos h]
  rfl

theorem runSwap_oor_fst (q : QState) (argv : List ℤ)
    (h : oor q (argv.getD 0 0)) :
    runSwap q argv = rangeErr q (argv.getD 0 0) := by
  rw [oor] at h
  rw [runSwap, checkBound, if_pos h]
  rfl

theorem runCPhase_oor_fst (q : QState) (argv : List ℤ)
    (h : oor q (argv.getD 0 0)) :
    runCPhase q argv = rangeErr q (argv.getD 0 0) := by
  rw [oor] at h
  rw [runCPhase, checkBound, if_pos h]
  rfl

theorem runQFTCPhase_oor_fst (q : QState) (argv : List ℤ)
    (h : oor q (argv.getD 0 0)) :
    runQFTCPhase q argv = rangeErr q (argv.getD 0 0) := by
  rw [oor] at h
  rw [runQFTCPhase, checkBound, if_pos h]
  rfl

theorem runInvQFTCPhase_oor_fst (q : QState) (argv : List ℤ)
    (h : oor q (argv.getD 0 0)) :
    runInvQFTCPhase q argv = rangeErr q (argv.getD 0 0) := by
  rw [oor] at h
  rw [runInvQFTCPhase, checkBound, if_pos h]
  rfl

theorem runToffoli_oor_fst (q : QState) (argv : List ℤ)
    (h : oor q (argv.getD 0 0)) :
    runToffoli q argv = rangeErr q (argv.getD 0 0) := by
  rw [oor] at h
  rw [runToffoli, checkBound, if_pos h]
  rfl

theorem runCNot_oor_snd (q : QState) (argv : List ℤ)
    (h0 : ¬ oor q (argv.getD 0 0)) (h1 : oor q (argv.getD 1 0)) :
    runCNot q argv = rangeErr q (argv.getD 1 0) := by
  rw [oor] at h0 h1
  rw [runCNot, checkBound, if_neg h0]
  show (let r1 := checkBound q (argv.getD 1 0)
    if ¬ r1.2 then r1.1
    else { r1.1 with sim := applyCNot r1.1.sim (argv.getD 0 0) (argv.getD 1 0) }) = rangeErr q (argv.getD 1 0)
  rw [checkBound, if_pos h1]
  rfl

theorem runSwap_oor_snd (q : QState) (argv : List ℤ)
    (h0 : ¬ oor q (argv.getD 0 0)) (h1 : oor q (argv.getD 1 0)) :
    runSwap q argv = rangeErr q (argv.getD 1 0) := by
  rw [oor] at h0 h1
  rw [runSwap, checkBound, if_neg h0]
  show (let r1 := checkBound q (argv.getD 1 0)
    if ¬ r1.2 then r1.1
    else { r1.1 with sim := simPush r1.1.sim (.swapg (argv.getD 0 0) (argv.getD 1 0)) }) = rangeErr q (argv.getD 1 0)
  rw [checkBound, if_pos h1]
  rfl

theorem runCPhase_oor_snd (q : QState) (argv : List ℤ)
    (h0 : ¬ oor q (argv.getD 0 0)) (h1 : oor q (argv.getD 1 0)) :
    runCPhase q argv = rangeErr q (argv.getD 1 0) := by
  rw [oor] at h0 h1
  rw [runCPhase, checkBound, if_neg h0]
  show (let r1 := checkBound q (argv.getD 1 0)
    if ¬ r1.2 then r1.1
    else { r1.1 with sim :=
      applyCPhaseShift r1.1.sim (argv.getD 0 0) (argv.getD 1 0) (argv.getD 2 0) }) = rangeErr q (argv.getD 1 0)
  rw [checkBound, if_pos h1]
  rfl

theorem runQFTCPhase_oor_snd (q : QState) (argv : List ℤ)
    (h0 : ¬ oor q (argv.getD 0 0)) (h1 : oor q (argv.getD 1 0)) :
    runQFTCPhase q argv = rangeErr q (argv.getD 1 0) := by
  rw [oor] at h0 h1
  rw [runQFTCPhase, checkBound, if_neg h0]
  show (let r1 := checkBound q (argv.getD 1 0)
    if ¬ r1.2 then r1.1
    else if argv.getD 0 0 ≤ argv.getD 1 0 then
      { r1.1 with errors := r1.1.errors ++
        ["Error: For QFTCPhase control qbit must be above the target qbit."] }
    else { r1.1 with sim :=
      applyPhaseShift r1.1.sim (argv.getD 0 0) (argv.getD 1 0) 1 }) = rangeErr q (argv.getD 1 0)
  rw [checkBound, if_pos h1]
  rfl

theorem runInvQFTCPhase_oor_snd (q : QState) (argv : List ℤ)
    (h0 : ¬ oor q (argv.getD 0 0)) (h1 : oor q (argv.getD 1 0)) :
    runInvQFTCPhase q argv = rangeErr q (argv.getD 1 0) := by
  rw [oor] at h0 h1
  rw [runInvQFTCPhase, checkBound, if_neg h0]
  show (let r1 := checkBound q (argv.getD 1 0)
    if ¬ r1.2 then r1.1
    else if argv.getD 0 0 ≤ argv.getD 1 0 then
      { r1.1 with errors := r1.1.errors ++
        ["Error: For InvQFTCPhase control qbit must be above the target qbit."] }
    else { r1.1 with sim :=
      applyPhaseShift r1.1.sim (argv.getD 0 0) (argv.getD 1 0) (-1) }) = rangeErr q (argv.getD 1 0)
  rw [checkBound, if_pos h1]
  rfl

theorem runToffoli_oor_snd (q : QState) (argv : List ℤ)
    (h0 : ¬ oor q (argv.getD 0 0)) (h1 : oor q (argv.getD 1 0)) :
    runToffoli q argv = rangeErr q (argv.getD 1 0) := by
  rw [oor] at h0 h1
  rw [runToffoli, checkBound, if_neg h0]
  show (let r1 := checkBound q (argv.getD 1 0)
    if ¬ r1.2 then r1.1
    else
      let r2 := checkBound r1.1 (argv.getD 2 0)
      if ¬ r2.2 then r2.1
      else
        { r2.1 with
          sim := applyToffoli r2.1.sim (argv.getD 0 0) (argv.getD 1 0) (argv.getD 2 0) }) =
    rangeErr q (argv.getD 1 0)
  rw [checkBound, if_pos h1]
  rfl

theorem runToffoli_oor_thd (q : QState) (argv : List ℤ)
    (h0 : ¬ oor q (argv.getD 0 0)) (h1 : ¬ oor q (argv.getD 1 0))
    (h2 : oor q (argv.getD 2 0)) :
    runToffoli q argv = rangeErr q (argv.getD 2 0) := by
  rw [oor] at h0 h1 h2
  rw [runToffoli, checkBound, if_neg h0]
  show (let r1 := checkBound q (argv.getD 1 0)
    if ¬ r1.2 then r1.1
    else
      let r2 := checkBound r1.1 (argv.getD 2 0)
      if ¬ r2.2 then r2.1
      else
        { r2.1 with
          sim := applyToffoli r2.1.sim (argv.getD 0 0) (argv.getD 1 0) (argv.getD 2 0) }) =
    rangeErr q (argv.getD 2 0)
  rw [checkBound, if_neg h1]
  show (let r2 := checkBound q (argv.getD 2 0)
    if ¬ r2.2 then r2.1
    else
      { r2.1 with
        sim := applyToffoli r2.1.sim (argv.getD 0 0) (argv.getD 1 0) (argv.getD 2 0) }) =
    rangeErr q (argv.getD 2 0)
  rw [checkBound, if_pos h2]
  rfl

/-- The builtin arm of the `runStep` dispatch, written out. -/
theorem execOp_builtin (p : Prog) (q : QState) (name : String)
    (args : List Expr) (ln : Nat) (tg : Int) :
    execOp p q ⟨.builtin name, args, ln, tg⟩ =
      { (findBuiltin name).run (execArgs p q args).1 (execArgs p q args).2 with
        currentStep := ((findBuiltin name).run (execArgs p q args).1
          (execArgs p q args).2).currentStep + 1 } := rfl

/-- C8: every builtin gate taking qubit indices range-checks them in
order; an out-of-range index (the first failing check) appends the
non-fatal `Qubit number out of range` error and returns with the whole
state — in particular the simulator — otherwise unchanged; the
dispatcher still advances `currentStep`, so execution proceeds. -/
theorem builtin_bounds_check :
    (∀ q argv, oor q (argv.getD 0 0) →
      runHadamard q argv = rangeErr q (argv.getD 0 0)) ∧
    (∀ q argv, oor q (argv.getD 0 0) →
      runSigmaX q argv = rangeErr q (argv.getD 0 0)) ∧
    (∀ q argv, oor q (argv.getD 0 0) →
      runSigmaY q argv = rangeErr q (argv.getD 0 0)) ∧
    (∀ q argv, oor q (argv.getD 0 0) →
      runSigmaZ q argv = rangeErr q (argv.getD 0 0)) ∧
    (∀ q argv, oor q (argv.getD 0 0) →
      runUnitary q argv = rangeErr q (argv.getD 0 0)) ∧
    (∀ q argv, oor q (argv.getD 0 0) →
      runRx q argv = rangeErr q (argv.getD 0 0)) ∧
    (∀ q argv, oor q (argv.getD 0 0) →
      runRy q argv = rangeErr q (argv.getD 0 0)) ∧
    (∀ q argv, oor q (argv.getD 0 0) →
      runRz q argv = rangeErr q (argv.getD 0 0)) ∧
    (∀ q argv, oor q (argv.getD 0 0) →
      runPhase q argv = rangeErr q (argv.getD 0 0)) ∧
    (∀ q argv, oor q (argv.getD 0 0) →
      runQFT q argv = rangeErr q (argv.getD 0 0)) ∧
    (∀ q argv, oor q (argv.getD 0 0) →
      runInvQFT q argv = rangeErr q (argv.getD 0 0)) ∧
    (∀ q argv, oor q (argv.getD 0 0) →
      runShiftLeft q argv = rangeErr q (argv.getD 0 0)) ∧
    (∀ q argv, oor q (argv.getD 0 0) →
      runShiftRight q argv = rangeErr q (argv.getD 0 0)) ∧
    (∀ q argv, oor q (argv.getD 0 0) →
      runMeasureBit q argv = rangeErr q (argv.getD 0 0)) ∧
    (∀ q argv, oor q (argv.getD 2 0) →
      runExpModN q argv = rangeErr q (argv.getD 2 0)) ∧
    (∀ q argv, oor q (argv.getD 2 0) →
      runRevExpModN q argv = rangeErr q (argv.getD 2 0)) ∧
    (∀ q argv, oor q (argv.getD 0 0) →
      runCNot q argv = rangeErr q (argv.getD 0 0)) ∧
    (∀ q argv, ¬ oor q (argv.getD 0 0) → oor q (argv.getD 1 0) →
      runCNot q argv = rangeErr q (argv.getD 1 0)) ∧
    (∀ q argv, oor q (argv.getD 0 0) →
      runSwap q argv = rangeErr q (argv.getD 0 0)) ∧
    (∀ q argv, ¬ oor q (argv.getD 0 0) → oor q (argv.getD 1 0) →
      runSwap q argv = rangeErr q (argv.getD 1 0)) ∧
    (∀ q argv, oor q (argv.getD 0 0) →
      runCPhase q argv = rangeErr q (argv.getD 0 0)) ∧
    (∀ q argv, ¬ oor q (argv.getD 0 0) → oor q (argv.getD 1 0) →
      runCPhase q argv = rangeErr q (argv.getD 1 0)) ∧
    (∀ q argv, oor q (argv.getD 0 0) →
      runQFTCPhase q argv = rangeErr q (argv.getD 0 0)) ∧
    (∀ q argv, ¬ oor q (argv.getD 0 0) → oor q (argv.getD 1 0) →
      runQFTCPhase q argv = rangeErr q (argv.getD 1 0)) ∧
    (∀ q argv, oor q (argv.getD 0 0) →
      runInvQFTCPhase q argv = rangeErr q (argv.getD 0 0)) ∧
    (∀ q argv, ¬ oor q (argv.getD 0 0) → oor q (argv.getD 1 0) →
      runInvQFTCPhase q argv = rangeErr q (argv.getD 1 0)) ∧
    (∀ q argv, oor q (argv.getD 0 0) →
      runToffoli q argv = rangeErr q (argv.getD 0 0)) ∧
    (∀ q argv, ¬ oor q (argv.getD 0 0) → oor q (argv.getD 1 0) →
      runToffoli q argv = rangeErr q (argv.getD 1 0)) ∧
    (∀ q argv, ¬ oor q (argv.getD 0 0) → ¬ oor q (argv.getD 1 0) →
      oor q (argv.getD 2 0) →
      runToffoli q argv = rangeErr q (argv.getD 2 0)) ∧
    (∀ p q b ln tg, oor q b →
      execOp p q ⟨.builtin "Hadamard", [.lit b], ln, tg⟩ =
        { rangeErr q b with currentStep := q.currentStep + 1 }) :=
  ⟨runHadamard_oor, runSigmaX_oor, runSigmaY_oor, runSigmaZ_oor,
    runUnitary_oor, runRx_oor, runRy_oor, runRz_oor, runPhase_oor,
    runQFT_oor, runInvQFT_oor, runShiftLeft_oor, runShiftRight_oor,
    runMeasureBit_oor, runExpModN_oor, runRevExpModN_oor,
    runCNot_oor_fst, runCNot_oor_snd, runSwap_oor_fst, runSwap_oor_snd,
    runCPhase_oor_fst, runCPhase_oor_snd, runQFTCPhase_oor_fst,
    runQFTCPhase_oor_snd, runInvQFTCPhase_oor_fst, runInvQFTCPhase_oor_snd,
    runToffoli_oor_fst, runToffoli_oor_snd, runToffoli_oor_thd,
    by
      intro p q b ln tg h
      rw [execOp_builtin]
      have ha : execArgs p q [.lit b] = (q, [b]) := rfl
      rw [ha]
      have hb : (findBuiltin "Hadamard").run q [b] = runHadamard q [b] := rfl
      rw [hb, runHadamard_oor q [b] h]
      rfl⟩

/-- Witness for C8: `Hadamard` on qubit 9 of a 6-qubit register only
appends the bounds error, and the dispatcher advances the step. -/
theorem builtin_bounds_check_witness :
    oor baseState 9 ∧
    runHadamard baseState [9] = rangeErr baseState 9 ∧
    execOp ⟨[]⟩ baseState ⟨.builtin "Hadamard", [.lit 9], 1, -1⟩ =
      { rangeErr baseState 9 with currentStep := baseState.currentStep + 1 } :=
  ⟨by rw [oor]; right; norm_num [baseState],
    builtin_bounds_check.1 baseState [9]
      (by rw [oor]; right; norm_num [baseState]),
    (builtin_bounds_check.2.2.2.2.2.2.2.2.2.2.2.2.2.2.2.2.2.2.2.2.2.2.2.2.2.2.2.2.2)
      ⟨[]⟩ baseState 9 1 (-1) (by rw [oor]; right; norm_num [baseState])⟩

/-! ## C4: stepping back over irreversible builtins -/

/-- `restoreValues_` touches only `store` and `measuredValue`. -/
theorem restoreValuesGo_frame :
    ∀ (l : List (String × ℤ)) (q : QState),
      (restoreValuesGo q l).sim = q.sim ∧
      (restoreValuesGo q l).callStack = q.callStack ∧
      (restoreValuesGo q l).history = q.history ∧
      (restoreValuesGo q l).errors = q.errors ∧
      (restoreValuesGo q l).locals = q.locals ∧
      (restoreValuesGo q l).savedVars = q.savedVars ∧
      (restoreValuesGo q l).savedValues = q.savedValues ∧
      (restoreValuesGo q l).currentFunc = q.currentFunc ∧
      (restoreValuesGo q l).currentStep = q.currentStep ∧
      (restoreValuesGo q l).vectorSize = q.vectorSize ∧
      (restoreValuesGo q l).rng = q.rng ∧
      (restoreValuesGo q l).callbacks = q.callbacks := by
  intro l
  induction l with
  | nil =>
    intro q
    exact ⟨rfl, rfl, rfl, rfl, rfl, rfl, rfl, rfl, rfl, rfl, rfl, rfl⟩
  | cons sv rest ih =>
    intro q
    rcases sv with ⟨sym, v⟩
    rw [restoreValuesGo]
    split <;> exact ih _

/-- For the three no-reverse names the switch empties the reverse. -/
theorem reverseNameArgs_skip (argv : List ℤ) :
    (reverseNameArgs "MeasureBit" argv).1 = "" ∧
    (reverseNameArgs "ExpModN" argv).1 = "" ∧
    (reverseNameArgs "RevExpModN" argv).1 = "" := ⟨rfl, rfl, rfl⟩

/-- Evaluating the builtin step-back branch at the three no-reverse
names: only the warning is appended after argument re-evaluation. -/
theorem stepBackBuiltin_measureBit (p : Prog) (q2 : QState) (args : List Expr) :
    stepBackBuiltin p q2 args "MeasureBit" =
      { (execArgs p q2 args).1 with
        errors := (execArgs p q2 args).1.errors ++
          ["Warning: this step has no reverse operation!"] } := rfl

theorem stepBackBuiltin_expModN (p : Prog) (q2 : QState) (args : List Expr) :
    stepBackBuiltin p q2 args "ExpModN" =
      { (execArgs p q2 args).1 with
        errors := (execArgs p q2 args).1.errors ++
          ["Warning: this step has no reverse operation!"] } := rfl

theorem stepBackBuiltin_revExpModN (p : Prog) (q2 : QState) (args : List Expr) :
    stepBackBuiltin p q2 args "RevExpModN" =
      { (execArgs p q2 args).1 with
        errors := (execArgs p q2 args).1.errors ++
          ["Warning: this step has no reverse operation!"] } := rfl

/-- Evaluating the builtin step-back branch at `Measure`: warn, then
re-execute the `Measure` builtin itself. -/
theorem stepBackBuiltin_measure (p : Prog) (q2 : QState) (args : List Expr) :
    stepBackBuiltin p q2 args "Measure" =
      runMeasure { (execArgs p q2 args).1 with
        errors := (execArgs p q2 args).1.errors ++
          ["Warning: measurement is normally not reversible!"] }
        (execArgs p q2 args).2 := rfl

/-- The state with position restored from an undo record. -/
def restoredState (q : QState) (rec : StepData) (rest : List StepData) : QState :=
  { restoreValues { q with history := rest, errors := [] } rec with
    currentFunc := rec.func, currentStep := rec.step }

theorem stepBackCore_builtin (p : Prog) (q : QState) (rec : StepData)
    (rest : List StepData) (name : String)
    (hop : (opAt p rec.func rec.step).command = .builtin name) :
    stepBackCore p q rec rest =
      stepBackBuiltin p (restoredState q rec rest)
        (opAt p rec.func rec.step).args name := by
  rw [stepBackCore, hop]
  rfl

theorem restoredState_frame (q : QState) (rec : StepData)
    (rest : List StepData) :
    (restoredState q rec rest).sim = q.sim ∧
    (restoredState q rec rest).callStack = q.callStack ∧
    (restoredState q rec rest).history = rest ∧
    (restoredState q rec rest).rng = q.rng ∧
    (restoredState q rec rest).currentFunc = rec.func ∧
    (restoredState q rec rest).currentStep = rec.step := by
  have hrf := restoreValuesGo_frame
    ((rec.symbols).zip rec.values) { q with history := rest, errors := [] }
  exact ⟨hrf.1, hrf.2.1, hrf.2.2.1, hrf.2.2.2.2.2.2.2.2.2.2.1, rfl, rfl⟩

/-- C4, amended: stepping back over a `MeasureBit`, `ExpModN` or
`RevExpModN` record appends the no-reverse warning and applies nothing
to the simulator (quantum state untouched, no random draw consumed);
stepping back over a `Measure` record appends the not-reversible
warning and then re-executes the `Measure` builtin: the vector is still
untouched (`Measure` does not collapse), but a random draw is consumed
and `measured_value` is overwritten with the fresh outcome. -/
theorem stepBack_irreversible :
    (∀ (p : Prog) (q : QState) (rec : StepData) (rest : List StepData)
        (name : String),
      q.history = rec :: rest →
      (opAt p rec.func rec.step).command = .builtin name →
      (name = "MeasureBit" ∨ name = "ExpModN" ∨ name = "RevExpModN") →
      (stepBack p q).sim = q.sim ∧
      "Warning: this step has no reverse operation!" ∈ (stepBack p q).errors ∧
      (stepBack p q).currentFunc = rec.func ∧
      (stepBack p q).currentStep = rec.step ∧
      (stepBack p q).history = rest ∧
      (stepBack p q).callStack = q.callStack ∧
      (stepBack p q).rng = q.rng) ∧
    (∀ (p : Prog) (q : QState) (rec : StepData) (rest : List StepData),
      q.history = rec :: rest →
      (opAt p rec.func rec.step).command = .builtin "Measure" →
      (stepBack p q).sim = q.sim ∧
      "Warning: measurement is normally not reversible!" ∈ (stepBack p q).errors ∧
      (stepBack p q).measuredValue =
        applyMeasure (q.rng.getD 0 0) q.sim.vector ∧
      (stepBack p q).rng = q.rng.drop 1 ∧
      (stepBack p q).currentFunc = rec.func ∧
      (stepBack p q).currentStep = rec.step ∧
      (stepBack p q).history = rest ∧
      (stepBack p q).callStack = q.callStack) := by
  have hstep : ∀ (p : Prog) (q : QState) (rec : StepData)
      (rest : List StepData), q.history = rec :: rest →
      stepBack p q = stepBackCore p q rec rest := by
    intro p q rec rest hh
    rw [stepBack, hh]
  constructor
  · intro p q rec rest name hh hop hname
    rw [hstep p q rec rest hh, stepBackCore_builtin p q rec rest name hop]
    obtain ⟨hr1, hr2, hr3, hr4, hr5, hr6⟩ := restoredState_frame q rec rest
    obtain ⟨⟨hc1, hc2, hc3, hc4⟩, hs1, _, _, hg1, _⟩ :=
      execArgs_evalFrame p (restoredState q rec rest)
        (opAt p rec.func rec.step).args
    have hmem : "Warning: this step has no reverse operation!" ∈
        ((execArgs p (restoredState q rec rest)
          (opAt p rec.func rec.step).args).1.errors ++
          ["Warning: this step has no reverse operation!"]) :=
      List.mem_append_right _ (List.mem_singleton.mpr rfl)
    rcases hname with h | h | h <;> subst h
    · rw [stepBackBuiltin_measureBit]
      exact ⟨hs1.trans hr1, hmem, hc3.trans hr5, hc4.trans hr6,
        hc2.trans hr3, hc1.trans hr2, hg1.trans hr4⟩
    · rw [stepBackBuiltin_expModN]
      exact ⟨hs1.trans hr1, hmem, hc3.trans hr5, hc4.trans hr6,
        hc2.trans hr3, hc1.trans hr2, hg1.trans hr4⟩
    · rw [stepBackBuiltin_revExpModN]
      exact ⟨hs1.trans hr1, hmem, hc3.trans hr5, hc4.trans hr6,
        hc2.trans hr3, hc1.trans hr2, hg1.trans hr4⟩
  · intro p q rec rest hh hop
    rw [hstep p q rec rest hh, stepBackCore_builtin p q rec rest "Measure" hop]
    rw [stepBackBuiltin_measure]
    obtain ⟨hr1, hr2, hr3, hr4, hr5, hr6⟩ := restoredState_frame q rec rest
    obtain ⟨⟨hc1, hc2, hc3, hc4⟩, hs1, _, _, hg1, _⟩ :=
      execArgs_evalFrame p (restoredState q rec rest)
        (opAt p rec.func rec.step).args
    rw [runMeasure]
    have hsim : (execArgs p (restoredState q rec rest)
        (opAt p rec.func rec.step).args).1.sim = q.sim := hs1.trans hr1
    have hrng : (execArgs p (restoredState q rec rest)
        (opAt p rec.func rec.step).args).1.rng = q.rng := hg1.trans hr4
    refine ⟨hsim, List.mem_append_right _ (List.mem_singleton.mpr rfl),
      ?_, ?_, hc3.trans hr5, hc4.trans hr6, hc2.trans hr3, hc1.trans hr2⟩
    · show ((applyMeasure ((execArgs p (restoredState q rec rest)
        (opAt p rec.func rec.step).args).1.rng.getD 0 0)
        (execArgs p (restoredState q rec rest)
          (opAt p rec.func rec.step).args).1.sim.vector : Int) : ℤ) = _
      rw [hrng, hsim]
    · show (execArgs p (restoredState q rec rest)
        (opAt p rec.func rec.step).args).1.rng.drop 1 = q.rng.drop 1
      rw [hrng]

/-- A one-line program whose only opcode is the `Measure` builtin. -/
def pMeasure : Prog := ⟨[⟨"__main__", none, [], [⟨.builtin "Measure", [], 1, -1⟩]⟩]⟩

/-- A state whose history holds one record for the `Measure` opcode. -/
def qMeasured : QState := { baseState with history := [⟨[], [], 0, 0⟩] }

/-- C4 counterexample: stepping back over a `Measure` record does not
merely warn — it re-executes the measurement.  Concretely, with
`measured_value = 7` before the step-back, afterwards it is `0` (a
fresh draw against the `|0⟩` vector) and a random draw was consumed,
so an operation was applied to the simulator. -/
theorem stepBack_measure_counterexample :
    qMeasured.measuredValue = 7 ∧
    (stepBack pMeasure qMeasured).measuredValue = 0 ∧
    qMeasured.rng = [0, 0] ∧
    (stepBack pMeasure qMeasured).rng = [0] ∧
    ((7 : ℤ) ≠ 0) := by
  refine ⟨by decide, by decide, by decide, by decide, by decide⟩

/-- A one-line program whose only opcode is `MeasureBit 0`. -/
def pMeasureBit : Prog :=
  ⟨[⟨"__main__", none, [], [⟨.builtin "MeasureBit", [.lit 0], 1, -1⟩]⟩]⟩

/-- Witness for the amended C4 theorem at a concrete `MeasureBit`
record. -/
theorem stepBack_irreversible_witness :
    (stepBack pMeasureBit qMeasured).sim = qMeasured.sim ∧
    "Warning: this step has no reverse operation!" ∈
      (stepBack pMeasureBit qMeasured).errors ∧
    (stepBack pMeasureBit qMeasured).currentFunc = 0 ∧
    (stepBack pMeasureBit qMeasured).currentStep = 0 ∧
    (stepBack pMeasureBit qMeasured).history = [] ∧
    (stepBack pMeasureBit qMeasured).callStack = qMeasured.callStack ∧
    (stepBack pMeasureBit qMeasured).rng = qMeasured.rng :=
  stepBack_irreversible.1 pMeasureBit qMeasured ⟨[], [], 0, 0⟩ [] "MeasureBit"
    (by decide) (by decide) (Or.inl rfl)

/-! ## C10: the call stack across `runStep` and `stepBack` -/

theorem checkBound_core (q : QState) (b : ℤ) :
    coreFrame q (checkBound q b).1 := by
  unfold checkBound
  split <;> exact ⟨rfl, rfl, rfl, rfl⟩

theorem runDecoherence_core (q : QState) (argv : List ℤ) :
    coreFrame q (runDecoherence q argv) := ⟨rfl, rfl, rfl, rfl⟩

theorem runMeasure_core (q : QState) (argv : List ℤ) :
    coreFrame q (runMeasure q argv) := ⟨rfl, rfl, rfl, rfl⟩

theorem runPrint_core (q : QState) (argv : List ℤ) :
    coreFrame q (runPrint q argv) := ⟨rfl, rfl, rfl, rfl⟩

theorem runBreakpoint_core (q : QState) (argv : List ℤ) :
    coreFrame q (runBreakpoint q argv) := ⟨rfl, rfl, rfl, rfl⟩

theorem runDelay_core (q : QState) (argv : List ℤ) :
    coreFrame q (runDelay q argv) := ⟨rfl, rfl, rfl, rfl⟩

theorem runDisplay_core (q : QState) (argv : List ℤ) :
    coreFrame q (runDisplay q argv) := ⟨rfl, rfl, rfl, rfl⟩

theorem runSetViewAngle_core (q : QState) (argv : List ℤ) :
    coreFrame q (runSetViewAngle q argv) := ⟨rfl, rfl, rfl, rfl⟩

theorem runSetViewMode_core (q : QState) (argv : List ℤ) :
    coreFrame q (runSetViewMode q argv) := ⟨rfl, rfl, rfl, rfl⟩

theorem runVectorSize_core (q : QState) (argv : List ℤ) :
    coreFrame q (runVectorSize q argv) := by
  unfold runVectorSize
  dsimp only
  split <;> exact ⟨rfl, rfl, rfl, rfl⟩

theorem runHadamard_core (q : QState) (argv : List ℤ) :
    coreFrame q (runHadamard q argv) := by
  unfold runHadamard
  dsimp only
  split <;> exact checkBound_core q _

theorem runSigmaX_core (q : QState) (argv : List ℤ) :
    coreFrame q (runSigmaX q argv) := by
  unfold runSigmaX
  dsimp only
  split <;> exact checkBound_core q _

theorem runSigmaY_core (q : QState) (argv : List ℤ) :
    coreFrame q (runSigmaY q argv) := by
  unfold runSigmaY
  dsimp only
  split <;> exact checkBound_core q _

theorem runSigmaZ_core (q : QState) (argv : List ℤ) :
    coreFrame q (runSigmaZ q argv) := by
  unfold runSigmaZ
  dsimp only
  split <;> exact checkBound_core q _

theorem runUnitary_core (q : QState) (argv : List ℤ) :
    coreFrame q (runUnitary q argv) := by
  unfold runUnitary
  dsimp only
  split <;> exact checkBound_core q _

theorem runRx_core (q : QState) (argv : List ℤ) :
    coreFrame q (runRx q argv) := by
  unfold runRx
  dsimp only
  split <;> exact checkBound_core q _

theorem runRy_core (q : QState) (argv : List ℤ) :
    coreFrame q (runRy q argv) := by
  unfold runRy
  dsimp only
  split <;> exact checkBound_core q _

theorem runRz_core (q : QState) (argv : List ℤ) :
    coreFrame q (runRz q argv) := by
  unfold runRz
  dsimp only
  split <;> exact checkBound_core q _

theorem runPhase_core (q : QState) (argv : List ℤ) :
    coreFrame q (runPhase q argv) := by
  unfold runPhase
  dsimp only
  split <;> exact checkBound_core q _

theorem runQFT_core (q : QState) (argv : List ℤ) :
    coreFrame q (runQFT q argv) := by
  unfold runQFT
  dsimp only
  split <;> exact checkBound_core q _

theorem runInvQFT_core (q : QState) (argv : List ℤ) :
    coreFrame q (runInvQFT q argv) := by
  unfold runInvQFT
  dsimp only
  split <;> exact checkBound_core q _

theorem runShiftLeft_core (q : QState) (argv : List ℤ) :
    coreFrame q (runShiftLeft q argv) := by
  unfold runShiftLeft
  dsimp only
  split <;> exact checkBound_core q _

theorem runShiftRight_core (q : QState) (argv : List ℤ) :
    coreFrame q (runShiftRight q argv) := by
  unfold runShiftRight
  dsimp only
  split <;> exact checkBound_core q _

theorem runMeasureBit_core (q : QState) (argv : List ℤ) :
    coreFrame q (runMeasureBit q argv) := by
  unfold runMeasureBit
  dsimp only
  split <;> exact checkBound_core q _

theorem runExpModN_core (q : QState) (argv : List ℤ) :
    coreFrame q (runExpModN q argv) := by
  unfold runExpModN
  dsimp only
  split <;> exact checkBound_core q _

theorem runRevExpModN_core (q : QState) (argv : List ℤ) :
    coreFrame q (runRevExpModN q argv) := by
  unfold runRevExpModN
  dsimp only
  split <;> exact checkBound_core q _

theorem runCNot_core (q : QState) (argv : List ℤ) :
    coreFrame q (runCNot q argv) := by
  unfold runCNot
  dsimp only
  split
  · exact checkBound_core q _
  · split <;> exact coreFrame_trans (checkBound_core q _) (checkBound_core _ _)

theorem runSwap_core (q : QState) (argv : List ℤ) :
    coreFrame q (runSwap q argv) := by
  unfold runSwap
  dsimp only
  split
  · exact checkBound_core q _
  · split <;> exact coreFrame_trans (checkBound_core q _) (checkBound_core _ _)

theorem runCPhase_core (q : QState) (argv : List ℤ) :
    coreFrame q (runCPhase q argv) := by
  unfold runCPhase
  dsimp only
  split
  · exact checkBound_core q _
  · split <;> exact coreFrame_trans (checkBound_core q _) (checkBound_core _ _)

theorem runQFTCPhase_core (q : QState) (argv : List ℤ) :
    coreFrame q (runQFTCPhase q argv) := by
  unfold runQFTCPhase
  dsimp only
  split
  · exact checkBound_core q _
  · split
    · exact coreFrame_trans (checkBound_core q _) (checkBound_core _ _)
    · split <;> exact coreFrame_trans (checkBound_core q _) (checkBound_core _ _)

theorem runInvQFTCPhase_core (q : QState) (argv : List ℤ) :
    coreFrame q (runInvQFTCPhase q argv) := by
  unfold runInvQFTCPhase
  dsimp only
  split
  · exact checkBound_core q _
  · split
    · exact coreFrame_trans (checkBound_core q _) (checkBound_core _ _)
    · split <;> exact coreFrame_trans (checkBound_core q _) (checkBound_core _ _)

theorem runToffoli_core (q : QState) (argv : List ℤ) :
    coreFrame q (runToffoli q argv) := by
  unfold runToffoli
  dsimp only
  split
  · exact checkBound_core q _
  · split
    · exact coreFrame_trans (checkBound_core q _) (checkBound_core _ _)
    · split <;>
        exact coreFrame_trans (checkBound_core q _)
          (coreFrame_trans (checkBound_core _ _) (checkBound_core _ _))

theorem getBuiltins_core :
    ∀ b ∈ getBuiltins, ∀ (q : QState) (argv : List ℤ),
      coreFrame q (b.run q argv) := by
  intro b hb q argv
  simp only [getBuiltins, List.mem_cons, List.not_mem_nil, or_false] at hb
  rcases hb with rfl | rfl | rfl | rfl | rfl | rfl | rfl | rfl | rfl | rfl | rfl |
    rfl | rfl | rfl | rfl | rfl | rfl | rfl | rfl | rfl | rfl | rfl | rfl | rfl |
    rfl | rfl | rfl | rfl | rfl | rfl | rfl
  · exact runVectorSize_core q argv
  · exact runDecoherence_core q argv
  · exact runHadamard_core q argv
  · exact runSigmaX_core q argv
  · exact runSigmaY_core q argv
  · exact runSigmaZ_core q argv
  · exact runUnitary_core q argv
  · exact runRx_core q argv
  · exact runRy_core q argv
  · exact runRz_core q argv
  · exact runCNot_core q argv
  · exact runSwap_core q argv
  · exact runToffoli_core q argv
  · exact runPhase_core q argv
  · exact runCPhase_core q argv
  · exact runQFTCPhase_core q argv
  · exact runInvQFTCPhase_core q argv
  · exact runQFT_core q argv
  · exact runInvQFT_core q argv
  · exact runExpModN_core q argv
  · exact runRevExpModN_core q argv
  · exact runShiftLeft_core q argv
  · exact runShiftRight_core q argv
  · exact runMeasureBit_core q argv
  · exact runMeasure_core q argv
  · exact runPrint_core q argv
  · exact runBreakpoint_core q argv
  · exact runDelay_core q argv
  · exact runDisplay_core q argv
  · exact runSetViewAngle_core q argv
  · exact runSetViewMode_core q argv

theorem findBuiltin_mem_or_default (name : String) :
    findBuiltin name ∈ getBuiltins ∨ findBuiltin name = defaultBI := by
  rw [findBuiltin]
  cases h : getBuiltins.filter (fun b => b.bname = name) with
  | nil => right; rfl
  | cons a t =>
    left
    have ha : a ∈ getBuiltins.filter (fun b => b.bname = name) := by
      rw [h]
      exact List.mem_cons_self a t
    exact List.mem_of_mem_filter ha

theorem findBuiltin_core (name : String) (q : QState) (argv : List ℤ) :
    coreFrame q ((findBuiltin name).run q argv) := by
  rcases findBuiltin_mem_or_default name with h | h
  · exact getBuiltins_core _ h q argv
  · rw [h]
    exact coreFrame_refl q

/-- The builtin branch of `stepBack` preserves the call stack, the
(already popped) history and the restored position. -/
theorem stepBackBuiltin_core (p : Prog) (q2 : QState) (args : List Expr)
    (name : String) : coreFrame q2 (stepBackBuiltin p q2 args name) := by
  have h1 : coreFrame q2 (execArgs p q2 args).1 :=
    (execArgs_evalFrame p q2 args).1
  unfold stepBackBuiltin
  dsimp only
  split
  · split
    · exact h1
    · exact h1
  · split
    · exact coreFrame_trans h1 (findBuiltin_core _ _ _)
    · exact coreFrame_trans h1 (findBuiltin_core _ _ _)

/-- After popping a record, `stepBack` keeps the call stack, leaves the
popped history, and restores the recorded position, whatever the
restored opcode is. -/
theorem stepBack_pop (p : Prog) (q : QState) (rec : StepData)
    (rest : List StepData) (hh : q.history = rec :: rest) :
    (stepBack p q).callStack = q.callStack ∧
    (stepBack p q).history = rest ∧
    (stepBack p q).currentFunc = rec.func ∧
    (stepBack p q).currentStep = rec.step := by
  rw [stepBack, hh]
  show (stepBackCore p q rec rest).callStack = q.callStack ∧
    (stepBackCore p q rec rest).history = rest ∧
    (stepBackCore p q rec rest).currentFunc = rec.func ∧
    (stepBackCore p q rec rest).currentStep = rec.step
  obtain ⟨hr1, hr2, hr3, hr4, hr5, hr6⟩ := restoredState_frame q rec rest
  cases hc : (opAt p rec.func rec.step).command with
  | builtin name =>
    rw [stepBackCore_builtin p q rec rest name hc]
    obtain ⟨hb1, hb2, hb3, hb4⟩ :=
      stepBackBuiltin_core p (restoredState q rec rest)
        (opAt p rec.func rec.step).args name
    exact ⟨hb1.trans hr2, hb2.trans hr3, hb3.trans hr5, hb4.trans hr6⟩
  | ctrl c =>
    have he : stepBackCore p q rec rest = restoredState q rec rest := by
      rw [stepBackCore, hc]
      rfl
    rw [he]
    exact ⟨hr2, hr3, hr5, hr6⟩
  | user f =>
    have he : stepBackCore p q rec rest = restoredState q rec rest := by
      rw [stepBackCore, hc]
      rfl
    rw [he]
    exact ⟨hr2, hr3, hr5, hr6⟩

/-- C10 part (a): `stepBack` never touches the call stack. -/
theorem stepBack_callStack (p : Prog) (q : QState) :
    (stepBack p q).callStack = q.callStack := by
  cases hh : q.history with
  | nil => rw [stepBack, hh]
  | cons rec rest => exact (stepBack_pop p q rec rest hh).1

theorem userCallArgs_evalFrame (p : Prog) (f : Nat) :
    ∀ (args : List Expr) (q : QState) (argvS : String) (i : Nat),
      evalFrame q (userCallArgs p f q argvS i args).1 := by
  intro args
  induction args with
  | nil => intro q argvS i; exact evalFrame_refl q
  | cons e rest ih =>
    intro q argvS i
    rw [userCallArgs]
    exact evalFrame_trans (translateId_evalFrame p q f _)
      (evalFrame_trans (executeExpression_evalFrame p _ e _)
        (evalFrame_trans (executeExpression_evalFrame p _ e none) (ih _ _ _)))

/-- The user-proc arm of the `runStep` dispatch, written out. -/
theorem execOp_user (p : Prog) (q : QState) (f : Nat) (args : List Expr)
    (ln : Nat) (tg : Int) :
    execOp p q ⟨.user f, args, ln, tg⟩ =
      { (userCallArgs p f q "" 0 args).1 with
        callStack := (q.currentFunc, q.currentStep + 1,
          (userCallArgs p f q "" 0 args).2) ::
          (userCallArgs p f q "" 0 args).1.callStack,
        currentFunc := f, currentStep := 0 } := rfl

theorem runStep_eq (p : Prog) (q : QState)
    (hlt : q.currentStep < (p.funcs.getD q.currentFunc defaultFunc).code.length) :
    runStep p q = framePopIfEnded p (pushHistory q.currentFunc q.currentStep
      (execOp p { q with errors := [], savedVars := [], savedValues := [] }
        (opAt p q.currentFunc q.currentStep))) := by
  rw [runStep, if_neg (by omega)]

/-- C10: (a) `stepBack` never modifies the call stack; (b) undoing a
user-proc call whose callee body is non-empty restores `currentFunc`
and `currentStep` from the record but leaves the pushed frame on the
call stack; (c) the frame pop performed when `runStep` is entered with
`currentStep` past the end pushes no history record (the whole state
change is the pop itself), so it can never be undone. -/
theorem stepBack_callStack_frame :
    (∀ (p : Prog) (q : QState), (stepBack p q).callStack = q.callStack) ∧
    (∀ (p : Prog) (q : QState) (f : Nat),
      q.currentStep < (p.funcs.getD q.currentFunc defaultFunc).code.length →
      (opAt p q.currentFunc q.currentStep).command = .user f →
      (p.funcs.getD f defaultFunc).code ≠ [] →
      ∃ a, (runStep p q).callStack =
          (q.currentFunc, q.currentStep + 1, a) :: q.callStack ∧
        (stepBack p (runStep p q)).callStack = (runStep p q).callStack ∧
        (stepBack p (runStep p q)).currentFunc = q.currentFunc ∧
        (stepBack p (runStep p q)).currentStep = q.currentStep) ∧
    (∀ (p : Prog) (q : QState) (fr : Nat × Nat × String)
        (rest : List (Nat × Nat × String)),
      (p.funcs.getD q.currentFunc defaultFunc).code.length ≤ q.currentStep →
      q.callStack = fr :: rest →
      runStep p q =
        { q with callStack := rest, currentFunc := fr.1, currentStep := fr.2.1 }) := by
  refine ⟨stepBack_callStack, ?_, ?_⟩
  · intro p q f hlt hop hne
    have hopEta : opAt p q.currentFunc q.currentStep =
        (⟨.user f, (opAt p q.currentFunc q.currentStep).args,
          (opAt p q.currentFunc q.currentStep).line,
          (opAt p q.currentFunc q.currentStep).target⟩ : Op) := by
      rw [← hop]
    have hrun : runStep p q = framePopIfEnded p (pushHistory q.currentFunc
        q.currentStep (execOp p
          { q with errors := [], savedVars := [], savedValues := [] }
          (opAt p q.currentFunc q.currentStep))) := runStep_eq p q hlt
    rw [hopEta, execOp_user] at hrun
    set qc : QState :=
      { q with errors := [], savedVars := [], savedValues := [] } with hqc
    set u := userCallArgs p f qc "" 0 (opAt p q.currentFunc q.currentStep).args
      with hu
    have hnoop : framePopIfEnded p (pushHistory q.currentFunc q.currentStep
        { u.1 with callStack := (qc.currentFunc, qc.currentStep + 1, u.2) ::
            u.1.callStack, currentFunc := f, currentStep := 0 }) =
        pushHistory q.currentFunc q.currentStep
        { u.1 with callStack := (qc.currentFunc, qc.currentStep + 1, u.2) ::
            u.1.callStack, currentFunc := f, currentStep := 0 } := by
      rw [framePopIfEnded, if_neg]
      show ¬ ((p.funcs.getD f defaultFunc).code.length ≤ 0)
      have : (p.funcs.getD f defaultFunc).code.length ≠ 0 := by
        intro h0
        exact hne (List.length_eq_zero.mp h0)
      omega
    rw [hnoop] at hrun
    have huf : evalFrame qc u.1 := userCallArgs_evalFrame p f _ qc "" 0
    have hucs : u.1.callStack = q.callStack := huf.1.1
    have huh : u.1.history = q.history := huf.1.2.1
    refine ⟨u.2, ?_, ?_, ?_, ?_⟩
    · rw [hrun]
      show (qc.currentFunc, qc.currentStep + 1, u.2) :: u.1.callStack =
        (q.currentFunc, q.currentStep + 1, u.2) :: q.callStack
      rw [hucs]
    · exact stepBack_callStack p (runStep p q)
    · have hh : (runStep p q).history =
          (⟨u.1.savedVars, u.1.savedValues, q.currentFunc, q.currentStep⟩ :
            StepData) :: q.history := by
        rw [hrun]
        show (⟨u.1.savedVars, u.1.savedValues, q.currentFunc, q.currentStep⟩ :
          StepData) :: u.1.history = _
        rw [huh]
      exact (stepBack_pop p (runStep p q) _ _ hh).2.2.1
    · have hh : (runStep p q).history =
          (⟨u.1.savedVars, u.1.savedValues, q.currentFunc, q.currentStep⟩ :
            StepData) :: q.history := by
        rw [hrun]
        show (⟨u.1.savedVars, u.1.savedValues, q.currentFunc, q.currentStep⟩ :
          StepData) :: u.1.history = _
        rw [huh]
      exact (stepBack_pop p (runStep p q) _ _ hh).2.2.2
  · intro p q fr rest hle hcs
    rw [runStep, if_pos hle, hcs]

/-- Program: `__main__` calls the user proc `f` whose body is empty. -/
def pEmptyCall : Prog :=
  ⟨[⟨"__main__", none, [], [⟨.user 1, [], 1, -1⟩]⟩, ⟨"f", some 0, [], []⟩]⟩

/-- C10 counterexample: calling a proc with an empty body pushes a
frame that the end-of-function pop inside the same `runStep` removes
again; after `stepBack` the frame pushed by the call is not on the call
stack (the claim would leave it there). -/
theorem stepBack_emptyCall_counterexample :
    (opAt pEmptyCall 0 0).command = .user 1 ∧
    (runStep pEmptyCall baseState).callStack = [] ∧
    (runStep pEmptyCall baseState).history ≠ [] ∧
    (stepBack pEmptyCall (runStep pEmptyCall baseState)).callStack = [] ∧
    ∀ a : String, ([] : List (Nat × Nat × String)) ≠ [(0, 1, a)] := by
  refine ⟨by decide, by decide, by decide, by decide, ?_⟩
  intro a h
  exact List.noConfusion h

/-- Program: `__main__` calls the user proc `g` whose body is one
`Print` line. -/
def pCallG : Prog :=
  ⟨[⟨"__main__", none, [], [⟨.user 1, [], 1, -1⟩]⟩,
    ⟨"g", some 0, [], [⟨.builtin "Print", [.lit 1], 2, -1⟩]⟩]⟩

/-- Witness for the amended C10 theorem at a concrete call of a
non-empty proc. -/
theorem stepBack_callStack_frame_witness :
    (∃ a, (runStep pCallG baseState).callStack = [(0, 1, a)] ∧
      (stepBack pCallG (runStep pCallG baseState)).callStack =
        (runStep pCallG baseState).callStack ∧
      (stepBack pCallG (runStep pCallG baseState)).currentFunc = 0 ∧
      (stepBack pCallG (runStep pCallG baseState)).currentStep = 0) ∧
    (stepBack pMeasure qMeasured).callStack = qMeasured.callStack := by
  constructor
  · have h := stepBack_callStack_frame.2.1 pCallG baseState 1
      (by decide) (by decide) (by decide)
    obtain ⟨a, h1, h2, h3, h4⟩ := h
    exact ⟨a, h1, h2, h3, h4⟩
  · exact stepBack_callStack_frame.1 pMeasure qMeasured

/-! ## C7: scope resolution of identifiers -/

/-- The scope chain starting at function `i` (self first, then the
parent pointers), cut off by a fuel that dominates the chain length. -/
def scopeChain (p : Prog) : Nat → Nat → List Nat
  | 0, _ => []
  | fuel + 1, i =>
    i :: (match (p.funcs.getD i defaultFunc).parentIdx with
      | none => []
      | some j => scopeChain p fuel j)

/-- The `translateId` walk is exactly the first member of the scope
chain that declares the identifier. -/
theorem lookupChain_eq_find (p : Prog) (locals : Nat → List String)
    (id : String) :
    ∀ (fuel i : Nat),
      lookupChain p locals id fuel i =
        (scopeChain p fuel i).find? (fun j => decide (id ∈ locals j)) := by
  intro fuel
  induction fuel with
  | zero => intro i; rfl
  | succ fuel ih =>
    intro i
    rw [lookupChain, scopeChain]
    by_cases hmem : id ∈ locals i
    · rw [if_pos hmem, List.find?_cons_of_pos _ (by simpa using hmem)]
    · rw [if_neg hmem, List.find?_cons_of_neg _ (by simpa using hmem)]
      cases (p.funcs.getD i defaultFunc).parentIdx with
      | none => rfl
      | some j => exact ih j

/-- C7, amended: (global) an identifier beginning with `_` resolves to
the one global cell `window.__<name>`, identically from every function,
creating no local; (scoped) a dot-free identifier other than the
reserved `measured_value` resolves to the cell of the first function in
the scope chain of `p` (self first, then ancestors) that declares it,
and when none does it is created as a new local of the current function
and resolves to that function's cell; (assignment) a top-level
assignment target not yet local to the current function is first
declared as a local there, shadowing any ancestor declaration;
(dotted) an identifier containing `.` passes through untranslated. -/
theorem translateId_scope :
    (∀ (p : Prog) (q : QState) (fn fn2 : Nat) (id : String),
      ¬ strHasDot id = true → startsUnderscore id = true →
      (translateId p q fn id).2 = .cell (varsPfx ++ "_" ++ id) ∧
      (translateId p q fn2 id).2 = (translateId p q fn id).2 ∧
      (translateId p q fn id).1.locals = q.locals) ∧
    (∀ (p : Prog) (q : QState) (fn : Nat) (id : String) (j : Nat),
      ¬ strHasDot id = true → id ≠ MEASURED_VALUE →
      ¬ startsUnderscore id = true →
      (scopeChain p (fn + 1) fn).find? (fun k => decide (id ∈ q.locals k)) =
        some j →
      (translateId p q fn id).2 = .cell (cellNameOf p j id) ∧
      (translateId p q fn id).1.locals = q.locals) ∧
    (∀ (p : Prog) (q : QState) (fn : Nat) (id : String),
      ¬ strHasDot id = true → id ≠ MEASURED_VALUE →
      ¬ startsUnderscore id = true →
      (scopeChain p (fn + 1) fn).find? (fun k => decide (id ∈ q.locals k)) =
        none →
      (translateId p q fn id).2 = .cell (cellNameOf p fn id) ∧
      (translateId p q fn id).1.locals fn = q.locals fn ++ [id] ∧
      ∀ k, k ≠ fn → (translateId p q fn id).1.locals k = q.locals k) ∧
    (∀ (q : QState) (x : String) (e : Expr),
      x ∉ q.locals q.currentFunc →
      (detectLocal q (.assign x e)).locals q.currentFunc =
        q.locals q.currentFunc ++ [x]) ∧
    (∀ (p : Prog) (q : QState) (fn : Nat) (id : String),
      strHasDot id = true → translateId p q fn id = (q, .cell id)) := by
  refine ⟨?_, ?_, ?_, ?_, ?_⟩
  · intro p q fn fn2 id hd hu
    have hm : id ≠ MEASURED_VALUE := by
      intro h
      subst h
      exact absurd hu (by decide)
    rw [translateId, if_neg (by simpa using hd), if_neg hm, if_pos hu]
    rw [translateId, if_neg (by simpa using hd), if_neg hm, if_pos hu]
    exact ⟨rfl, rfl, saveValue_locals _ _⟩
  · intro p q fn id j hd hm hu hfind
    rw [translateId, if_neg (by simpa using hd), if_neg hm, if_neg hu]
    rw [lookupChain_eq_find, hfind]
    exact ⟨rfl, saveValue_locals _ _⟩
  · intro p q fn id hd hm hu hfind
    rw [translateId, if_neg (by simpa using hd), if_neg hm, if_neg hu]
    rw [lookupChain_eq_find, hfind]
    refine ⟨rfl, ?_, ?_⟩
    · rw [saveValue_locals]
      simp
    · intro k hk
      rw [saveValue_locals]
      simp [hk]
  · intro q x e hx
    rw [detectLocal]
    rw [if_neg hx]
    simp
  · intro p q fn id hd
    rw [translateId, if_pos hd]

/-- Program with `__main__` (declares nothing) and a child `f`. -/
def pShadow : Prog :=
  ⟨[⟨"__main__", none, [], []⟩, ⟨"f", some 0, [], []⟩]⟩

/-- A state executing inside `f` where only `__main__` declares `x`. -/
def qShadow : QState :=
  { baseState with
      currentFunc := 1
      locals := fun k => if k = 0 then ["x"] else [] }

/-- C7 counterexample: evaluating the assignment `x = 5` inside proc
`f` while only the ancestor `__main__` declares `x` does not write the
ancestor's cell — `executeExpression` first declares `x` as a local of
`f`, so the write lands in `window.f_x` and `window.__main___x` keeps
its old value. -/
theorem executeExpression_shadow_counterexample :
    qShadow.locals 1 = [] ∧
    "x" ∈ qShadow.locals 0 ∧
    (executeExpression pShadow qShadow (.assign "x" (.lit 5)) none).1.store
      "window.f_x" = 5 ∧
    (executeExpression pShadow qShadow (.assign "x" (.lit 5)) none).1.store
      "window.__main___x" = 0 ∧
    (executeExpression pShadow qShadow (.assign "x" (.lit 5)) none).1.locals 1 =
      ["x"] ∧
    ((5 : ℤ) ≠ 0) := by
  refine ⟨by decide, by decide, by decide, by decide, by decide, by decide⟩

/-- Witness for the amended C7 theorem: a read of `x` inside `f`
resolves to the ancestor cell `window.__main___x`; a read of a fresh
`y` creates a local of `f`; `_g` resolves globally from both functions;
`a.b` passes through. -/
theorem translateId_scope_witness :
    (translateId pShadow qShadow 1 "x").2 = .cell "window.__main___x" ∧
    (translateId pShadow qShadow 1 "y").2 = .cell "window.f_y" ∧
    (translateId pShadow qShadow 1 "y").1.locals 1 = ["y"] ∧
    (translateId pShadow qShadow 1 "_g").2 = .cell "window.__g" ∧
    (translateId pShadow qShadow 0 "_g").2 = (translateId pShadow qShadow 1 "_g").2 ∧
    translateId pShadow qShadow 1 "a.b" = (qShadow, .cell "a.b") := by
  have h1 := translateId_scope.2.1 pShadow qShadow 1 "x" 0
    (by decide) (by decide) (by decide) (by decide)
  have h2 := translateId_scope.2.2.1 pShadow qShadow 1 "y"
    (by decide) (by decide) (by decide) (by decide)
  have h3 := translateId_scope.1 pShadow qShadow 1 0 "_g" (by decide) (by decide)
  have h4 := translateId_scope.2.2.2.2 pShadow qShadow 1 "a.b" (by decide)
  refine ⟨?_, ?_, ?_, h3.1, ?_, h4⟩
  · have : cellNameOf pShadow 0 "x" = "window.__main___x" := by decide
    rw [← this]
    exact h1.1
  · have : cellNameOf pShadow 1 "y" = "window.f_y" := by decide
    rw [← this]
    exact h2.1
  · rw [h2.2.1]
    decide
  · have h5 := translateId_scope.1 pShadow qShadow 0 1 "_g" (by decide) (by decide)
    rw [h5.1, h3.1]


/-! ## C1: undo completeness of `stepBack` for classical control steps -/

/-- The save-list discipline maintained while one opcode executes:
`savedVars`/`savedValues` run in lockstep, every recorded pair holds the
pre-step value of its cell (`measured_value` reads the field), every
unrecorded cell still has its pre-step value, and neither the
`measuredValue` field nor the literal `measured_value` store cell has
been written. -/
def SavedInv (q0 q : QState) : Prop :=
  q.savedVars.length = q.savedValues.length ∧
  (∀ pr ∈ q.savedVars.zip q.savedValues,
    pr.2 = if pr.1 = MEASURED_VALUE then q0.measuredValue else q0.store pr.1) ∧
  (∀ c, c ∉ q.savedVars → q.store c = q0.store c) ∧
  q.measuredValue = q0.measuredValue ∧
  q.store MEASURED_VALUE = q0.store MEASURED_VALUE

/-- Expressions whose identifiers are all dot-free (dotted names pass
through `translateId` untranslated and unsaved). -/
def noDots : Expr → Bool
  | .lit _ => true
  | .ident x => !(strHasDot x)
  | .neg e => noDots e
  | .add a b => noDots a && noDots b
  | .sub a b => noDots a && noDots b
  | .mul a b => noDots a && noDots b
  | .assign x e => !(strHasDot x) && noDots e

/-- The cells a translated expression writes when evaluated. -/
def tTargets : TExpr → List String
  | .tlit _ => []
  | .tcell _ => []
  | .tneg e => tTargets e
  | .tadd a b => tTargets a ++ tTargets b
  | .tsub a b => tTargets a ++ tTargets b
  | .tmul a b => tTargets a ++ tTargets b
  | .tassign c e => c :: tTargets e

theorem saveValue_mono (q : QState) (id : String) :
    ∀ c ∈ q.savedVars, c ∈ (saveValue q id).savedVars := by
  intro c h
  rw [saveValue]
  split
  · exact h
  · split <;> exact List.mem_append_left _ h

theorem saveValue_self_mem (q : QState) (id : String) :
    id ∈ (saveValue q id).savedVars := by
  rw [saveValue]
  split
  case isTrue h => exact h
  case isFalse h =>
    split <;> exact List.mem_append_right _ (by simp)

theorem saveValue_savedInv (q0 q : QState) (id : String) (hs : SavedInv q0 q) :
    SavedInv q0 (saveValue q id) := by
  obtain ⟨h1, h2, h3, h4, h5⟩ := hs
  rw [saveValue]
  split
  · exact ⟨h1, h2, h3, h4, h5⟩
  case isFalse hmem =>
    split
    case isTrue hid =>
      refine ⟨by simp [h1], ?_, ?_, h4, h5⟩
      · intro pr hpr
        rw [List.zip_append h1] at hpr
        rcases List.mem_append.mp hpr with h | h
        · exact h2 pr h
        · simp only [List.zip_cons_cons, List.zip_nil_right,
            List.mem_singleton] at h
          rw [h]
          simp [hid, h4]
      · intro c hc
        exact h3 c (fun hm => hc (List.mem_append_left _ hm))
    case isFalse hid =>
      refine ⟨by simp [h1], ?_, ?_, h4, h5⟩
      · intro pr hpr
        rw [List.zip_append h1] at hpr
        rcases List.mem_append.mp hpr with h | h
        · exact h2 pr h
        · simp only [List.zip_cons_cons, List.zip_nil_right,
            List.mem_singleton] at h
          rw [h]
          simp only [hid, if_false, if_neg hid]
          exact h3 id hmem
      · intro c hc
        exact h3 c (fun hm => hc (List.mem_append_left _ hm))

/-- A global cell name never collides with the `measured_value`
pseudo-cell (it starts with `window.`). -/
theorem underscore_cell_ne (idS : String) :
    varsPfx ++ "_" ++ idS ≠ MEASURED_VALUE := by
  obtain ⟨l⟩ := idS
  intro h
  have h2 : ('w' :: 'i' :: 'n' :: 'd' :: 'o' :: 'w' :: '.' :: '_' :: l) =
      ('m' :: 'e' :: 'a' :: 's' :: 'u' :: 'r' :: 'e' :: 'd' :: '_' :: 'v' ::
        'a' :: 'l' :: 'u' :: 'e' :: []) :=
    congrArg String.data h
  injection h2 with h3 _
  exact absurd h3 (by decide)

/-- A scoped cell name never collides with the `measured_value`
pseudo-cell (it starts with `window.`). -/
theorem cellNameOf_ne (p : Prog) (j : Nat) (idS : String) :
    cellNameOf p j idS ≠ MEASURED_VALUE := by
  rw [cellNameOf]
  generalize (p.funcs.getD j defaultFunc).fname = f
  obtain ⟨lf⟩ := f
  obtain ⟨l⟩ := idS
  intro h
  have h2 : ('w' :: 'i' :: 'n' :: 'd' :: 'o' :: 'w' :: '.' :: ((lf ++ ['_']) ++ l)) =
      ('m' :: 'e' :: 'a' :: 's' :: 'u' :: 'r' :: 'e' :: 'd' :: '_' :: 'v' ::
        'a' :: 'l' :: 'u' :: 'e' :: []) :=
    congrArg String.data h
  injection h2 with h3 _
  exact absurd h3 (by decide)

theorem zip_fst_mem {α β : Type} :
    ∀ (xs : List α) (ys : List β), xs.length = ys.length →
      ∀ a ∈ xs, ∃ b, (a, b) ∈ xs.zip ys := by
  intro xs
  induction xs with
  | nil => intro ys _ a ha; exact absurd ha (List.not_mem_nil a)
  | cons x xs ih =>
    intro ys hlen a ha
    cases ys with
    | nil => simp at hlen
    | cons y ys =>
      rcases List.mem_cons.mp ha with h | h
      · exact ⟨y, by rw [h]; exact List.mem_cons_self _ _⟩
      · obtain ⟨b, hb⟩ := ih ys (by simpa using hlen) a h
        exact ⟨b, List.mem_cons_of_mem _ hb⟩

theorem noDots_getD :
    ∀ (l : List Expr), (∀ e ∈ l, noDots e = true) →
      ∀ i, noDots (l.getD i (.lit 0)) = true := by
  intro l
  induction l with
  | nil => intro _ i; rfl
  | cons e rest ih =>
    intro h i
    cases i with
    | zero => exact h e (List.mem_cons_self _ _)
    | succ n =>
      rw [List.getD_cons_succ]
      exact ih (fun x hx => h x (List.mem_cons_of_mem _ hx)) n

/-- `translateId` preserves the save discipline, only grows the save
list, and saves every dot-free cell it resolves (which is never the
`measured_value` pseudo-cell). -/
theorem translateId_saved (p : Prog) (q0 q : QState) (fn : Nat) (id : String)
    (hs : SavedInv q0 q) :
    SavedInv q0 (translateId p q fn id).1 ∧
    (∀ c ∈ q.savedVars, c ∈ (translateId p q fn id).1.savedVars) ∧
    (strHasDot id = false →
      ∀ c, (translateId p q fn id).2 = .cell c →
        c ∈ (translateId p q fn id).1.savedVars ∧ c ≠ MEASURED_VALUE) := by
  rw [translateId]
  split
  case isTrue hd =>
    exact ⟨hs, fun c h => h, fun hd2 => absurd hd (by simp [hd2])⟩
  case isFalse =>
    split
    case isTrue hmv =>
      refine ⟨saveValue_savedInv q0 q _ hs, fun c h => saveValue_mono q _ c h, ?_⟩
      intro _ c hcell
      exact absurd hcell (by simp)
    case isFalse =>
      split
      case isTrue hu =>
        refine ⟨saveValue_savedInv q0 q _ hs, fun c h => saveValue_mono q _ c h, ?_⟩
        intro _ c hcell
        injection hcell with hc
        rw [← hc]
        exact ⟨saveValue_self_mem q _, underscore_cell_ne id⟩
      case isFalse =>
        split
        · rename_i j hj
          refine ⟨saveValue_savedInv q0 q _ hs, fun c h => saveValue_mono q _ c h, ?_⟩
          intro _ c hcell
          injection hcell with hc
          rw [← hc]
          exact ⟨saveValue_self_mem q _, cellNameOf_ne p j id⟩
        · refine ⟨saveValue_savedInv q0 _ _ hs, fun c h => saveValue_mono _ _ c h, ?_⟩
          intro _ c hcell
          injection hcell with hc
          rw [← hc]
          exact ⟨saveValue_self_mem _ _, cellNameOf_ne p fn id⟩

/-- The translation pass preserves the save discipline, only grows the
save list, and leaves every write target of the produced expression
saved (and distinct from the `measured_value` pseudo-cell). -/
theorem translateExpr_saved (p : Prog) (fn : Nat) (q0 : QState) :
    ∀ (e : Expr) (q : QState), noDots e = true → SavedInv q0 q →
      SavedInv q0 (translateExpr p fn q e).1 ∧
      (∀ c ∈ q.savedVars, c ∈ (translateExpr p fn q e).1.savedVars) ∧
      (∀ te, (translateExpr p fn q e).2 = some te →
        ∀ c ∈ tTargets te,
          c ∈ (translateExpr p fn q e).1.savedVars ∧ c ≠ MEASURED_VALUE) := by
  intro e
  induction e with
  | lit v =>
    intro q _ hs
    refine ⟨hs, fun c h => h, ?_⟩
    intro te hte c hc
    cases hte
    simp [tTargets] at hc
  | ident x =>
    intro q hnd hs
    have ht := translateId_saved p q0 q fn x hs
    rw [translateExpr]
    rcases htr : translateId p q fn x with ⟨q1, res⟩
    rw [htr] at ht
    cases res with
    | cell c =>
      refine ⟨ht.1, ht.2.1, ?_⟩
      intro te hte c2 hc2
      cases hte
      simp [tTargets] at hc2
    | res v =>
      refine ⟨ht.1, ht.2.1, ?_⟩
      intro te hte c2 hc2
      cases hte
      simp [tTargets] at hc2
  | neg e ih =>
    intro q hnd hs
    have he := ih q (by simpa [noDots] using hnd) hs
    rw [translateExpr]
    dsimp only
    refine ⟨he.1, he.2.1, ?_⟩
    intro te hte c hc
    rcases hre : (translateExpr p fn q e).2 with _ | te2
    · rw [hre] at hte; cases hte
    · rw [hre] at hte
      cases hte
      exact he.2.2 te2 hre c (by simpa [tTargets] using hc)
  | add a b iha ihb =>
    intro q hnd hs
    have hab : noDots a = true ∧ noDots b = true := by
      simpa [noDots, Bool.and_eq_true] using hnd
    have ha := iha q hab.1 hs
    have hb := ihb (translateExpr p fn q a).1 hab.2 ha.1
    rw [translateExpr]
    dsimp only
    refine ⟨hb.1, fun c h => hb.2.1 c (ha.2.1 c h), ?_⟩
    intro te hte c hc
    rcases hra : (translateExpr p fn q a).2 with _ | ta
    · rw [hra] at hte; cases hte
    · rcases hrb : (translateExpr p fn (translateExpr p fn q a).1 b).2 with _ | tb
      · rw [hra, hrb] at hte; cases hte
      · rw [hra, hrb] at hte
        cases hte
        rcases List.mem_append.mp (by simpa [tTargets] using hc) with h | h
        · obtain ⟨hm, hne⟩ := ha.2.2 ta hra c h
          exact ⟨hb.2.1 c hm, hne⟩
        · exact hb.2.2 tb hrb c h
  | sub a b iha ihb =>
    intro q hnd hs
    have hab : noDots a = true ∧ noDots b = true := by
      simpa [noDots, Bool.and_eq_true] using hnd
    have ha := iha q hab.1 hs
    have hb := ihb (translateExpr p fn q a).1 hab.2 ha.1
    rw [translateExpr]
    dsimp only
    refine ⟨hb.1, fun c h => hb.2.1 c (ha.2.1 c h), ?_⟩
    intro te hte c hc
    rcases hra : (translateExpr p fn q a).2 with _ | ta
    · rw [hra] at hte; cases hte
    · rcases hrb : (translateExpr p fn (translateExpr p fn q a).1 b).2 with _ | tb
      · rw [hra, hrb] at hte; cases hte
      · rw [hra, hrb] at hte
        cases hte
        rcases List.mem_append.mp (by simpa [tTargets] using hc) with h | h
        · obtain ⟨hm, hne⟩ := ha.2.2 ta hra c h
          exact ⟨hb.2.1 c hm, hne⟩
        · exact hb.2.2 tb hrb c h
  | mul a b iha ihb =>
    intro q hnd hs
    have hab : noDots a = true ∧ noDots b = true := by
      simpa [noDots, Bool.and_eq_true] using hnd
    have ha := iha q hab.1 hs
    have hb := ihb (translateExpr p fn q a).1 hab.2 ha.1
    rw [translateExpr]
    dsimp only
    refine ⟨hb.1, fun c h => hb.2.1 c (ha.2.1 c h), ?_⟩
    intro te hte c hc
    rcases hra : (translateExpr p fn q a).2 with _ | ta
    · rw [hra] at hte; cases hte
    · rcases hrb : (translateExpr p fn (translateExpr p fn q a).1 b).2 with _ | tb
      · rw [hra, hrb] at hte; cases hte
      · rw [hra, hrb] at hte
        cases hte
        rcases List.mem_append.mp (by simpa [tTargets] using hc) with h | h
        · obtain ⟨hm, hne⟩ := ha.2.2 ta hra c h
          exact ⟨hb.2.1 c hm, hne⟩
        · exact hb.2.2 tb hrb c h
  | assign x e ih =>
    intro q hnd hs
    have hxe : strHasDot x = false ∧ noDots e = true := by
      simpa [noDots, Bool.and_eq_true, Bool.not_eq_true'] using hnd
    have ht := translateId_saved p q0 q fn x hs
    rw [translateExpr]
    rcases htr : translateId p q fn x with ⟨q1, res⟩
    rw [htr] at ht
    cases res with
    | cell c =>
      obtain ⟨hcm, hcne⟩ := ht.2.2 hxe.1 c rfl
      have ihe := ih q1 hxe.2 ht.1
      dsimp only
      refine ⟨ihe.1, fun c2 h => ihe.2.1 c2 (ht.2.1 c2 h), ?_⟩
      intro te hte c2 hc2
      rcases hre : (translateExpr p fn q1 e).2 with _ | te2
      · rw [hre] at hte; cases hte
      · rw [hre] at hte
        cases hte
        rcases List.mem_cons.mp (by simpa [tTargets] using hc2) with h | h
        · rw [h]
          exact ⟨ihe.2.1 c hcm, hcne⟩
        · exact ihe.2.2 te2 hre c2 h
    | res v =>
      have ihe := ih q1 hxe.2 ht.1
      dsimp only
      refine ⟨ihe.1, fun c2 h => ihe.2.1 c2 (ht.2.1 c2 h), ?_⟩
      intro te hte
      cases hte

/-- Host evaluation keeps the save lists, and keeps the save discipline
as long as every cell it writes was recorded beforehand. -/
theorem teval_saved (q0 : QState) : ∀ (te : TExpr) (q : QState),
    (teval q te).1.savedVars = q.savedVars ∧
    (teval q te).1.savedValues = q.savedValues ∧
    ((∀ c ∈ tTargets te, c ∈ q.savedVars ∧ c ≠ MEASURED_VALUE) →
      SavedInv q0 q → SavedInv q0 (teval q te).1) := by
  intro te
  induction te with
  | tlit v => intro q; exact ⟨rfl, rfl, fun _ h => h⟩
  | tcell c => intro q; exact ⟨rfl, rfl, fun _ h => h⟩
  | tneg e ih => intro q; rw [teval]; exact ih q
  | tadd a b iha ihb =>
    intro q
    rw [teval]
    obtain ⟨ha1, ha2, ha3⟩ := iha q
    obtain ⟨hb1, hb2, hb3⟩ := ihb (teval q a).1
    refine ⟨hb1.trans ha1, hb2.trans ha2, ?_⟩
    intro h hs
    refine hb3 ?_ (ha3 ?_ hs)
    · intro c hc
      rw [ha1]
      exact h c (by simp [tTargets, hc])
    · intro c hc
      exact h c (by simp [tTargets, hc])
  | tsub a b iha ihb =>
    intro q
    rw [teval]
    obtain ⟨ha1, ha2, ha3⟩ := iha q
    obtain ⟨hb1, hb2, hb3⟩ := ihb (teval q a).1
    refine ⟨hb1.trans ha1, hb2.trans ha2, ?_⟩
    intro h hs
    refine hb3 ?_ (ha3 ?_ hs)
    · intro c hc
      rw [ha1]
      exact h c (by simp [tTargets, hc])
    · intro c hc
      exact h c (by simp [tTargets, hc])
  | tmul a b iha ihb =>
    intro q
    rw [teval]
    obtain ⟨ha1, ha2, ha3⟩ := iha q
    obtain ⟨hb1, hb2, hb3⟩ := ihb (teval q a).1
    refine ⟨hb1.trans ha1, hb2.trans ha2, ?_⟩
    intro h hs
    refine hb3 ?_ (ha3 ?_ hs)
    · intro c hc
      rw [ha1]
      exact h c (by simp [tTargets, hc])
    · intro c hc
      exact h c (by simp [tTargets, hc])
  | tassign c e ih =>
    intro q
    rw [teval]
    obtain ⟨he1, he2, he3⟩ := ih q
    refine ⟨he1, he2, ?_⟩
    intro h hs
    have hcm : c ∈ q.savedVars ∧ c ≠ MEASURED_VALUE :=
      h c (by simp [tTargets])
    have hse : SavedInv q0 (teval q e).1 :=
      he3 (fun c2 hc2 => h c2 (by simp [tTargets, hc2])) hs
    obtain ⟨h1, h2, h3, h4, h5⟩ := hse
    refine ⟨h1, h2, ?_, h4, ?_⟩
    · intro c2 hc2
      have hne : c2 ≠ c := by
        intro hcc
        rw [he1] at hc2
        exact hc2 (hcc ▸ hcm.1)
      show (if c2 = c then (teval q e).2 else (teval q e).1.store c2) = q0.store c2
      rw [if_neg hne]
      exact h3 c2 hc2
    · show (if MEASURED_VALUE = c then (teval q e).2
        else (teval q e).1.store MEASURED_VALUE) = q0.store MEASURED_VALUE
      rw [if_neg (fun hcc => hcm.2 hcc.symm)]
      exact h5

/-- The new-local detection touches only `locals`. -/
theorem detectLocal_savedInv (q0 q : QState) (e : Expr) (hs : SavedInv q0 q) :
    SavedInv q0 (detectLocal q e) := by
  cases e with
  | assign x e2 =>
    rw [detectLocal]
    split
    · exact hs
    · exact hs
  | lit v => exact hs
  | ident x => exact hs
  | neg e2 => exact hs
  | add a b => exact hs
  | sub a b => exact hs
  | mul a b => exact hs

/-- One expression step of a control opcode preserves the save
discipline: every cell it writes is recorded with its pre-step value
first. -/
theorem executeExpression_saved (p : Prog) (q0 q : QState) (e : Expr)
    (hnd : noDots e = true) (hs : SavedInv q0 q) :
    SavedInv q0 (executeExpression p q e none).1 := by
  have hd : SavedInv q0 (detectLocal q e) := detectLocal_savedInv q0 q e hs
  have ht := translateExpr_saved p (detectLocal q e).currentFunc q0 e
    (detectLocal q e) hnd hd
  rw [executeExpression]
  dsimp only
  rcases htr : translateExpr p (detectLocal q e).currentFunc (detectLocal q e) e
    with ⟨q1, ote⟩
  rw [htr] at ht
  cases ote with
  | none => exact ht.1
  | some te =>
    exact (teval_saved q0 te q1).2.2 (fun c hc => ht.2.2 te rfl c hc) ht.1

/-- Components a classical control opcode leaves untouched. -/
def cfr (q q' : QState) : Prop :=
  q'.history = q.history ∧ q'.callStack = q.callStack ∧ q'.sim = q.sim ∧
  q'.vectorSize = q.vectorSize ∧ q'.rng = q.rng

theorem cfr_refl (q : QState) : cfr q q := ⟨rfl, rfl, rfl, rfl, rfl⟩

theorem cfr_trans {a b c : QState} (h1 : cfr a b) (h2 : cfr b c) : cfr a c :=
  ⟨h2.1.trans h1.1, h2.2.1.trans h1.2.1, h2.2.2.1.trans h1.2.2.1,
   h2.2.2.2.1.trans h1.2.2.2.1, h2.2.2.2.2.trans h1.2.2.2.2⟩

theorem evalFrame_cfr {a b : QState} (h : evalFrame a b) : cfr a b :=
  ⟨h.1.2.1, h.1.1, h.2.1, h.2.2.2.1, h.2.2.2.2.1⟩

/-- Executing a control opcode preserves the save discipline (relative
to the state the step started from) and touches neither the history,
the call stack, nor the simulator. -/
theorem execOp_ctrl_saved (p : Prog) (q0 q : QState) (op : Op) (k : CtrlCode)
    (hc : op.command = .ctrl k) (hnd : ∀ e ∈ op.args, noDots e = true)
    (hs : SavedInv q0 q) :
    SavedInv q0 (execOp p q op) ∧ cfr q (execOp p q op) := by
  have hg : ∀ i, noDots (op.args.getD i (.lit 0)) = true := noDots_getD op.args hnd
  rw [execOp, hc]
  cases k with
  | forInit =>
    dsimp only
    have h0 := executeExpression_saved p q0 q (op.args.getD 0 (.lit 0)) (hg 0) hs
    have f0 := evalFrame_cfr
      (executeExpression_evalFrame p q (op.args.getD 0 (.lit 0)) none)
    have h1 := executeExpression_saved p q0 _ (op.args.getD 1 (.lit 0)) (hg 1) h0
    have f1 := cfr_trans f0 (evalFrame_cfr
      (executeExpression_evalFrame p _ (op.args.getD 1 (.lit 0)) none))
    split
    · split
      · exact ⟨h1, f1⟩
      · have h2 := executeExpression_saved p q0 _ (op.args.getD 2 (.lit 0)) (hg 2) h1
        have f2 := cfr_trans f1 (evalFrame_cfr
          (executeExpression_evalFrame p _ (op.args.getD 2 (.lit 0)) none))
        exact ⟨h2, f2⟩
    · split
      · exact ⟨h1, f1⟩
      · exact ⟨h1, f1⟩
  | forLoop =>
    dsimp only
    have h0 := executeExpression_saved p q0 q (op.args.getD 1 (.lit 0)) (hg 1) hs
    have f0 := evalFrame_cfr
      (executeExpression_evalFrame p q (op.args.getD 1 (.lit 0)) none)
    have h1 := executeExpression_saved p q0 _ (op.args.getD 0 (.lit 0)) (hg 0) h0
    have f1 := cfr_trans f0 (evalFrame_cfr
      (executeExpression_evalFrame p _ (op.args.getD 0 (.lit 0)) none))
    split
    · split
      · exact ⟨h1, f1⟩
      · have h2 := executeExpression_saved p q0 _ (op.args.getD 2 (.lit 0)) (hg 2) h1
        have f2 := cfr_trans f1 (evalFrame_cfr
          (executeExpression_evalFrame p _ (op.args.getD 2 (.lit 0)) none))
        exact ⟨h2, f2⟩
    · split
      · exact ⟨h1, f1⟩
      · exact ⟨h1, f1⟩
  | forEnd => exact ⟨hs, cfr_refl q⟩
  | exprCode =>
    dsimp only
    have h0 := executeExpression_saved p q0 q (op.args.getD 0 (.lit 0)) (hg 0) hs
    have f0 := evalFrame_cfr
      (executeExpression_evalFrame p q (op.args.getD 0 (.lit 0)) none)
    exact ⟨h0, f0⟩
  | ifCode =>
    dsimp only
    have h0 := executeExpression_saved p q0 q (op.args.getD 0 (.lit 0)) (hg 0) hs
    have f0 := evalFrame_cfr
      (executeExpression_evalFrame p q (op.args.getD 0 (.lit 0)) none)
    split
    · split
      · have h0b : SavedInv q0
            { (executeExpression p q (op.args.getD 0 (.lit 0)) none).1 with
              currentStep :=
                (executeExpression p q (op.args.getD 0 (.lit 0)) none).1.currentStep
                  + 1 } := h0
        have f0b : cfr q
            { (executeExpression p q (op.args.getD 0 (.lit 0)) none).1 with
              currentStep :=
                (executeExpression p q (op.args.getD 0 (.lit 0)) none).1.currentStep
                  + 1 } := f0
        have h1 := executeExpression_saved p q0 _ (op.args.getD 1 (.lit 0))
          (hg 1) h0b
        have f1 := cfr_trans f0b (evalFrame_cfr
          (executeExpression_evalFrame p _ (op.args.getD 1 (.lit 0)) none))
        exact ⟨h1, f1⟩
      · exact ⟨h0, f0⟩
    · exact ⟨h0, f0⟩
  | elseCode => exact ⟨hs, cfr_refl q⟩
  | endifCode => exact ⟨hs, cfr_refl q⟩
  | returnCode => exact ⟨hs, cfr_refl q⟩
  | breakCode => exact ⟨hs, cfr_refl q⟩

/-- The end-of-function pop touches only the call stack and the
position. -/
theorem framePopIfEnded_fields (p : Prog) (x : QState) :
    (framePopIfEnded p x).store = x.store ∧
    (framePopIfEnded p x).measuredValue = x.measuredValue ∧
    (framePopIfEnded p x).history = x.history ∧
    (framePopIfEnded p x).savedVars = x.savedVars ∧
    (framePopIfEnded p x).savedValues = x.savedValues ∧
    (framePopIfEnded p x).sim = x.sim ∧
    (framePopIfEnded p x).vectorSize = x.vectorSize ∧
    (framePopIfEnded p x).rng = x.rng := by
  rw [framePopIfEnded]
  split
  · split
    · exact ⟨rfl, rfl, rfl, rfl, rfl, rfl, rfl, rfl⟩
    · exact ⟨rfl, rfl, rfl, rfl, rfl, rfl, rfl, rfl⟩
  · exact ⟨rfl, rfl, rfl, rfl, rfl, rfl, rfl, rfl⟩

/-- Replaying a record whose pairs all carry pre-step values rebuilds
the pre-step store and `measuredValue` exactly. -/
theorem restoreValuesGo_restores (q0 : QState) :
    ∀ (L : List (String × ℤ)) (q : QState),
      (∀ pr ∈ L, pr.2 = if pr.1 = MEASURED_VALUE then q0.measuredValue
        else q0.store pr.1) →
      (∀ c, (∀ pr ∈ L, pr.1 ≠ c) → q.store c = q0.store c) →
      q.store MEASURED_VALUE = q0.store MEASURED_VALUE →
      ((∀ pr ∈ L, pr.1 ≠ MEASURED_VALUE) → q.measuredValue = q0.measuredValue) →
      (restoreValuesGo q L).store = q0.store ∧
      (restoreValuesGo q L).measuredValue = q0.measuredValue := by
  intro L
  induction L with
  | nil =>
    intro q h1 h2 h3 h4
    constructor
    · funext c
      exact h2 c (by simp)
    · exact h4 (by simp)
  | cons pr0 rest ih =>
    intro q h1 h2 h3 h4
    rcases pr0 with ⟨sym, v⟩
    have hv : v = if sym = MEASURED_VALUE then q0.measuredValue
        else q0.store sym :=
      h1 (sym, v) (List.mem_cons_self _ _)
    rw [restoreValuesGo]
    split
    case isTrue hsym =>
      apply ih
      · intro pr hpr
        exact h1 pr (List.mem_cons_of_mem _ hpr)
      · intro c hc
        by_cases hcm : c = MEASURED_VALUE
        · rw [hcm]
          exact h3
        · refine h2 c ?_
          intro pr hpr
          rcases List.mem_cons.mp hpr with h | h
          · rw [h, hsym]
            exact fun hx => hcm hx.symm
          · exact hc pr h
      · exact h3
      · intro _
        show v = q0.measuredValue
        rw [hv, if_pos hsym]
    case isFalse hsym =>
      apply ih
      · intro pr hpr
        exact h1 pr (List.mem_cons_of_mem _ hpr)
      · intro c hc
        by_cases hcs : c = sym
        · show (if c = sym then v else q.store c) = q0.store c
          rw [if_pos hcs, hcs, hv, if_neg hsym]
        · show (if c = sym then v else q.store c) = q0.store c
          rw [if_neg hcs]
          refine h2 c ?_
          intro pr hpr
          rcases List.mem_cons.mp hpr with h | h
          · rw [h]
            exact fun hx => hcs hx.symm
          · exact hc pr h
      · show (if MEASURED_VALUE = sym then v
          else q.store MEASURED_VALUE) = q0.store MEASURED_VALUE
        rw [if_neg (fun hx => hsym hx.symm)]
        exact h3
      · intro hrest
        exact h4 (fun pr hpr => by
          rcases List.mem_cons.mp hpr with h | h
          · rw [h]
            exact hsym
          · exact hrest pr h)

/-- `stepBack` over a control-opcode record restores the saved cells
and the position and does nothing else. -/
theorem stepBackCore_ctrl (p : Prog) (q : QState) (rec : StepData)
    (rest : List StepData) (k : CtrlCode)
    (hop : (opAt p rec.func rec.step).command = .ctrl k) :
    stepBackCore p q rec rest = restoredState q rec rest := by
  rw [stepBackCore, hop]
  rfl

/-- Undoing one completed control step: if the post-step state carries
a record whose pairs hold the pre-step values (with the pre-step store
intact outside the record), `stepBack` rebuilds the pre-step `store`,
`measuredValue`, position and history, and leaves the simulator parts
equal to the pre-step ones. -/
theorem stepBack_restores_of_savedInv (p : Prog) (q q2 q3 : QState)
    (k : CtrlCode) (f s : Nat)
    (hsi : SavedInv q q2)
    (hst : q3.store = q2.store) (hmv : q3.measuredValue = q2.measuredValue)
    (hsim : q3.sim = q2.sim) (hvs : q3.vectorSize = q2.vectorSize)
    (hrng : q3.rng = q2.rng)
    (hh : q3.history = (⟨q2.savedVars, q2.savedValues, f, s⟩ : StepData) :: q.history)
    (hsim2 : q2.sim = q.sim) (hvs2 : q2.vectorSize = q.vectorSize)
    (hrng2 : q2.rng = q.rng)
    (hc : (opAt p f s).command = .ctrl k) :
    (stepBack p q3).store = q.store ∧
    (stepBack p q3).measuredValue = q.measuredValue ∧
    (stepBack p q3).currentFunc = f ∧
    (stepBack p q3).currentStep = s ∧
    (stepBack p q3).history = q.history ∧
    (stepBack p q3).sim = q.sim ∧
    (stepBack p q3).vectorSize = q.vectorSize ∧
    (stepBack p q3).rng = q.rng := by
  have hsb : stepBack p q3 =
      stepBackCore p q3 ⟨q2.savedVars, q2.savedValues, f, s⟩ q.history := by
    rw [stepBack, hh]
  have hcore :=
    stepBackCore_ctrl p q3 ⟨q2.savedVars, q2.savedValues, f, s⟩ q.history k hc
  rw [hsb, hcore]
  have hres := restoreValuesGo_restores q (q2.savedVars.zip q2.savedValues)
    { q3 with history := q.history, errors := [] }
    hsi.2.1
    (fun c hc2 => by
      have hcn : c ∉ q2.savedVars := by
        intro hmem
        obtain ⟨b, hb⟩ := zip_fst_mem _ _ hsi.1 c hmem
        exact hc2 _ hb rfl
      exact (congrFun hst c).trans (hsi.2.2.1 c hcn))
    ((congrFun hst MEASURED_VALUE).trans hsi.2.2.2.2)
    (fun _ => hmv.trans hsi.2.2.2.1)
  have hfr := restoreValuesGo_frame (q2.savedVars.zip q2.savedValues)
    { q3 with history := q.history, errors := [] }
  exact ⟨hres.1, hres.2, rfl, rfl, hfr.2.2.1,
    hfr.1.trans (hsim.trans hsim2),
    hfr.2.2.2.2.2.2.2.2.2.1.trans (hvs.trans hvs2),
    hfr.2.2.2.2.2.2.2.2.2.2.1.trans (hrng.trans hrng2)⟩

/-- C1, amended: for a forward step executing a control opcode (an
expression, `for`, `if`/`else`/`endif`, `return` or `break` step) whose
argument expressions contain no dotted identifiers, `stepBack` after
`runStep` restores the whole classical state exactly — every scoped
variable cell, the `measured_value` pseudo-cell, `currentFunc`,
`currentStep` and the history — and the simulator state, vector size
and random stream come back equal to their pre-step values (they were
never touched).  The original claim fails for `Measure` steps (see the
counterexample) and says nothing of dotted cells, which bypass
`saveValue_`. -/
theorem runStep_stepBack_ctrl (p : Prog) (q : QState) (k : CtrlCode)
    (hlt : q.currentStep < (p.funcs.getD q.currentFunc defaultFunc).code.length)
    (hc : (opAt p q.currentFunc q.currentStep).command = .ctrl k)
    (hnd : ∀ e ∈ (opAt p q.currentFunc q.currentStep).args, noDots e = true) :
    (stepBack p (runStep p q)).store = q.store ∧
    (stepBack p (runStep p q)).measuredValue = q.measuredValue ∧
    (stepBack p (runStep p q)).currentFunc = q.currentFunc ∧
    (stepBack p (runStep p q)).currentStep = q.currentStep ∧
    (stepBack p (runStep p q)).history = q.history ∧
    (stepBack p (runStep p q)).sim = q.sim ∧
    (stepBack p (runStep p q)).vectorSize = q.vectorSize ∧
    (stepBack p (runStep p q)).rng = q.rng := by
  have hsR : SavedInv q
      { q with errors := [], savedVars := [], savedValues := [] } :=
    ⟨rfl, fun pr hpr => absurd hpr (by simp), fun c _ => rfl, rfl, rfl⟩
  have hexec := execOp_ctrl_saved p q
    { q with errors := [], savedVars := [], savedValues := [] }
    (opAt p q.currentFunc q.currentStep) k hc hnd hsR
  have hrun := runStep_eq p q hlt
  have hfp := framePopIfEnded_fields p
    (pushHistory q.currentFunc q.currentStep
      (execOp p { q with errors := [], savedVars := [], savedValues := [] }
        (opAt p q.currentFunc q.currentStep)))
  refine stepBack_restores_of_savedInv p q
    (execOp p { q with errors := [], savedVars := [], savedValues := [] }
      (opAt p q.currentFunc q.currentStep))
    (runStep p q) k q.currentFunc q.currentStep hexec.1
    ?_ ?_ ?_ ?_ ?_ ?_ hexec.2.2.2.1 hexec.2.2.2.2.1 hexec.2.2.2.2.2 hc
  · rw [hrun]
    exact hfp.1
  · rw [hrun]
    exact hfp.2.1
  · rw [hrun]
    exact hfp.2.2.2.2.2.1
  · rw [hrun]
    exact hfp.2.2.2.2.2.2.1
  · rw [hrun]
    exact hfp.2.2.2.2.2.2.2
  · rw [hrun]
    rw [hfp.2.2.1]
    show (⟨_, _, q.currentFunc, q.currentStep⟩ : StepData) ::
      (execOp p { q with errors := [], savedVars := [], savedValues := [] }
        (opAt p q.currentFunc q.currentStep)).history = _
    rw [hexec.2.1]

/-- One-function program whose single opcode is the expression step
`x = x + 3`. -/
def pCtrl : Prog :=
  ⟨[⟨"__main__", none, [],
    [⟨.ctrl .exprCode, [.assign "x" (.add (.ident "x") (.lit 3))], 1, -1⟩,
     ⟨.ctrl .exprCode, [.lit 0], 2, -1⟩]⟩]⟩

/-- Witness for the amended C1 theorem: undoing the assignment step
`x = x + 3` from the base state restores every classical component. -/
theorem runStep_stepBack_ctrl_witness :
    (0 < (pCtrl.funcs.getD 0 defaultFunc).code.length ∧
     (opAt pCtrl 0 0).command = .ctrl .exprCode ∧
     (∀ e ∈ (opAt pCtrl 0 0).args, noDots e = true)) ∧
    ((stepBack pCtrl (runStep pCtrl baseState)).store = baseState.store ∧
     (stepBack pCtrl (runStep pCtrl baseState)).measuredValue =
       baseState.measuredValue ∧
     (stepBack pCtrl (runStep pCtrl baseState)).currentFunc =
       baseState.currentFunc ∧
     (stepBack pCtrl (runStep pCtrl baseState)).currentStep =
       baseState.currentStep ∧
     (stepBack pCtrl (runStep pCtrl baseState)).history = baseState.history ∧
     (stepBack pCtrl (runStep pCtrl baseState)).sim = baseState.sim ∧
     (stepBack pCtrl (runStep pCtrl baseState)).vectorSize =
       baseState.vectorSize ∧
     (stepBack pCtrl (runStep pCtrl baseState)).rng = baseState.rng) :=
  ⟨⟨by decide, by decide, by decide⟩,
    runStep_stepBack_ctrl pCtrl baseState .exprCode (by decide) (by decide)
      (by decide)⟩

/-! ## Compiler front end (`compiler.js`): tokenize, parse, compileFunction -/

/-- `quantum.QScript.ID / EXPRESSION / SEPARATOR` token types. -/
inductive TokType where
  | idT | exprT | sepT
deriving DecidableEq

/-- `quantum.QScript.Token`. -/
structure CToken where
  ttype : TokType
  body : String
deriving DecidableEq

def defTok : CToken := ⟨.exprT, ""⟩

/-- The I character class of the lexer: letters, digits, `_` and `.`. -/
def isWordChar (c : Char) : Bool :=
  decide ((65 ≤ c.toNat ∧ c.toNat ≤ 90) ∨ (97 ≤ c.toNat ∧ c.toNat ≤ 122) ∨
    (48 ≤ c.toNat ∧ c.toNat ≤ 57) ∨ c = '_' ∨ c = '.')

def isDigitC (c : Char) : Bool := decide (48 ≤ c.toNat ∧ c.toNat ≤ 57)

/-- `line.indexOf('//')`: keep only the characters before the first
one-line comment. -/
def cutComment : List Char → List Char
  | [] => []
  | '/' :: '/' :: _ => []
  | c :: rest => c :: cutComment rest

/-- One transition of the five-state lexer DFA of `tokenize` (state,
token accumulator, current token body). -/
def tokStep (acc : List CToken × Nat × String) (c : Char) :
    List CToken × Nat × String :=
  let tokens := acc.1
  let state := acc.2.1
  let body := acc.2.2
  if c.toNat ≤ 32 then
    match state with
    | 0 => (tokens, 0, body)
    | 1 => (tokens ++ [⟨.idT, body⟩], 0, body)
    | 2 => (tokens ++ [⟨.exprT, body⟩], 0, body)
    | 3 => (tokens ++ [⟨.exprT, body⟩], 0, body)
    | _ => (tokens, 4, body.push c)
  else if isWordChar c then
    match state with
    | 0 => (tokens, if isDigitC c then 2 else 1, String.mk [c])
    | 1 => (tokens, 1, body.push c)
    | 2 =>
      if isDigitC c then (tokens, 2, body.push c)
      else (tokens ++ [⟨.exprT, body⟩], 1, String.mk [c])
    | 3 => (tokens ++ [⟨.exprT, body⟩], 1, String.mk [c])
    | _ => (tokens, 4, body.push c)
  else if c = ';' ∨ c = ',' then
    match state with
    | 0 => (tokens ++ [⟨.sepT, String.mk [c]⟩], 0, body)
    | 1 => (tokens ++ [⟨.idT, body⟩, ⟨.sepT, String.mk [c]⟩], 0, body)
    | 2 => (tokens ++ [⟨.exprT, body⟩, ⟨.sepT, String.mk [c]⟩], 0, body)
    | 3 => (tokens ++ [⟨.exprT, body⟩, ⟨.sepT, String.mk [c]⟩], 0, body)
    | _ => (tokens, 4, body.push c)
  else if c = '=' then
    match state with
    | 0 => (tokens, 3, String.mk [c])
    | 1 => (tokens ++ [⟨.idT, body⟩], 3, String.mk [c])
    | 2 => (tokens ++ [⟨.exprT, body⟩], 3, String.mk [c])
    | 3 => (tokens, 2, body.push c)
    | _ => (tokens, 4, body.push c)
  else if c = '"' then
    match state with
    | 0 => (tokens, 4, String.mk [c])
    | 1 => (tokens ++ [⟨.idT, body⟩], 4, String.mk [c])
    | 2 => (tokens ++ [⟨.exprT, body⟩], 4, String.mk [c])
    | 3 => (tokens ++ [⟨.exprT, body⟩], 4, String.mk [c])
    | _ => (tokens ++ [⟨.exprT, body.push c⟩], 0, body.push c)
  else
    match state with
    | 0 => (tokens, 2, String.mk [c])
    | 1 => (tokens ++ [⟨.idT, body⟩], 2, String.mk [c])
    | 2 => (tokens, 2, body.push c)
    | 3 => (tokens ++ [⟨.exprT, body⟩], 2, String.mk [c])
    | _ => (tokens, 4, body.push c)

/-- `tokenize(line)`: run the DFA over the pre-comment characters and
flush the final state. -/
def tokenize (line : String) : List CToken :=
  let r := (cutComment line.data).foldl tokStep ([], 0, "")
  match r.2.1 with
  | 1 => r.1 ++ [⟨.idT, r.2.2⟩]
  | 2 => r.1 ++ [⟨.exprT, r.2.2⟩]
  | 3 => r.1 ++ [⟨.exprT, r.2.2⟩]
  | 4 => r.1 ++ [⟨.exprT, r.2.2⟩]
  | _ => r.1

/-- Net parenthesis count of one token body. -/
def countPar (s : String) : Int :=
  s.data.foldl
    (fun n c => if c = '(' then n + 1 else if c = ')' then n - 1 else n) 0

/-- Loop of `parseExpressions`: split the token list on separators that
occur at parenthesis depth zero. -/
def parseExprGo : List CToken → Int → List CToken → List (List CToken) →
    List (List CToken)
  | [], _, expr, exp => exp ++ [expr]
  | t :: rest, parcnt, expr, exp =>
    if t.ttype = .sepT ∧ parcnt = 0 then
      parseExprGo rest parcnt [] (exp ++ [expr])
    else
      parseExprGo rest (parcnt + countPar t.body) (expr ++ [t]) exp

def parseExpressions (tokens : List CToken) (idx : Nat) : List (List CToken) :=
  parseExprGo (tokens.drop idx) 0 [] []

/-- A compiled opcode command: a `CommandCode`, a builtin `Func`
(referenced by name), or a script function call (by name). -/
inductive CCmd where
  | cc (c : CtrlCode)
  | cbuiltin (name : String)
  | ccall (fname : String)
deriving DecidableEq

/-- `quantum.QScript.Opcode` as emitted by the compiler: arguments are
still lists of tokenized expressions. -/
structure COp where
  command : CCmd
  args : List (List CToken)
  line : Nat
  target : Int
deriving DecidableEq

/-- A compiled `quantum.QScript.Func` (nested functions are collected
into a flat list; scope chains are tracked during compilation). -/
structure CFunc where
  fname : String
  params : List String
  code : List COp
  lastLine : Nat
deriving DecidableEq

def defCOp : COp := ⟨.cc .exprCode, [], 0, -1⟩

/-- `f.code[j].target = v`. -/
def setTarget (ops : List COp) (j : Nat) (v : Int) : List COp :=
  ops.set j { ops.getD j defCOp with target := v }

/-- `l.trim()` (ASCII whitespace). -/
def trimStr (s : String) : String :=
  ⟨((s.data.dropWhile (fun c => c.toNat ≤ 32)).reverse.dropWhile
      (fun c => c.toNat ≤ 32)).reverse⟩

/-- `l.length == 0 || l.substr(0, 2) == '//'`. -/
def skipLine (s : String) : Bool :=
  match s.data with
  | [] => true
  | '/' :: '/' :: _ => true
  | _ => false

/-- `t[1].body[0]` is one of the JS operator start characters. -/
def opChar (s : String) : Bool :=
  match s.data with
  | c :: _ => decide (c = '=' ∨ c = '+' ∨ c = '-' ∨ c = '*' ∨ c = '/' ∨
      c = '&' ∨ c = '|' ∨ c = '^')
  | [] => false

/-- `findFunction`: walk the scope chain of defined child-function
names. -/
def inScope (chain : List (List String)) (name : String) : Bool :=
  chain.any (fun kids => kids.contains name)

/-- First builtin with the given name, if any. -/
def findBI (name : String) : Option BI :=
  getBuiltins.find? (fun b => b.bname == name)

/-- Mutable compilation state of one `compileFunction` activation. -/
structure FSt where
  line : Nat
  code : List COp
  kids : List String
  forStack : List Nat
  ifStack : List Nat
  errors : List String
  funcs : List CFunc

/-- Effect of one non-skipped source line on the current function. -/
inductive LineAct where
  | cont (st2 : FSt)
  | stop
  | descend (cname : String) (cparams : List String) (errs2 : List String)

/-- Single-identifier-line dispatch of `compileFunction` (`b0` is the
token body): block keywords with their branch fix-ups, `return`,
`endproc`, zero-argument builtin and script calls. -/
def kwStep (chain : List (List String)) (st : FSt) (ln : Nat)
    (b0 : String) : LineAct :=
  if b0 = "endfor" then
    match st.forStack with
    | [] => .cont { st with
   line := ln
   errors := st.errors ++
        ["\"endfor\" without matching \"for\" in line " ++ toString ln] }
    | j :: fs =>
      let len := st.code.length
      .cont { st with
        line := ln
        code := setTarget (setTarget st.code j len) (j + 1) len ++
          [⟨.cc .forEnd, [], ln, (j : Int) + 1⟩]
        forStack := fs }
  else if b0 = "else" then
    match st.ifStack with
    | [] => .cont { st with
   line := ln
   errors := st.errors ++
        ["\"else\" without matching \"if\" in line " ++ toString ln] }
    | j :: is2 =>
      let len := st.code.length
      .cont { st with
        line := ln
        code := setTarget st.code j len ++
          [⟨.cc .elseCode, [], ln, (j : Int) + 1⟩]
        ifStack := len :: is2 }
  else if b0 = "endif" then
    match st.ifStack with
    | [] => .cont { st with
   line := ln
   errors := st.errors ++
        ["\"endif\" without matching \"if\" in line " ++ toString ln] }
    | j :: is2 =>
      let len := st.code.length
      .cont { st with
        line := ln
        code := setTarget st.code j len ++
          [⟨.cc .endifCode, [], ln, (j : Int) + 1⟩]
        ifStack := is2 }
  else if b0 = "continue" then
    match st.forStack with
    | [] => .cont { st with
   line := ln
   errors := st.errors ++
        ["\"continue\" without matching \"for\" in line " ++ toString ln] }
    | j :: _ =>
      .cont { st with
        line := ln
        code := st.code ++ [⟨.cc .forEnd, [], ln, (j : Int) + 1⟩] }
  else if b0 = "break" then
    match st.forStack with
    | [] => .cont { st with
   line := ln
   errors := st.errors ++
        ["\"break\" without matching \"for\" in line " ++ toString ln] }
    | j :: _ =>
      .cont { st with
        line := ln
        code := st.code ++ [⟨.cc .breakCode, [], ln, (j : Int) + 1⟩] }
  else if b0 = "return" then
    .cont { st with
      line := ln
      code := st.code ++ [⟨.cc .returnCode, [], ln, -1⟩] }
  else if b0 = "endproc" then .stop
  else
    match findBI b0 with
    | some b =>
      if b.bparams.length ≠ 0 then
        .cont { st with
            line := ln
            errors := st.errors ++
          ["Wrong number of arguments in line " ++ toString ln] }
      else
        .cont { st with
          line := ln
          code := st.code ++ [⟨.cbuiltin b0, [], ln, -1⟩] }
    | none =>
      if inScope (st.kids :: chain) b0 then
        .cont { st with
          line := ln
          code := st.code ++ [⟨.ccall b0, [], ln, -1⟩] }
      else
        .cont { st with
            line := ln
            errors := st.errors ++
          ["Syntax error in line " ++ toString ln] }

/-- Multi-token-line dispatch of `compileFunction` when the first token
is an identifier `b0`: `for`, `if`, `proc`, builtin calls, JS
expressions and script calls. -/
def stmtStep (chain : List (List String)) (st : FSt) (ln : Nat)
    (t : List CToken) (b0 : String) : LineAct :=
  if b0 = "for" then
    let e := parseExpressions t 1
    if e.length = 3 then
      .cont { st with
        line := ln
        forStack := st.code.length :: st.forStack
        code := st.code ++
          [⟨.cc .forInit, [e.getD 0 [], e.getD 1 []], ln, -1⟩,
           ⟨.cc .forLoop, [e.getD 1 [], e.getD 2 []], ln, -1⟩] }
    else if e.length = 4 then
      .cont { st with
        line := ln
        code := st.code ++
          [⟨.cc .forInit, [e.getD 0 [], e.getD 1 [], e.getD 3 []], ln, -1⟩,
           ⟨.cc .forLoop, [e.getD 1 [], e.getD 2 [], e.getD 3 []], ln, -1⟩] }
    else
      .cont { st with
          line := ln
          errors := st.errors ++
        ["Syntax error in line " ++ toString ln] }
  else if b0 = "if" then
    let e := parseExpressions t 1
    if e.length = 1 then
      .cont { st with
        line := ln
        ifStack := st.code.length :: st.ifStack
        code := st.code ++ [⟨.cc .ifCode, [e.getD 0 []], ln, -1⟩] }
    else if e.length = 2 then
      .cont { st with
        line := ln
        code := st.code ++ [⟨.cc .ifCode, [e.getD 0 [], e.getD 1 []], ln, -1⟩] }
    else
      .cont { st with
          line := ln
          errors := st.errors ++
        ["Syntax error in line " ++ toString ln] }
  else if b0 = "proc" then
    if (t.getD 1 defTok).ttype ≠ .idT then
      .cont { st with
          line := ln
          errors := st.errors ++
        ["Syntax error in line " ++ toString ln] }
    else
      let cname := (t.getD 1 defTok).body
      let e := if t.length = 2 then [] else parseExpressions t 2
      let errs2 := st.errors ++
        (e.filter (fun ei => ei.length ≠ 1)).map
          (fun _ => "Syntax error in line " ++ toString ln)
      let cparams := e.filterMap
        (fun ei => if ei.length = 1 then some (ei.getD 0 defTok).body else none)
      .descend cname cparams errs2
  else
    let e := parseExpressions t 1
    match findBI b0 with
    | some b =>
      if b.bparams.length ≠ e.length then
        .cont { st with
            line := ln
            errors := st.errors ++
          ["Wrong number of arguments in line " ++ toString ln] }
      else
        .cont { st with
          line := ln
          code := st.code ++ [⟨.cbuiltin b0, e, ln, -1⟩] }
    | none =>
      if opChar (t.getD 1 defTok).body then
        .cont { st with
          line := ln
          code := st.code ++ [⟨.cc .exprCode, [t], ln, -1⟩] }
      else if inScope (st.kids :: chain) b0 then
        .cont { st with
          line := ln
          code := st.code ++ [⟨.ccall b0, e, ln, -1⟩] }
      else
        .cont { st with
            line := ln
            errors := st.errors ++
          ["Unknown command in line " ++ toString ln] }

/-- The per-line dispatch of `compileFunction` (everything inside the
`while` loop after trimming, comment skipping and tokenizing): keyword
handling, branch fix-up, opcode emission and error reporting.  `ln` is
the already-incremented (1-based) line number. -/
def lineStep (chain : List (List String)) (st : FSt) (ln : Nat)
    (t : List CToken) : LineAct :=
  if t.length = 1 ∧ (t.getD 0 defTok).ttype = .idT then
    kwStep chain st ln (t.getD 0 defTok).body
  else if t.length < 2 then
    .cont { st with
        line := ln
        errors := st.errors ++
      ["Syntax error in line " ++ toString ln] }
  else if (t.getD 0 defTok).ttype = .idT then
    stmtStep chain st ln t (t.getD 0 defTok).body
  else
    .cont { st with line := ln }

/-- `compileFunction(parent, fn, args, line)` with explicit fuel: grab
lines until the end of the text or `endproc`, compiling `proc` bodies
recursively; finished functions (own function last) are collected into
the flat result list, and `lastLine`/the next line index are returned
as in the source. -/
def compileGo (text : List String) :
    Nat → List (List String) → String → List String → FSt →
    CFunc × Nat × List String × List CFunc
  | 0, _, fname, params, st =>
    (⟨fname, params, st.code, st.line - 1⟩, st.line, st.errors,
      st.funcs ++ [⟨fname, params, st.code, st.line - 1⟩])
  | fuel + 1, chain, fname, params, st =>
    if text.length ≤ st.line then
      (⟨fname, params, st.code, st.line - 1⟩, st.line, st.errors,
        st.funcs ++ [⟨fname, params, st.code, st.line - 1⟩])
    else
      let l := trimStr (text.getD st.line "")
      let ln := st.line + 1
      if skipLine l then
        compileGo text fuel chain fname params { st with line := ln }
      else
        match lineStep chain st ln (tokenize l) with
        | .cont st2 => compileGo text fuel chain fname params st2
        | .stop =>
          (⟨fname, params, st.code, ln - 1⟩, ln, st.errors,
            st.funcs ++ [⟨fname, params, st.code, ln - 1⟩])
        | .descend cname cparams errs2 =>
          let ch := compileGo text fuel (st.kids :: chain) cname cparams
            ⟨ln, [], [], [], [], errs2, st.funcs⟩
          compileGo text fuel chain fname params
            { st with
              line := ch.2.1
              kids := st.kids ++ [cname]
              errors := ch.2.2.1
              funcs := ch.2.2.2 }

/-- `String.replace(pat, ' ')` with a one-character string pattern:
only the first occurrence is replaced. -/
def replaceFirst : List Char → Char → Char → List Char
  | [], _, _ => []
  | x :: rest, c, r => if x = c then r :: rest else x :: replaceFirst rest c r

def splitLinesGo : List Char → List Char → List (List Char)
  | [], acc => [acc.reverse]
  | c :: rest, acc =>
    if c = '\n' then acc.reverse :: splitLinesGo rest []
    else splitLinesGo rest (c :: acc)

/-- `this.text_`: the script after
`script.replace('\r', ' ').replace('\t', ' ')`, split on newlines. -/
def compileText (script : String) : List String :=
  (splitLinesGo (replaceFirst (replaceFirst script.data '\r' ' ') '\t' ' ') []).map
    (fun l => (⟨l⟩ : String))

/-- `compile(script)`: fold the first `\r` and `\t`, split into lines,
and compile `__main__` from line 0.  Returns the main function, the
next line index, the error list and the flat list of all compiled
functions. -/
def compileTop (script : String) : CFunc × Nat × List String × List CFunc :=
  let text := compileText script
  compileGo text ((text.length + 1) * (text.length + 1)) [] "__main__" []
    ⟨0, [], [], [], [], [], []⟩

/-- C6: `script.replace('\r', ' ')` with a string pattern replaces only
the FIRST occurrence, so a second carriage return (or tab) survives
into the stored source lines, contrary to the spec. -/
theorem compile_replace_first_bug :
    compileText "a\rb\rc" = ["a b\rc"] ∧
    (∃ l ∈ compileText "a\rb\rc", '\r' ∈ l.data) ∧
    compileText "a\tb\tc" = ["a b\tc"] ∧
    (∃ l ∈ compileText "a\tb\tc", '\t' ∈ l.data) := by
  refine ⟨by decide, ⟨"a b\rc", by decide, by decide⟩, by decide,
    ⟨"a b\tc", by decide, by decide⟩⟩

/-- C5 counterexample: a `for` block never closed by `endfor` compiles
without reporting any error, yet its `FOR_INIT` and `FOR_LOOP` opcodes
keep `target = -1` — the fix-up only happens when `endfor` is seen. -/
theorem compile_unclosed_for_counterexample :
    (compileTop "for i=0;i<2;i=i+1").2.2.1 = [] ∧
    (compileTop "for i=0;i<2;i=i+1").1.code.length = 2 ∧
    ((compileTop "for i=0;i<2;i=i+1").1.code.getD 0 defCOp).command =
      .cc .forInit ∧
    ((compileTop "for i=0;i<2;i=i+1").1.code.getD 0 defCOp).target = -1 ∧
    ((compileTop "for i=0;i<2;i=i+1").1.code.getD 1 defCOp).command =
      .cc .forLoop ∧
    ((compileTop "for i=0;i<2;i=i+1").1.code.getD 1 defCOp).target = -1 := by
  refine ⟨by decide, by decide, by decide, by decide, by decide, by decide⟩

/-- The opcodes whose emission always carries a stack-derived target
(`ELSE`, `FOR_END`, `ENDIF`, `BREAK`). -/
def elseLike (c : CCmd) : Prop :=
  c = .cc .elseCode ∨ c = .cc .forEnd ∨ c = .cc .endifCode ∨ c = .cc .breakCode

instance (c : CCmd) : Decidable (elseLike c) := by
  rw [elseLike]
  infer_instance

/-- Every `ELSE`/`FOR_END`/`ENDIF`/`BREAK` opcode of a code list has a
non-negative target. -/
def opsOk (ops : List COp) : Prop :=
  ∀ op ∈ ops, elseLike op.command → 0 ≤ op.target

theorem opsOk_nil : opsOk [] := fun op h => absurd h (List.not_mem_nil op)

theorem opsOk_append1 (ops : List COp) (op : COp) (h : opsOk ops)
    (h2 : elseLike op.command → 0 ≤ op.target) : opsOk (ops ++ [op]) := by
  intro x hx
  rcases List.mem_append.mp hx with hm | hm
  · exact h x hm
  · simp only [List.mem_singleton] at hm
    rw [hm]
    exact h2

theorem opsOk_append2 (ops : List COp) (o1 o2 : COp) (h : opsOk ops)
    (h1 : elseLike o1.command → 0 ≤ o1.target)
    (h2 : elseLike o2.command → 0 ≤ o2.target) : opsOk (ops ++ [o1, o2]) := by
  intro x hx
  rcases List.mem_append.mp hx with hm | hm
  · exact h x hm
  · rcases List.mem_cons.mp hm with hm2 | hm2
    · rw [hm2]
      exact h1
    · simp only [List.mem_singleton] at hm2
      rw [hm2]
      exact h2

theorem opsOk_setTarget (ops : List COp) (j : Nat) (v : Int) (hv : 0 ≤ v)
    (h : opsOk ops) : opsOk (setTarget ops j v) := by
  intro x hx
  rw [setTarget] at hx
  rcases List.mem_or_eq_of_mem_set hx with hm | hm
  · exact h x hm
  · rw [hm]
    intro _
    exact hv

theorem not_elseLike_builtin (name : String) : ¬ elseLike (.cbuiltin name) := by
  intro hx
  rcases hx with h | h | h | h <;> cases h

theorem not_elseLike_call (name : String) : ¬ elseLike (.ccall name) := by
  intro hx
  rcases hx with h | h | h | h <;> cases h

/-- Every `.cont` outcome of a single-identifier line keeps the target
invariant and does not touch the collected function list. -/
theorem kwStep_opsOk (chain : List (List String)) (st : FSt) (ln : Nat)
    (b0 : String) (h : opsOk st.code) :
    ∀ st2, kwStep chain st ln b0 = .cont st2 →
      opsOk st2.code ∧ st2.funcs = st.funcs := by
  intro st2 hst
  rw [kwStep] at hst
  split at hst
  · -- endfor
    split at hst
    · injection hst with h2
      rw [← h2]
      exact ⟨h, rfl⟩
    · injection hst with h2
      rw [← h2]
      refine ⟨opsOk_append1 _ _ (opsOk_setTarget _ _ _ (by omega)
        (opsOk_setTarget _ _ _ (by omega) h)) (fun _ => by dsimp only; omega), rfl⟩
  · split at hst
    · -- else
      split at hst
      · injection hst with h2
        rw [← h2]
        exact ⟨h, rfl⟩
      · injection hst with h2
        rw [← h2]
        refine ⟨opsOk_append1 _ _ (opsOk_setTarget _ _ _ (by omega) h)
          (fun _ => by dsimp only; omega), rfl⟩
    · split at hst
      · -- endif
        split at hst
        · injection hst with h2
          rw [← h2]
          exact ⟨h, rfl⟩
        · injection hst with h2
          rw [← h2]
          refine ⟨opsOk_append1 _ _ (opsOk_setTarget _ _ _ (by omega) h)
            (fun _ => by dsimp only; omega), rfl⟩
      · split at hst
        · -- continue
          split at hst
          · injection hst with h2
            rw [← h2]
            exact ⟨h, rfl⟩
          · injection hst with h2
            rw [← h2]
            exact ⟨opsOk_append1 _ _ h (fun _ => by dsimp only; omega), rfl⟩
        · split at hst
          · -- break
            split at hst
            · injection hst with h2
              rw [← h2]
              exact ⟨h, rfl⟩
            · injection hst with h2
              rw [← h2]
              exact ⟨opsOk_append1 _ _ h (fun _ => by dsimp only; omega), rfl⟩
          · split at hst
            · -- return
              injection hst with h2
              rw [← h2]
              exact ⟨opsOk_append1 _ _ h (fun hx => absurd hx (by dsimp only; decide)),
                rfl⟩
            · split at hst
              · -- endproc
                cases hst
              · -- builtin with no arguments, script call or syntax error
                split at hst
                · split at hst
                  · injection hst with h2
                    rw [← h2]
                    exact ⟨h, rfl⟩
                  · injection hst with h2
                    rw [← h2]
                    exact ⟨opsOk_append1 _ _ h
                      (fun hx => absurd hx (not_elseLike_builtin _)), rfl⟩
                · split at hst
                  · injection hst with h2
                    rw [← h2]
                    exact ⟨opsOk_append1 _ _ h
                      (fun hx => absurd hx (not_elseLike_call _)), rfl⟩
                  · injection hst with h2
                    rw [← h2]
                    exact ⟨h, rfl⟩

/-- Every `.cont` outcome of a multi-token statement line keeps the
target invariant and does not touch the collected function list. -/
theorem stmtStep_opsOk (chain : List (List String)) (st : FSt) (ln : Nat)
    (t : List CToken) (b0 : String) (h : opsOk st.code) :
    ∀ st2, stmtStep chain st ln t b0 = .cont st2 →
      opsOk st2.code ∧ st2.funcs = st.funcs := by
  intro st2 hst
  rw [stmtStep] at hst
  dsimp only at hst
  split at hst
  · -- for
    split at hst
    · injection hst with h2
      rw [← h2]
      exact ⟨opsOk_append2 _ _ _ h (fun hx => absurd hx (by dsimp only; decide))
        (fun hx => absurd hx (by dsimp only; decide)), rfl⟩
    · split at hst
      · injection hst with h2
        rw [← h2]
        exact ⟨opsOk_append2 _ _ _ h (fun hx => absurd hx (by dsimp only; decide))
          (fun hx => absurd hx (by dsimp only; decide)), rfl⟩
      · injection hst with h2
        rw [← h2]
        exact ⟨h, rfl⟩
  · split at hst
    · -- if
      split at hst
      · injection hst with h2
        rw [← h2]
        exact ⟨opsOk_append1 _ _ h (fun hx => absurd hx (by dsimp only; decide)), rfl⟩
      · split at hst
        · injection hst with h2
          rw [← h2]
          exact ⟨opsOk_append1 _ _ h (fun hx => absurd hx (by dsimp only; decide)), rfl⟩
        · injection hst with h2
          rw [← h2]
          exact ⟨h, rfl⟩
    · split at hst
      · -- proc
        split at hst
        · injection hst with h2
          rw [← h2]
          exact ⟨h, rfl⟩
        · cases hst
      · -- builtin call, JS expression or script call
        split at hst
        · split at hst
          · injection hst with h2
            rw [← h2]
            exact ⟨h, rfl⟩
          · injection hst with h2
            rw [← h2]
            exact ⟨opsOk_append1 _ _ h (fun hx => absurd hx (not_elseLike_builtin _)),
              rfl⟩
        · split at hst
          · injection hst with h2
            rw [← h2]
            exact ⟨opsOk_append1 _ _ h (fun hx => absurd hx (by dsimp only; decide)),
              rfl⟩
          · split at hst
            · injection hst with h2
              rw [← h2]
              exact ⟨opsOk_append1 _ _ h (fun hx => absurd hx (not_elseLike_call _)),
                rfl⟩
            · injection hst with h2
              rw [← h2]
              exact ⟨h, rfl⟩

/-- Every `.cont` outcome of one line keeps the target invariant and
does not touch the collected function list. -/
theorem lineStep_opsOk (chain : List (List String)) (st : FSt) (ln : Nat)
    (t : List CToken) (h : opsOk st.code) :
    ∀ st2, lineStep chain st ln t = .cont st2 →
      opsOk st2.code ∧ st2.funcs = st.funcs := by
  intro st2 hst
  rw [lineStep] at hst
  split at hst
  · exact kwStep_opsOk chain st ln _ h st2 hst
  · split at hst
    · injection hst with h2
      rw [← h2]
      exact ⟨h, rfl⟩
    · split at hst
      · exact stmtStep_opsOk chain st ln t _ h st2 hst
      · injection hst with h2
        rw [← h2]
        exact ⟨h, rfl⟩

/-- The compile loop keeps the target invariant for the function being
built and for every function it finishes. -/
theorem compileGo_opsOk (text : List String) :
    ∀ (fuel : Nat) (chain : List (List String)) (fname : String)
      (params : List String) (st : FSt),
      opsOk st.code → (∀ f ∈ st.funcs, opsOk f.code) →
      opsOk (compileGo text fuel chain fname params st).1.code ∧
      (∀ f ∈ (compileGo text fuel chain fname params st).2.2.2,
        opsOk f.code) := by
  intro fuel
  induction fuel with
  | zero =>
    intro chain fname params st h1 h2
    rw [compileGo]
    refine ⟨h1, ?_⟩
    intro f hf
    rcases List.mem_append.mp hf with hm | hm
    · exact h2 f hm
    · simp only [List.mem_singleton] at hm
      rw [hm]
      exact h1
  | succ fuel ih =>
    intro chain fname params st h1 h2
    rw [compileGo]
    split
    · refine ⟨h1, ?_⟩
      intro f hf
      rcases List.mem_append.mp hf with hm | hm
      · exact h2 f hm
      · simp only [List.mem_singleton] at hm
        rw [hm]
        exact h1
    · dsimp only
      split
      · exact ih chain fname params _ h1 h2
      · split
        · rename_i st2 hst2
          have hls := lineStep_opsOk chain st _ _ h1 st2 hst2
          refine ih chain fname params st2 hls.1 ?_
          rw [hls.2]
          exact h2
        · refine ⟨h1, ?_⟩
          intro f hf
          rcases List.mem_append.mp hf with hm | hm
          · exact h2 f hm
          · simp only [List.mem_singleton] at hm
            rw [hm]
            exact h1
        · rename_i cname cparams errs2 hdesc
          have hch := ih (st.kids :: chain) cname cparams
            ⟨st.line + 1, [], [], [], [], errs2, st.funcs⟩ opsOk_nil h2
          exact ih chain fname params _ h1 hch.2

/-- C5, amended: after any compilation (error-free or not) every
`ELSE`, `FOR_END`, `ENDIF` and `BREAK` opcode of every compiled
function has `target ≥ 0` — those targets come from a stack index or
the current code length at emission, and fix-ups only write the code
length.  The original claim is false for `FOR_INIT`/`FOR_LOOP`/`IF`:
those are emitted with `target = -1` and fixed up only by a matching
`endfor`/`else`/`endif`, so an unclosed block (or the four-expression
`for` and two-expression `if` forms, which push no stack entry) leaves
`target = -1` while the error list stays empty (see the
counterexample). -/
theorem compile_branch_targets :
    ∀ (script : String) (f : CFunc) (op : COp),
      f ∈ (compileTop script).2.2.2 → op ∈ f.code →
      (op.command = .cc .elseCode ∨ op.command = .cc .forEnd ∨
        op.command = .cc .endifCode ∨ op.command = .cc .breakCode) →
      0 ≤ op.target := by
  intro script f op hf hop hcmd
  have h := compileGo_opsOk (compileText script)
    (((compileText script).length + 1) * ((compileText script).length + 1))
    [] "__main__" [] ⟨0, [], [], [], [], [], []⟩ opsOk_nil
    (fun g hg => absurd hg (List.not_mem_nil g))
  exact h.2 f hf op hop hcmd

/-- Witness for the amended C5 theorem: in `if i<1 / else / endif` the
`else` opcode of `__main__` carries target 2 ≥ 0. -/
theorem compile_branch_targets_witness :
    ((compileTop "if i<1\nelse\nendif").1 ∈
        (compileTop "if i<1\nelse\nendif").2.2.2 ∧
      ((compileTop "if i<1\nelse\nendif").1.code.getD 1 defCOp) ∈
        (compileTop "if i<1\nelse\nendif").1.code ∧
      ((compileTop "if i<1\nelse\nendif").1.code.getD 1 defCOp).command =
        .cc .elseCode) ∧
    0 ≤ ((compileTop "if i<1\nelse\nendif").1.code.getD 1 defCOp).target :=
  ⟨⟨by decide, by decide, by decide⟩,
    compile_branch_targets "if i<1\nelse\nendif"
      (compileTop "if i<1\nelse\nendif").1
      ((compileTop "if i<1\nelse\nendif").1.code.getD 1 defCOp)
      (by decide) (by decide) (Or.inl (by decide))⟩

/-- C1 counterexample: the forward `Measure` step writes the
`measured_value` pseudo-cell (from 7 to 0), yet `stepBack` does not
restore it to 7 — measurement writes bypass `saveValue_`, so the undo
record is empty; `currentFunc`/`currentStep` are restored. -/
theorem runStep_stepBack_measure_counterexample :
    baseState.measuredValue = 7 ∧
    (runStep pMeasure baseState).measuredValue = 0 ∧
    (runStep pMeasure baseState).history = [⟨[], [], 0, 0⟩] ∧
    (stepBack pMeasure (runStep pMeasure baseState)).measuredValue = 0 ∧
    (stepBack pMeasure (runStep pMeasure baseState)).currentFunc = 0 ∧
    (stepBack pMeasure (runStep pMeasure baseState)).currentStep = 0 ∧
    ((0 : ℤ) ≠ 7) := by
  refine ⟨by decide, by decide, by decide, by decide, by decide, by decide,
    by decide⟩

end QPlay
